import Mathlib

/-!
# learn_threejs: the simulation core of the games

A shallow embedding of the frame logic of the games under `src/`:
the conveyor, the score and the frame loop of the first game, the diamonds, the monsters
and the frame loop of the second game, the bullets, enemies and frame loop of the third
game, the follow camera of the fourth and fifth games, and the character state machine,
the follow light, the pickups and the wall probe of the fifth game.

JavaScript numbers are modelled by exact rationals (reals for `Math.pow`), counters by
integers, objects by records carrying a reference number, and calls into the rendering
library and on the entities by the traces of calls made.
-/

/-! ## The rendering library, as far as the games use it -/

namespace Three

/-- A coordinate of a volume: a rational, or one of the two infinities an empty
`Box3` holds. -/
inductive Number
  | negInfinity
  | finite (q : ℚ)
  | posInfinity
deriving DecidableEq

/-- The comparison `a < b` of two coordinates. -/
def Number.lt : Number → Number → Bool
  | .negInfinity, .negInfinity => false
  | .negInfinity, .finite _ => true
  | .negInfinity, .posInfinity => true
  | .finite _, .negInfinity => false
  | .finite a, .finite b => decide (a < b)
  | .finite _, .posInfinity => true
  | .posInfinity, _ => false

/-- A `Vector3` with components in `α`. -/
structure Vector3 (α : Type) where
  x : α
  y : α
  z : α
deriving DecidableEq

/-- Method `Vector3.lerp(v, alpha)`: each component moves by `(v - this) * alpha`. -/
def Vector3.lerp {α : Type} [Add α] [Sub α] [Mul α] (self v : Vector3 α) (alpha : α) :
    Vector3 α :=
  { x := self.x + (v.x - self.x) * alpha
    y := self.y + (v.y - self.y) * alpha
    z := self.z + (v.z - self.z) * alpha }

/-- Method `Vector3.add(v)`. -/
def Vector3.add {α : Type} [Add α] (self v : Vector3 α) : Vector3 α :=
  { x := self.x + v.x, y := self.y + v.y, z := self.z + v.z }

/-- Method `Vector3.sub(v)`. -/
def Vector3.sub {α : Type} [Sub α] (self v : Vector3 α) : Vector3 α :=
  { x := self.x - v.x, y := self.y - v.y, z := self.z - v.z }

/-- Method `Vector3.multiplyScalar(scalar)`. -/
def Vector3.multiplyScalar {α : Type} [Mul α] (self : Vector3 α) (scalar : α) : Vector3 α :=
  { x := self.x * scalar, y := self.y * scalar, z := self.z * scalar }

/-- A `Box3`: the corners `min` and `max`. -/
structure Box3 where
  min : Vector3 Number
  max : Vector3 Number
deriving DecidableEq

/-- Constructor `new THREE.Box3()`: `min` is `+Infinity` and `max` is `-Infinity` on every axis. -/
def Box3.new : Box3 :=
  { min := { x := .posInfinity, y := .posInfinity, z := .posInfinity }
    max := { x := .negInfinity, y := .negInfinity, z := .negInfinity } }

/-- Method `makeEmpty()`: back to the corners of a new box. -/
def Box3.makeEmpty (_self : Box3) : Box3 := Box3.new

/-- Method `setFromCenterAndSize(center, size)`: `min = center - size/2`, `max = center + size/2`. -/
def Box3.setFromCenterAndSize (_self : Box3) (center size : Vector3 ℚ) : Box3 :=
  { min := { x := .finite (center.x - size.x * (1 / 2))
             y := .finite (center.y - size.y * (1 / 2))
             z := .finite (center.z - size.z * (1 / 2)) }
    max := { x := .finite (center.x + size.x * (1 / 2))
             y := .finite (center.y + size.y * (1 / 2))
             z := .finite (center.z + size.z * (1 / 2)) } }

/-- Method `intersectsBox(box)`: false as soon as one of the six separating tests holds. -/
def Box3.intersectsBox (self box : Box3) : Bool :=
  if box.max.x.lt self.min.x || self.max.x.lt box.min.x ||
     box.max.y.lt self.min.y || self.max.y.lt box.min.y ||
     box.max.z.lt self.min.z || self.max.z.lt box.min.z then false else true

/-- The calls a game makes into the library and the browser that the properties speak
about. Objects and meshes are named by their reference number; `makeEmpty` names the
entity owning the volume. -/
inductive Effect
  | sceneAdd (obj : Nat)
  | sceneRemove (obj : Nat)
  | geometryDispose (mesh : Nat)
  | materialDispose (mesh : Nat)
  | makeEmpty (owner : Nat)
  | render
  | requestAnimationFrame
deriving DecidableEq, Repr

/-- The call empties a volume. -/
def Effect.isMakeEmpty : Effect → Bool
  | .makeEmpty _ => true
  | _ => false

/-- The call disposes a geometry or a material. -/
def Effect.isDispose : Effect → Bool
  | .geometryDispose _ => true
  | .materialDispose _ => true
  | _ => false

/-- The call detaches an object from the scene. -/
def Effect.isSceneRemove : Effect → Bool
  | .sceneRemove _ => true
  | _ => false

/-- In the trace `tr` every call of kind `p` is made before every call of kind `q`:
no call of kind `q` is followed, at any distance, by a call of kind `p`. -/
def Precedes (p q : Effect → Bool) (tr : List Effect) : Prop :=
  tr.Pairwise (fun a b => ¬ (q a = true ∧ p b = true))

instance (p q : Effect → Bool) (tr : List Effect) : Decidable (Precedes p q tr) := by
  unfold Precedes
  infer_instance

/-- The element `_el` that shows the end of a game. -/
structure Element where
  innerText : String
  visibility : String
deriving DecidableEq, Repr

end Three

/-! ## The numbers of the games: IEEE 754 doubles -/

namespace Binary64

/-- The number of binary digits of `n`, found in at most `fuel` halvings. -/
def bitLengthAux : Nat → Nat → Nat
  | 0, _ => 0
  | fuel + 1, n => if n = 0 then 0 else bitLengthAux fuel (n / 2) + 1

/-- The number of binary digits of `n`: 0 for 0, and `k` when `2 ^ (k - 1) ≤ n < 2 ^ k`. -/
def bitLength (n : Nat) : Nat := bitLengthAux n n

/-- The exponent `e` with `2 ^ e ≤ |q| < 2 ^ (e + 1)`, for `q` other than 0. -/
def floorLog2 (q : ℚ) : ℤ :=
  let l : ℤ := (bitLength q.num.natAbs : ℤ) - (bitLength q.den : ℤ)
  if (2 : ℚ) ^ l ≤ |q| then l else l - 1

/-- The exponent of the spacing of the doubles around `q`: 52 below the exponent of
`q`, and -1074 in the range of the subnormal numbers. -/
def exponent (q : ℚ) : ℤ := max (floorLog2 q - 52) (-1074)

/-- The integer nearest to `x`, the even one of the two when `x` lies half way. -/
def roundHalfEven (x : ℚ) : ℤ :=
  if x - ⌊x⌋ < 1 / 2 then ⌊x⌋
  else if 1 / 2 < x - ⌊x⌋ then ⌊x⌋ + 1
  else if ⌊x⌋ % 2 = 0 then ⌊x⌋ else ⌊x⌋ + 1

/-- The double nearest to `q`, the one with the even significand of two that are
equally near: the rounding JavaScript applies to the exact result of `+`, `-` and `*`
and to a decimal literal. The largest finite double is not modelled: a result beyond it
would be `Infinity`. -/
def nearest (q : ℚ) : ℚ := (roundHalfEven (q / 2 ^ exponent q) : ℚ) * 2 ^ exponent q

/-- A double, by its value. Its literals and its `+`, `-` and `*` round to the nearest
double. -/
structure Double where
  value : ℚ
deriving DecidableEq

instance : RatCast Double := ⟨fun q => ⟨nearest q⟩⟩

instance : Add Double := ⟨fun a b => ⟨nearest (a.value + b.value)⟩⟩

instance : Sub Double := ⟨fun a b => ⟨nearest (a.value - b.value)⟩⟩

instance : Mul Double := ⟨fun a b => ⟨nearest (a.value * b.value)⟩⟩

end Binary64

/-! ## Fifth game: the character state machine -/

namespace FifthGame

/-- The state classes registered by `CharacterFSM._init`. -/
inductive StateClass
  | Idle
  | Run
  | WalkBackward
deriving DecidableEq, Repr

/-- The getter `Name` of each state class. -/
def StateClass.Name : StateClass → String
  | .Idle => "Idle"
  | .Run => "Run"
  | .WalkBackward => "WalkBackward"

/-- A state object, as created by `new this._states[name](this)`.
`ref` is the identity of the object: two objects of the same class differ in it. -/
structure State where
  cls : StateClass
  ref : Nat
deriving DecidableEq, Repr

/-- The getter `Name` read on a state object. -/
def State.Name (s : State) : String := s.cls.Name

/-- The property `name` (lower case) read on a state object. Neither `State` nor a
subclass defines it, the classes only define the getter `Name`, so the read gives
`undefined`, here `none`. -/
def State.name (_s : State) : Option String := none

/-- The calls the state machine makes, in the order they are made: `exit` and `enter`
on state objects, and the animation calls on the action bound to a clip name. -/
inductive Call
  | exit (s : State)
  | enter (s : State) (prevState : Option State)
  | fadeOut (clip : String) (duration : ℚ)
  | reset (clip : String)
  | fadeIn (clip : String) (duration : ℚ)
  | play (clip : String)
deriving DecidableEq, Repr

/-- The animation calls are `fadeOut`, `reset`, `fadeIn` and `play`. -/
def Call.isAnimation : Call → Bool
  | .exit _ => false
  | .enter _ _ => false
  | _ => true

/-- The state machine of `FiniteStateMachine` / `CharacterFSM`: the registry `_states`,
the field `_currentState`, the clip names bound in `_proxy._animations`, the number of
state objects created so far and the trace of calls made. -/
structure FiniteStateMachine where
  states : List (String × StateClass)
  currentState : Option State
  animations : List String
  created : Nat
  calls : List Call
deriving DecidableEq, Repr

/-- Method `_addState(name, type)`: `this._states[name] = type`. -/
def FiniteStateMachine._addState (m : FiniteStateMachine) (name : String) (type : StateClass) :
    FiniteStateMachine :=
  { m with states := (name, type) :: m.states.filter (fun e => e.1 != name) }

/-- Constructor `new CharacterFSM(proxy)`: the base constructor followed by `_init`, which registers
the three states. `animations` holds the clip names of the proxy's dictionary. -/
def CharacterFSM.new (animations : List String) : FiniteStateMachine :=
  let m : FiniteStateMachine :=
    { states := [], currentState := none, animations := animations, created := 0, calls := [] }
  ((m._addState "Idle" .Idle)._addState "Run" .Run)._addState "WalkBackward" .WalkBackward

/-- The machine as `Player.init` leaves it right before its `setState('Idle')`:
`load('Idle')`, `load('Run')` and `load('WalkBackward')` have bound the three clips. -/
def Player.loadedFSM : FiniteStateMachine :=
  CharacterFSM.new ["Idle", "Run", "WalkBackward"]

/-- The body shared by `Idle.enter`, `Run.enter` and `WalkBackward.enter`, for the clip
name `curr` the class hard-codes. Reading `.action` of a clip that is not bound throws
(`none`). With a previous state its action fades out and the current action is reset,
faded in and played; without one the current action is only played. -/
def enterBody (m : FiniteStateMachine) (curr : String) (prevState : Option State) :
    Option FiniteStateMachine :=
  if curr ∈ m.animations then
    match prevState with
    | some p =>
      if p.Name ∈ m.animations then
        some { m with calls := m.calls ++
          [Call.fadeOut p.Name (1 / 4), Call.reset curr, Call.fadeIn curr (1 / 4), Call.play curr] }
      else none
    | none => some { m with calls := m.calls ++ [Call.play curr] }
  else none

/-- The method `enter(prevState)` of a state object, by class. -/
def State.enter (s : State) (m : FiniteStateMachine) (prevState : Option State) :
    Option FiniteStateMachine :=
  let m1 := { m with calls := m.calls ++ [Call.enter s prevState] }
  match s.cls with
  | .Idle => enterBody m1 "Idle" prevState
  | .Run => enterBody m1 "Run" prevState
  | .WalkBackward => enterBody m1 "WalkBackward" prevState

/-- The method `exit()`: inherited from `State`, its body is empty. -/
def State.exit (s : State) (m : FiniteStateMachine) : FiniteStateMachine :=
  { m with calls := m.calls ++ [Call.exit s] }

/-- The tail of `setState`: construct the state registered under `name`, make it
current and enter it. An unregistered name makes `new` throw (`none`). -/
def FiniteStateMachine.install (m : FiniteStateMachine) (name : String)
    (prevState : Option State) : Option FiniteStateMachine :=
  match m.states.lookup name with
  | none => none
  | some type =>
    let state : State := { cls := type, ref := m.created }
    state.enter { m with created := m.created + 1, currentState := some state } prevState

/-- Method `setState(name)`. The guard compares `prevState.name`, not `prevState.Name`. -/
def FiniteStateMachine.setState (m : FiniteStateMachine) (name : String) :
    Option FiniteStateMachine :=
  let prevState := m.currentState
  match prevState with
  | some p =>
    if p.name = some name then some m
    else (p.exit m).install name prevState
  | none => m.install name prevState

/-- A sequence of `setState` calls, one after the other. -/
def FiniteStateMachine.setStates (m : FiniteStateMachine) :
    List String → Option FiniteStateMachine
  | [] => some m
  | name :: rest =>
    match m.setState name with
    | none => none
    | some m1 => m1.setStates rest

/-- The registry and the bound clips are those of the player's machine. -/
def FiniteStateMachine.Loaded (m : FiniteStateMachine) : Prop :=
  m.states = Player.loadedFSM.states ∧ m.animations = Player.loadedFSM.animations

/-- The animation calls `enter` makes for the clip `curr`, by previous state. -/
def enterCalls (curr : String) : Option State → List Call
  | some p =>
    [Call.fadeOut p.Name (1 / 4), Call.reset curr, Call.fadeIn curr (1 / 4), Call.play curr]
  | none => [Call.play curr]

/-- The `exit` call `setState` makes on the outgoing state, when there is one. -/
def exitCalls : Option State → List Call
  | some p => [Call.exit p]
  | none => []

/-! ## Fifth game: the wall probe and the pickups -/

/-- The fields of the fifth game's `Player` that `collision` reads and writes. -/
structure Player where
  fBump : Bool
  bBump : Bool
deriving DecidableEq, Repr

/-- One entry of the list `Raycaster.intersectObject` returns. -/
structure Intersection where
  distance : ℚ
deriving DecidableEq, Repr

/-- The loop `for (let f of fCollide) { if (f.distance < 1.5) this._fBump = true }`. -/
def Player.fLoop (fBump : Bool) : List Intersection → Bool
  | [] => fBump
  | f :: rest => Player.fLoop (if f.distance < 3 / 2 then true else fBump) rest

/-- The loop `for (let b of bCollide) { this._bBump = true }`. -/
def Player.bLoop (bBump : Bool) : List Intersection → Bool
  | [] => bBump
  | _ :: rest => Player.bLoop true rest

/-- Method `Player.collision(obj)`. `fCollide` and `bCollide` are what the two rays
(near 0, far 2) report for `obj` in this call. -/
def Player.collision (p : Player) (fCollide bCollide : List Intersection) : Player :=
  let fBump1 := if fCollide.length = 0 && p.fBump = true then false else p.fBump
  let fBump2 := Player.fLoop fBump1 fCollide
  let bBump1 := if bCollide.length = 0 && p.bBump = true then false else p.bBump
  let bBump2 := Player.bLoop bBump1 bCollide
  { fBump := fBump2, bBump := bBump2 }

/-- A node visited by `traverse`, with its `isMesh` flag. -/
structure Node where
  ref : Nat
  isMesh : Bool
deriving DecidableEq, Repr

/-- The model object of a chicken: its reference, its position and the nodes
`traverse` visits (the object itself and its descendants), in order. -/
structure Object3D where
  ref : Nat
  position : Three.Vector3 ℚ
  nodes : List Node
deriving DecidableEq

/-- The fields of `Chicken`: `_chicken` (`none` once it is `null`), `_box3`, `_delay`. -/
structure Chicken where
  chicken : Option Object3D
  box3 : Three.Box3
  delay : Int
deriving DecidableEq

/-- Constructor `new Chicken(chicken, animations, posX, posZ)`. -/
def Chicken.new (chicken : Object3D) (posX posZ : ℚ) : Chicken :=
  { chicken := some { chicken with position := { x := posX, y := 1 / 2, z := posZ } }
    box3 := Three.Box3.new
    delay := 0 }

/-- Method `_calculateBox3()`: a box of size 1 centred a quarter above the position, unless
`_chicken` is `null`. -/
def Chicken._calculateBox3 (c : Chicken) : Chicken :=
  match c.chicken with
  | some obj =>
    let center := ({ x := 0, y := 1 / 4, z := 0 } : Three.Vector3 ℚ).add obj.position
    let size : Three.Vector3 ℚ := { x := 1, y := 1, z := 1 }
    { c with box3 := c.box3.setFromCenterAndSize center size }
  | none => c

/-- Method `update(dt)`: recomputes the volume; the animation mixer does not touch the fields
modelled here. -/
def Chicken.update (c : Chicken) : Chicken := c._calculateBox3

/-- The callback of `traverse` in `collision`: a mesh has its geometry and its material
disposed. -/
def Chicken.disposeNodes : List Node → List Three.Effect
  | [] => []
  | obj :: rest =>
    (if obj.isMesh then [Three.Effect.geometryDispose obj.ref, Three.Effect.materialDispose obj.ref]
     else []) ++ Chicken.disposeNodes rest

/-- Method `collision(box, scene)`, with the calls it makes. Calling `traverse` on a `_chicken`
that is `null` throws (`none`). -/
def Chicken.collision (c : Chicken) (box : Three.Box3) : Option (Chicken × List Three.Effect) :=
  if c.box3.intersectsBox box then
    let c1 := { c with delay := c.delay + 1 }
    if c1.delay > 10 then
      match c1.chicken with
      | none => none
      | some obj =>
        some ({ c1 with box3 := c1.box3.makeEmpty, chicken := none },
          [Three.Effect.makeEmpty obj.ref] ++ Chicken.disposeNodes obj.nodes ++
            [Three.Effect.sceneRemove obj.ref])
    else some (c1, [])
  else some (c, [])

/-- The part of one `animate` call that concerns one chicken: `c.update(dt)` and then
`c.collision(playerBox, scene)`. -/
def Chicken.frame (c : Chicken) (playerBox : Three.Box3) : Option (Chicken × List Three.Effect) :=
  c.update.collision playerBox

/-- Consecutive frames of one chicken, one player volume per frame; the result lists
the calls of each frame. -/
def Chicken.frames (c : Chicken) : List Three.Box3 → Option (Chicken × List (List Three.Effect))
  | [] => some (c, [])
  | playerBox :: rest =>
    match c.frame playerBox with
    | none => none
    | some (c1, effects) =>
      match Chicken.frames c1 rest with
      | none => none
      | some (c2, later) => some (c2, effects :: later)

/-- The fifth game's `Player._calculateBox3`: a box of size (1, 4, 1) centred two above
the player's position. -/
def Player._calculateBox3 (box3 : Three.Box3) (position : Three.Vector3 ℚ) : Three.Box3 :=
  let coef : Three.Vector3 ℚ := { x := 0, y := 2, z := 0 }
  let size : Three.Vector3 ℚ := { x := 1, y := 4, z := 1 }
  let center := coef.add position
  box3.setFromCenterAndSize center size

end FifthGame


/-! ## Third game: bullets, enemies and the frame loop -/

namespace ThirdGame

open Three

/-- A `Block`: its mesh and the volume set once in the constructor. -/
structure Block where
  ref : Nat
  box3 : Box3
deriving DecidableEq

/-- An `Enemy`: its mesh, its volume and `_hp`. -/
structure Enemy where
  ref : Nat
  box3 : Box3
  hp : Int
deriving DecidableEq

/-- Constructor `new Enemy(posX, posZ)`: an empty volume and nine health points. -/
def Enemy.new (ref : Nat) : Enemy := { ref := ref, box3 := Box3.new, hp := 9 }

/-- Method `Enemy.decreaseHP()`. -/
def Enemy.decreaseHP (e : Enemy) : Enemy := { e with hp := e.hp - 1 }

/-- Method `Enemy.getHP()`. -/
def Enemy.getHP (e : Enemy) : Int := e.hp

/-- Method `Enemy.update(dt, target)`: the enemy turns to the target and moves; `volume` is
the box `setFromObject` then computes for its mesh. -/
def Enemy.update (e : Enemy) (volume : Box3) : Enemy := { e with box3 := volume }

/-- Method `Intersect.checkCollision(playerBox)` on an enemy. -/
def Enemy.checkCollision (e : Enemy) (playerBox : Box3) : Bool :=
  if e.box3.intersectsBox playerBox then true else false

/-- Method `Enemy.remove()`, with the calls it makes in order. -/
def Enemy.remove (e : Enemy) : Enemy × List Effect :=
  ({ e with box3 := e.box3.makeEmpty },
    [Effect.geometryDispose e.ref, Effect.materialDispose e.ref, Effect.makeEmpty e.ref])

/-- A `Bullet`: its mesh, its volume, `_newBullet`, `_shouldRemove` and `_hp`. -/
structure Bullet where
  ref : Nat
  box3 : Box3
  newBullet : Bool
  shouldRemove : Bool
  hp : Int
deriving DecidableEq

/-- Constructor `new Bullet(matrix4)`. -/
def Bullet.new (ref : Nat) : Bullet :=
  { ref := ref, box3 := Box3.new, newBullet := true, shouldRemove := false, hp := 3 }

/-- Method `Bullet.update(dt)`: the bullet moves; `volume` is the box `setFromObject` then
computes for its mesh. -/
def Bullet.update (b : Bullet) (volume : Box3) : Bullet := { b with box3 := volume }

/-- The loop over the enemies in `Bullet.checkCollision`: every enemy whose volume the
bullet's volume intersects costs the bullet one hit and the enemy one health point. -/
def Bullet.enemyLoop (b : Bullet) : List Enemy → Bullet × List Enemy
  | [] => (b, [])
  | enemy :: rest =>
    if b.box3.intersectsBox enemy.box3 then
      let r := Bullet.enemyLoop { b with hp := b.hp - 1 } rest
      (r.1, enemy.decreaseHP :: r.2)
    else
      let r := Bullet.enemyLoop b rest
      (r.1, enemy :: r.2)

/-- The loop over the walls in `Bullet.checkCollision`: a wall hit sets `_hp` to 0. -/
def Bullet.wallLoop (b : Bullet) : List Block → Bullet
  | [] => b
  | wall :: rest =>
    if b.box3.intersectsBox wall.box3 then Bullet.wallLoop { b with hp := 0 } rest
    else Bullet.wallLoop b rest

/-- Method `Bullet.checkCollision(enemies, walls)`: the bullet and the enemies after the call. -/
def Bullet.checkCollision (b : Bullet) (enemies : List Enemy) (walls : List Block) :
    Bullet × List Enemy :=
  let r := b.enemyLoop enemies
  let b1 := r.1.wallLoop walls
  let b2 := if b1.hp ≤ 0 then { b1 with shouldRemove := true } else b1
  (b2, r.2)

/-- Method `Bullet.getIsNewBullet()`. -/
def Bullet.getIsNewBullet (b : Bullet) : Bool := b.newBullet

/-- Method `Bullet.setIsNewBullet()`. -/
def Bullet.setIsNewBullet (b : Bullet) : Bullet := { b with newBullet := false }

/-- Method `Bullet.getShouldRemove()`. -/
def Bullet.getShouldRemove (b : Bullet) : Bool := b.shouldRemove

/-- Method `Bullet.remove()`, with the calls it makes in order. -/
def Bullet.remove (b : Bullet) : Bullet × List Effect :=
  ({ b with box3 := b.box3.makeEmpty },
    [Effect.geometryDispose b.ref, Effect.materialDispose b.ref, Effect.makeEmpty b.ref])

/-- The `Magazine`: the array it holds. `ref` is the identity of the array, `items`
its content. -/
structure Magazine where
  ref : Nat
  items : List Bullet
deriving DecidableEq

/-- Method `Magazine.setMagazine(magazine)`: the array is replaced. -/
def Magazine.setMagazine (_m : Magazine) (magazine : Magazine) : Magazine := magazine

/-- Method `Magazine.store(bullet)`: the bullet is pushed onto the array held. -/
def Magazine.store (m : Magazine) (bullet : Bullet) : Magazine :=
  { m with items := m.items ++ [bullet] }

/-- The flags of the third game's `InputController`. -/
structure InputController where
  forward : Bool
  backward : Bool
  right : Bool
  left : Bool
  shoot : Bool
deriving DecidableEq, Repr

/-- The third game's `Player`: its volume, `_hp` and its input flags. -/
structure Player where
  box3 : Box3
  hp : Int
  input : InputController
deriving DecidableEq

/-- Method `Player.setHP()`: one health point less. -/
def Player.setHP (p : Player) : Player := { p with hp := p.hp - 1 }

/-- Method `Player.getHP()`. -/
def Player.getHP (p : Player) : Int := p.hp

/-- What a frame takes from outside: the boxes `setFromObject` computes after the
moves of this frame, for each bullet and enemy (by reference) and for the player's body. -/
structure Frame where
  bulletBox : Nat → Box3
  enemyBox : Nat → Box3
  playerBox : Box3

/-- The state of `Game`: the magazine (shared with the player), the player, the
enemies, the blocks, the element `_el` and the number of arrays and bullets created so
far, which gives the next reference. -/
structure Game where
  magazine : Magazine
  player : Player
  enemies : List Enemy
  blocks : List Block
  el : Element
  created : Nat

/-- Method `Player.update(dt)`, on the game that holds the player and the magazine the
player shares: the player moves; a set fire flag stores one new bullet and is cleared;
the volume is recomputed (`f.playerBox`). -/
def Player.update (g : Game) (f : Frame) : Game :=
  let g1 :=
    if g.player.input.shoot then
      let bullet := Bullet.new g.created
      { g with
        magazine := g.magazine.store bullet
        player := { g.player with input := { g.player.input with shoot := false } }
        created := g.created + 1 }
    else g
  { g1 with player := { g1.player with box3 := f.playerBox } }

/-- The removal branch of the bullet loop: `bullet.remove()` and then
`this._scene.remove(bullet.getBullet())`. -/
def Game.removeBullet (b : Bullet) : Bullet × List Effect :=
  let r := b.remove
  (r.1, r.2 ++ [Effect.sceneRemove b.ref])

/-- The removal branch of the enemy loop: `enemy.remove()` and then
`this._scene.remove(enemy.getEnemy())`. -/
def Game.removeEnemy (e : Enemy) : Enemy × List Effect :=
  let r := e.remove
  (r.1, r.2 ++ [Effect.sceneRemove e.ref])

/-- The result of the bullet loop of `_animate`: the bullets of the old array as the
loop leaves them, the array `_magazine` built, the enemies and the calls made. -/
structure BulletPass where
  processed : List Bullet
  kept : List Bullet
  enemies : List Enemy
  effects : List Effect

/-- The loop `for (let bullet of magazine)` of `_animate`. -/
def bulletPass (f : Frame) (walls : List Block) : List Bullet → List Enemy → BulletPass
  | [], enemies => { processed := [], kept := [], enemies := enemies, effects := [] }
  | bullet :: rest, enemies =>
    let b1 := bullet.update (f.bulletBox bullet.ref)
    let r := b1.checkCollision enemies walls
    let b2 := r.1
    let added := if b2.getIsNewBullet then [Effect.sceneAdd b2.ref] else []
    if b2.getShouldRemove then
      let b3 := Game.removeBullet b2
      let p := bulletPass f walls rest r.2
      { processed := b3.1 :: p.processed
        kept := p.kept
        enemies := p.enemies
        effects := added ++ b3.2 ++ p.effects }
    else
      let p := bulletPass f walls rest r.2
      { processed := b2 :: p.processed
        kept := b2 :: p.kept
        enemies := p.enemies
        effects := added ++ p.effects }

/-- The result of the enemy loop of `_animate`: the enemies of the old array as the
loop leaves them, the array `_enemies` built, the player and the calls made. -/
structure EnemyPass where
  processed : List Enemy
  kept : List Enemy
  player : Player
  effects : List Effect

/-- The loop `for (let enemy of this._enemies)` of `_animate`. `playerBox` is the
player's volume as the previous `Player.update` left it. -/
def enemyPass (f : Frame) (playerBox : Box3) : List Enemy → Player → EnemyPass
  | [], player => { processed := [], kept := [], player := player, effects := [] }
  | enemy :: rest, player =>
    let e1 := enemy.update (f.enemyBox enemy.ref)
    let player1 := if e1.checkCollision playerBox then player.setHP else player
    if e1.getHP < 0 then
      let e2 := Game.removeEnemy e1
      let p := enemyPass f playerBox rest player1
      { processed := e2.1 :: p.processed
        kept := p.kept
        player := p.player
        effects := e2.2 ++ p.effects }
    else
      let p := enemyPass f playerBox rest player1
      { processed := e1 :: p.processed
        kept := e1 :: p.kept
        player := p.player
        effects := p.effects }

/-- Method `Game._animate()`: the game after the tick and the calls the tick makes. The array
`_magazine` created at the start takes the next reference. -/
def Game._animate (g : Game) (f : Frame) : Game × List Effect :=
  let _magazine : Nat := g.created
  let g0 := { g with created := g.created + 1 }
  if g0.enemies.length = 0 then
    ({ g0 with el := { innerText := "Completed", visibility := "visible" } }, [])
  else
    let bp := bulletPass f g0.blocks g0.magazine.items g0.enemies
    let ep := enemyPass f g0.player.box3 bp.enemies g0.player
    let g1 := { g0 with
      magazine := { g0.magazine with items := bp.processed }
      enemies := ep.processed
      player := ep.player }
    if g1.player.getHP < 1 then
      ({ g1 with el := { innerText := "Game Over!", visibility := "visible" } },
        bp.effects ++ ep.effects)
    else
      let g2 := { g1 with
        magazine := g1.magazine.setMagazine { ref := _magazine, items := bp.kept }
        enemies := ep.kept }
      (Player.update g2 f,
        bp.effects ++ ep.effects ++ [Effect.render, Effect.requestAnimationFrame])

/-- Consecutive ticks, each started by the `requestAnimationFrame` of the one before;
the result lists the calls of each tick that ran. -/
def Game.run (g : Game) : List Frame → Game × List (List Effect)
  | [] => (g, [])
  | f :: rest =>
    let r := g._animate f
    if Effect.requestAnimationFrame ∈ r.2 then
      let later := Game.run r.1 rest
      (later.1, r.2 :: later.2)
    else (r.1, [r.2])

end ThirdGame

/-! ## Second game: removal of a diamond -/

namespace SecondGame

open Three

/-- A `Diamond`: its mesh and its volume. -/
structure Diamond where
  ref : Nat
  box3 : Box3
deriving DecidableEq

/-- Method `Scene.remove(obj)` for a diamond, with the calls it makes in order. -/
def Scene.remove (obj : Diamond) : Diamond × List Effect :=
  ({ obj with box3 := obj.box3.makeEmpty },
    [Effect.makeEmpty obj.ref, Effect.geometryDispose obj.ref, Effect.materialDispose obj.ref,
     Effect.sceneRemove obj.ref])

end SecondGame

/-! ## Fourth and fifth game: the follow camera -/

/-- The target a camera follows: its rotation and its position. -/
structure Target (ρ α : Type) where
  rotation : ρ
  position : Three.Vector3 α

namespace FourthGame

open Three

/-- The fourth game's `FollowCamera`: `_offset`, `_lookAt`, and what the camera was
last given as position and as point to look at. The numbers are of a type `α` that
has the literals of the source (`RatCast`) and its own `+`, `-` and `*`: the doubles
the code computes with, or the real numbers of exact arithmetic. -/
structure FollowCamera (α : Type) where
  offset : Vector3 α
  lookAt : Vector3 α
  cameraPosition : Vector3 α
  cameraLookAt : Vector3 α

/-- Method `_calculateIdealOffset()`: (0, 15, 25) turned by the target's rotation, plus its
position. -/
def FollowCamera._calculateIdealOffset {ρ α : Type} [RatCast α] [Add α]
    (applyEuler : Vector3 α → ρ → Vector3 α) (target : Target ρ α) : Vector3 α :=
  (applyEuler { x := ((0 : ℚ) : α), y := ((15 : ℚ) : α), z := ((25 : ℚ) : α) }
    target.rotation).add target.position

/-- Method `_calculateIdealLookAt()`: (0, -5, -10) turned by the target's rotation, plus its
position. -/
def FollowCamera._calculateIdealLookAt {ρ α : Type} [RatCast α] [Add α]
    (applyEuler : Vector3 α → ρ → Vector3 α) (target : Target ρ α) : Vector3 α :=
  (applyEuler { x := ((0 : ℚ) : α), y := ((-5 : ℚ) : α), z := ((-10 : ℚ) : α) }
    target.rotation).add target.position

/-- Method `update(dt)`, with `Math.pow` and `applyEuler` as given. -/
def FollowCamera.update {ρ α : Type} [RatCast α] [Add α] [Sub α] [Mul α] (pow : α → α → α)
    (applyEuler : Vector3 α → ρ → Vector3 α) (target : Target ρ α)
    (c : FollowCamera α) (dt : α) : FollowCamera α :=
  let idealOffset := FollowCamera._calculateIdealOffset applyEuler target
  let idealLookAt := FollowCamera._calculateIdealLookAt applyEuler target
  let t := ((1 : ℚ) : α) - pow ((1 / 1000 : ℚ) : α) dt
  let offset := c.offset.lerp idealOffset t
  let lookAt := c.lookAt.lerp idealLookAt t
  { offset := offset, lookAt := lookAt, cameraPosition := offset, cameraLookAt := lookAt }

/-- The camera after `n` calls of `update` with the same `dt` and the same target. -/
def FollowCamera.run {ρ α : Type} [RatCast α] [Add α] [Sub α] [Mul α] (pow : α → α → α)
    (applyEuler : Vector3 α → ρ → Vector3 α) (target : Target ρ α)
    (c : FollowCamera α) (dt : α) : Nat → FollowCamera α
  | 0 => c
  | n + 1 =>
    FollowCamera.update pow applyEuler target (FollowCamera.run pow applyEuler target c dt n) dt

/-- The constructor: `_offset` and `_lookAt` start as zero vectors; the camera stands
at (0, 0, 0) until the first update places it. -/
def FollowCamera.new {α : Type} [RatCast α] : FollowCamera α :=
  { offset := { x := ((0 : ℚ) : α), y := ((0 : ℚ) : α), z := ((0 : ℚ) : α) }
    lookAt := { x := ((0 : ℚ) : α), y := ((0 : ℚ) : α), z := ((0 : ℚ) : α) }
    cameraPosition := { x := ((0 : ℚ) : α), y := ((0 : ℚ) : α), z := ((0 : ℚ) : α) }
    cameraLookAt := { x := ((0 : ℚ) : α), y := ((0 : ℚ) : α), z := ((0 : ℚ) : α) } }

end FourthGame

namespace FifthGame

open Three

/-- The fifth game's `FollowCamera`: `_idealOffset`, `_idealLookAt`, and what the
camera was last given as position and as point to look at. The numbers are of a type
`α` as for the fourth game's camera. -/
structure FollowCamera (α : Type) where
  idealOffset : Vector3 α
  idealLookAt : Vector3 α
  cameraPosition : Vector3 α
  cameraLookAt : Vector3 α

/-- Method `_calculateIdealOffset()`: (0, 15, -25) turned by the target's rotation, plus its
position. -/
def FollowCamera._calculateIdealOffset {ρ α : Type} [RatCast α] [Add α]
    (applyEuler : Vector3 α → ρ → Vector3 α) (target : Target ρ α) : Vector3 α :=
  (applyEuler { x := ((0 : ℚ) : α), y := ((15 : ℚ) : α), z := ((-25 : ℚ) : α) }
    target.rotation).add target.position

/-- Method `_calculateIdealLookAt()`: (0, 0, 10) turned by the target's rotation, plus its
position. -/
def FollowCamera._calculateIdealLookAt {ρ α : Type} [RatCast α] [Add α]
    (applyEuler : Vector3 α → ρ → Vector3 α) (target : Target ρ α) : Vector3 α :=
  (applyEuler { x := ((0 : ℚ) : α), y := ((0 : ℚ) : α), z := ((10 : ℚ) : α) }
    target.rotation).add target.position

/-- Method `update(dt)`, with `Math.pow` and `applyEuler` as given. -/
def FollowCamera.update {ρ α : Type} [RatCast α] [Add α] [Sub α] [Mul α] (pow : α → α → α)
    (applyEuler : Vector3 α → ρ → Vector3 α) (target : Target ρ α)
    (c : FollowCamera α) (dt : α) : FollowCamera α :=
  let idealOffset := FollowCamera._calculateIdealOffset applyEuler target
  let idealLookAt := FollowCamera._calculateIdealLookAt applyEuler target
  let t := ((1 : ℚ) : α) - pow ((1 / 1000 : ℚ) : α) dt
  let offset := c.idealOffset.lerp idealOffset t
  let lookAt := c.idealLookAt.lerp idealLookAt t
  { idealOffset := offset, idealLookAt := lookAt, cameraPosition := offset,
    cameraLookAt := lookAt }

/-- The camera after `n` calls of `update` with the same `dt` and the same target. -/
def FollowCamera.run {ρ α : Type} [RatCast α] [Add α] [Sub α] [Mul α] (pow : α → α → α)
    (applyEuler : Vector3 α → ρ → Vector3 α) (target : Target ρ α)
    (c : FollowCamera α) (dt : α) : Nat → FollowCamera α
  | 0 => c
  | n + 1 =>
    FollowCamera.update pow applyEuler target (FollowCamera.run pow applyEuler target c dt n) dt

/-- The constructor: `_idealOffset` and `_idealLookAt` start as zero vectors; the
camera stands at (0, 10, -10), where `setup` put it, until the first update. -/
def FollowCamera.new {α : Type} [RatCast α] : FollowCamera α :=
  { idealOffset := { x := ((0 : ℚ) : α), y := ((0 : ℚ) : α), z := ((0 : ℚ) : α) }
    idealLookAt := { x := ((0 : ℚ) : α), y := ((0 : ℚ) : α), z := ((0 : ℚ) : α) }
    cameraPosition := { x := ((0 : ℚ) : α), y := ((10 : ℚ) : α), z := ((-10 : ℚ) : α) }
    cameraLookAt := { x := ((0 : ℚ) : α), y := ((0 : ℚ) : α), z := ((0 : ℚ) : α) } }

end FifthGame

/-- A rig value follows `ideal` at a rate that does not depend on the tick length.
`rig dt n` is the value after `n` updates with tick length `dt`, started at `start`.
For every `dt > 0` and every `n`: the remaining offset `rig dt n - ideal` is
`0.001 ^ (n * dt)` times the initial one; one more tick multiplies it by `0.001 ^ dt`,
a factor strictly between 0 and 1; and another tick length `dt'` with the same elapsed
time `m * dt' = n * dt` gives the same value. -/
def FollowsAtFixedRate (rig : ℝ → Nat → Three.Vector3 ℝ) (start ideal : Three.Vector3 ℝ) : Prop :=
  ∀ dt : ℝ, 0 < dt → ∀ n : Nat,
    (rig dt n).sub ideal = (start.sub ideal).multiplyScalar ((1 / 1000 : ℝ) ^ ((n : ℝ) * dt)) ∧
    (0 < (1 / 1000 : ℝ) ^ dt ∧ (1 / 1000 : ℝ) ^ dt < 1 ∧
      (rig dt (n + 1)).sub ideal = ((rig dt n).sub ideal).multiplyScalar ((1 / 1000 : ℝ) ^ dt)) ∧
    ∀ dt' : ℝ, 0 < dt' → ∀ m : Nat, (n : ℝ) * dt = (m : ℝ) * dt' → rig dt n = rig dt' m

/-- A coordinate follows the convergence law up to rounding: when the rig value and
the ideal value are at most `2 ^ 1000` in magnitude, the remaining offset `next - ideal`
after an update is `1 - t` times the remaining offset `rig - ideal` before it, up to
`(|rig| + |ideal|) / 2 ^ 50 + 2 ^ -1072`. -/
def Binary64.Double.FollowsUpToRounding (t rig next ideal : Binary64.Double) : Prop :=
  |rig.value| ≤ 2 ^ 1000 → |ideal.value| ≤ 2 ^ 1000 →
    |next.value - ideal.value - (1 - t.value) * (rig.value - ideal.value)| ≤
      (|rig.value| + |ideal.value|) / 2 ^ 50 + 1 / 2 ^ 1072

/-- Every coordinate of a rig vector follows the convergence law up to rounding. -/
def FollowsUpToRounding (t : Binary64.Double)
    (rig next ideal : Three.Vector3 Binary64.Double) : Prop :=
  Binary64.Double.FollowsUpToRounding t rig.x next.x ideal.x ∧
  Binary64.Double.FollowsUpToRounding t rig.y next.y ideal.y ∧
  Binary64.Double.FollowsUpToRounding t rig.z next.z ideal.z

/-! ## Concrete inputs -/

namespace Three

/-- The cube with corners (a, a, a) and (b, b, b). -/
def cube (a b : ℚ) : Box3 :=
  { min := { x := .finite a, y := .finite a, z := .finite a }
    max := { x := .finite b, y := .finite b, z := .finite b } }

end Three

namespace ThirdGame

open Three

/-- A frame in which bullet 10 flies free at 20, bullet 11 is inside the wall at 100,
bullet 12 flies free at 30, every other bullet is at 40, the enemies stand at 50 and
the player at 0. -/
def sampleFrame : Frame :=
  { bulletBox := fun ref =>
      if ref = 10 then cube 20 21 else if ref = 11 then cube 100 101
      else if ref = 12 then cube 30 31 else cube 40 41
    enemyBox := fun _ => cube 50 51
    playerBox := cube 0 1 }

/-- A game with the new bullets 10, 11 and 12 in the magazine (array 2), one enemy,
one wall at 100 and a player with five health points; `shoot` is the fire flag. -/
def sampleGame (shoot : Bool) : Game :=
  { magazine := { ref := 2, items := [Bullet.new 10, Bullet.new 11, Bullet.new 12] }
    player :=
      { box3 := cube 0 1
        hp := 5
        input := { forward := false, backward := false, right := false, left := false,
                   shoot := shoot } }
    enemies := [{ ref := 1, box3 := cube 50 51, hp := 9 }]
    blocks := [{ ref := 3, box3 := cube 100 101 }]
    el := { innerText := "", visibility := "hidden" }
    created := 13 }

end ThirdGame

namespace FifthGame

open Three

/-- A chicken model: the root object 7 and one mesh 8 below it. -/
def sampleModel : Object3D :=
  { ref := 7
    position := { x := 0, y := 0, z := 0 }
    nodes := [{ ref := 7, isMesh := false }, { ref := 8, isMesh := true }] }

/-- The volume of a player standing at (40, 0, 20), where the first chicken is. -/
def samplePlayerBox : Box3 :=
  Player._calculateBox3 Box3.new { x := 40, y := 0, z := 20 }

/-- A chicken that has been in contact for ten frames, with the volume it then has. -/
def sampleChicken : Chicken :=
  { chicken := some sampleModel, box3 := cube 0 1, delay := 10 }

end FifthGame

/-- A target that stands at (3, 0, 4) and is not turned; with it `applyEuler` is the
identity. -/
def sampleTarget {α : Type} [Field α] : Target Unit α :=
  { rotation := (), position := { x := 3, y := 0, z := 4 } }

/-- The same target with doubles as coordinates. -/
def doubleTarget : Target Unit Binary64.Double :=
  { rotation := (), position := { x := ((3 : ℚ) : Binary64.Double), y := ((0 : ℚ) : Binary64.Double), z := ((4 : ℚ) : Binary64.Double) } }

/-- A `Math.pow` that returns the double nearest to `1e-18`, as for `Math.pow(0.001, 6)`. -/
def attoPow : Binary64.Double → Binary64.Double → Binary64.Double :=
  fun _ _ => ⟨1298074214633707 / 2 ^ 110⟩


/-! ## Fifth game: state updates and the follow light -/

namespace FifthGame

open Three

/-- The key flags of the fifth game's `Input`. -/
structure Input where
  forward : Bool
  backward : Bool
  right : Bool
  left : Bool
deriving DecidableEq, Repr

/-- Method `update(dt, input)` of a state object, by class; `m` is the machine
`this._parent`. `Idle.update` runs both of its tests one after the other, also when the
first has already changed the state. -/
def State.update (s : State) (m : FiniteStateMachine) (input : Input) :
    Option FiniteStateMachine :=
  match s.cls with
  | .Idle =>
    match (if input.forward then m.setState "Run" else some m) with
    | none => none
    | some m1 => if input.backward then m1.setState "WalkBackward" else some m1
  | .Run => if !input.forward then m.setState "Idle" else some m
  | .WalkBackward => if !input.backward then m.setState "Idle" else some m

/-- Method `FiniteStateMachine.update(dt, input)`: the current state, when there is
one, is updated. -/
def FiniteStateMachine.update (m : FiniteStateMachine) (input : Input) :
    Option FiniteStateMachine :=
  match m.currentState with
  | some s => s.update m input
  | none => some m

/-- The class one update is said to end in, by the class it starts in and the keys held. -/
def transitionTable : StateClass → Input → StateClass
  | .Idle, input => if input.backward then .WalkBackward else if input.forward then .Run else .Idle
  | .Run, input => if input.forward then .Run else .Idle
  | .WalkBackward, input => if input.backward then .WalkBackward else .Idle

/-- The fifth game's `FollowLight`: the position of its light. -/
structure FollowLight (α : Type) where
  position : Vector3 α

/-- Constructor `new FollowLight(target)`: the light is placed at (5, 10, 5). -/
def FollowLight.new {α : Type} [Field α] : FollowLight α :=
  { position := { x := 5, y := 10, z := 5 } }

/-- Method `FollowLight._calculateIdealOffset()`: (5, 30, 5) plus the target's position. -/
def FollowLight._calculateIdealOffset {ρ α : Type} [Field α] (target : Target ρ α) :
    Vector3 α :=
  ({ x := 5, y := 30, z := 5 } : Vector3 α).add target.position

/-- Method `FollowLight.update()`: the light's position is set to the ideal offset. -/
def FollowLight.update {ρ α : Type} [Field α] (l : FollowLight α) (target : Target ρ α) :
    FollowLight α :=
  let idealOffset := FollowLight._calculateIdealOffset target
  { l with position := idealOffset }

end FifthGame

namespace Three

/-- All six coordinates of the box are finite numbers. -/
def Box3.Finite (b : Box3) : Prop :=
  ∃ x0 y0 z0 x1 y1 z1 : ℚ,
    b = { min := { x := .finite x0, y := .finite y0, z := .finite z0 }
          max := { x := .finite x1, y := .finite y1, z := .finite z1 } }

/-- The box is one the games hold: computed from an object or from a centre and a size,
with finite corners, or empty as `new THREE.Box3()` and `makeEmpty()` leave it. -/
def Box3.IsVolume (b : Box3) : Prop := b.Finite ∨ b = Box3.new

end Three

namespace FifthGame

/-- The player's machine after `Player.init`: the Idle object 0 is current and its clip
has been played. -/
def sampleIdleFSM : FiniteStateMachine :=
  { Player.loadedFSM with
    currentState := some { cls := .Idle, ref := 0 }
    created := 1
    calls := [Call.enter { cls := .Idle, ref := 0 } none, Call.play "Idle"] }

end FifthGame

/-! ## Calls of entity methods -/

namespace Three

/-- The kinds of entities the frame loops run over. -/
inductive Kind
  | box
  | diamond
  | monster
  | bullet
  | enemy
  | chicken
deriving DecidableEq, Repr

/-- A call a frame loop makes on an entity: its update (for a conveyor box,
`setPosition`) or its collision check. -/
inductive Visit
  | update (kind : Kind) (ref : Nat)
  | collision (kind : Kind) (ref : Nat)
deriving DecidableEq, Repr

/-- The visit is a call on the entity `ref` of kind `kind`. -/
def Visit.isOn (kind : Kind) (ref : Nat) : Visit → Bool
  | .update k r => decide (k = kind ∧ r = ref)
  | .collision k r => decide (k = kind ∧ r = ref)

end Three

/-! ## First game: the conveyor, the score and the frame loop -/

namespace FirstGame

open Three

/-- A conveyor `Box`: its mesh, the position of the mesh and its volume. -/
structure Box where
  ref : Nat
  position : Vector3 ℚ
  box3 : Box3
deriving DecidableEq

/-- Constructor `new Box(posZ)`. `posX` is the lane `Math.random` picks from
`Box.xCoords`. -/
def Box.new (ref : Nat) (posX posZ : ℚ) : Box :=
  { ref := ref, position := { x := posX, y := -(1 / 4), z := posZ }, box3 := Box3.new }

/-- Method `Box.setPosition(posZ)`: the mesh moves by `posZ` along z and the volume is
recomputed; `volume` is what `setFromObject` gives for a box mesh at a position. -/
def Box.setPosition (b : Box) (volume : Vector3 ℚ → Box3) (posZ : ℚ) : Box :=
  let position := { b.position with z := b.position.z + posZ }
  { b with position := position, box3 := volume position }

/-- What a frame takes from outside: the frame time, the lane picked for a new box and
the boxes `setFromObject` computes for a conveyor box and for the player at a position. -/
structure Frame where
  dt : ℚ
  lane : ℚ
  boxVolume : Vector3 ℚ → Box3
  playerVolume : Vector3 ℚ → Box3

/-- The `Score`: `_score`, `_cumulative` and the text of its element. -/
structure Score where
  score : Nat
  cumulative : ℚ
  innerText : String
deriving DecidableEq

/-- Constructor `new Score()`. -/
def Score.new : Score := { score := 0, cumulative := 0, innerText := "000" }

/-- Method `Score.getScore()`. -/
def Score.getScore (s : Score) : Nat := s.score

/-- Method `Score.updateScore(dt)`. -/
def Score.updateScore (s : Score) (dt : ℚ) : Score :=
  let cumulative := s.cumulative + dt
  if cumulative > 1 then
    let score := s.score + 1
    { score := score
      cumulative := 0
      innerText :=
        if score < 10 then "00" ++ toString score
        else if score < 100 then "0" ++ toString score else toString score }
  else { s with cumulative := cumulative }

/-- The `Conveyor`: `_boxes`, `_hasNewBox`, `_boxGap`, `_boxSpeed`, `_coef`, and the
number of boxes created so far, which gives the next reference. -/
structure Conveyor where
  boxes : List Box
  hasNewBox : Bool
  boxGap : ℚ
  boxSpeed : ℚ
  coef : ℚ
  created : Nat
deriving DecidableEq

/-- The constant `Conveyor.maxBox`. -/
def Conveyor.maxBox : Nat := 10

/-- Constructor `new Conveyor(score)`. -/
def Conveyor.new : Conveyor :=
  { boxes := [], hasNewBox := false, boxGap := -20, boxSpeed := 30, coef := 15, created := 0 }

/-- Method `Conveyor._create()`: the new box is placed at -50, or at the z of the last
box plus `_boxGap` when there is a last box, and pushed at the end. -/
def Conveyor._create (c : Conveyor) (posX : ℚ) : Conveyor :=
  let boxPosition : ℚ :=
    match c.boxes.getLast? with
    | none => -50
    | some last => last.position.z + c.boxGap
  { c with
    boxes := c.boxes ++ [Box.new c.created posX boxPosition]
    hasNewBox := true
    created := c.created + 1 }

/-- Method `Conveyor._remove()`: the first box is shifted out and its geometry and
material are disposed. -/
def Conveyor._remove (c : Conveyor) : Conveyor × List Effect :=
  match c.boxes with
  | [] => (c, [])
  | firstBox :: rest =>
    ({ c with boxes := rest },
      [Effect.geometryDispose firstBox.ref, Effect.materialDispose firstBox.ref])

/-- The result of `Conveyor.update`: the conveyor, the library calls made and the
`setPosition` calls made. -/
structure ConveyorUpdate where
  conveyor : Conveyor
  effects : List Effect
  visits : List Visit

/-- The first statement of `Conveyor.update`: below `maxBox` boxes one is created;
otherwise the first box is removed once its z is beyond 30. -/
def Conveyor.createOrRemove (c : Conveyor) (f : Frame) : Conveyor × List Effect :=
  if c.boxes.length < Conveyor.maxBox then (c._create f.lane, [])
  else
    match c.boxes with
    | first :: _ => if first.position.z > 30 then c._remove else (c, [])
    | [] => (c, [])

/-- The last statement of `Conveyor.update`: a score above `_coef` adds 5 to the speed
and 15 to `_coef`. -/
def Conveyor.ramp (c : Conveyor) (score : Nat) : Conveyor :=
  if (score : ℚ) > c.coef then { c with boxSpeed := c.boxSpeed + 5, coef := c.coef + 15 }
  else c

/-- Method `Conveyor.update(dt)`; `score` is what `this._score.getScore()` gives. -/
def Conveyor.update (c : Conveyor) (f : Frame) (score : Nat) : ConveyorUpdate :=
  let r := c.createOrRemove f
  let c1 := r.1
  let c2 :=
    { c1 with
      boxes := c1.boxes.map (fun box : Box => box.setPosition f.boxVolume (c1.boxSpeed * f.dt)) }
  { conveyor := c2.ramp score
    effects := r.2
    visits := c1.boxes.map (fun box : Box => Visit.update .box box.ref) }

/-- The first game's `Player`: the position of its mesh, its volume and the two key
flags of its `InputManager`. -/
structure Player where
  position : Vector3 ℚ
  box3 : Box3
  key_D_Pressed : Bool
  key_A_Pressed : Bool
deriving DecidableEq

/-- Method `Player.update(dt)`: with D held and x below 4 the player moves right, with
A held and x above -4 it moves left, each time by `5 * dt`, and the volume is
recomputed after each move. -/
def Player.update (p : Player) (f : Frame) : Player :=
  let p1 :=
    if p.key_D_Pressed then
      if p.position.x < 4 then
        let position := { p.position with x := p.position.x + 5 * f.dt }
        { p with position := position, box3 := f.playerVolume position }
      else p
    else p
  if p1.key_A_Pressed then
    if p1.position.x > -4 then
      let position := { p1.position with x := p1.position.x + -5 * f.dt }
      { p1 with position := position, box3 := f.playerVolume position }
    else p1
  else p1

/-- Method `Scene.update(conveyor)`: a new box is added to the scene and the flag is
cleared. -/
def Scene.update (c : Conveyor) : Conveyor × List Effect :=
  if c.hasNewBox then
    match c.boxes.getLast? with
    | some last => ({ c with hasNewBox := false }, [Effect.sceneAdd last.ref])
    | none => ({ c with hasNewBox := false }, [])
  else (c, [])

/-- The function `checkCollision(boxes, playerBox)`, with the boxes it tests: the loop
returns at the first box whose volume intersects the player's. -/
def checkCollision : List Box → Box3 → Bool × List Visit
  | [], _ => (false, [])
  | box :: rest, playerBox =>
    if box.box3.intersectsBox playerBox then (true, [Visit.collision .box box.ref])
    else
      let r := checkCollision rest playerBox
      (r.1, Visit.collision .box box.ref :: r.2)

/-- The state of `GameManager`: the score, the player, the conveyor and the menu. -/
structure GameManager where
  score : Score
  player : Player
  conveyor : Conveyor
  menu : Element

/-- The result of one `_animate` call. -/
structure Tick where
  game : GameManager
  effects : List Effect
  visits : List Visit

/-- Method `GameManager.stopGame()`. -/
def GameManager.stopGame (g : GameManager) : GameManager :=
  { g with menu := { innerText := "Game Over", visibility := "visible" } }

/-- Method `GameManager._animate()`. -/
def GameManager._animate (g : GameManager) (f : Frame) : Tick :=
  let cu := g.conveyor.update f g.score.getScore
  let player := g.player.update f
  let score := g.score.updateScore f.dt
  let su := Scene.update cu.conveyor
  let g1 : GameManager := { g with score := score, player := player, conveyor := su.1 }
  let cc := checkCollision g1.conveyor.boxes g1.player.box3
  if cc.1 then
    { game := g1.stopGame
      effects := cu.effects ++ su.2 ++ [Effect.render]
      visits := cu.visits ++ cc.2 }
  else
    { game := g1
      effects := cu.effects ++ su.2 ++ [Effect.render, Effect.requestAnimationFrame]
      visits := cu.visits ++ cc.2 }

/-- Consecutive ticks, each started by the `requestAnimationFrame` of the one before;
the result lists every tick that ran. -/
def GameManager.run (g : GameManager) : List Frame → List Tick
  | [] => []
  | f :: rest =>
    let t := g._animate f
    if Effect.requestAnimationFrame ∈ t.effects then t :: GameManager.run t.game rest
    else [t]

/-- Constructor `new GameManager()`, as `startGame` finds it. -/
def GameManager.new : GameManager :=
  { score := Score.new
    player :=
      { position := { x := 0, y := 0, z := 0 }
        box3 := cube (-(1 / 2)) (1 / 2)
        key_D_Pressed := false
        key_A_Pressed := false }
    conveyor := Conveyor.new
    menu := { innerText := "", visibility := "hidden" } }

/-- The number of multiples of 15 (15, 30, 45, ...) strictly below `score`. -/
def multiplesBelow (score : Nat) : Nat :=
  ((List.range score).filter (fun m => decide (m ≠ 0 ∧ m % 15 = 0))).length

end FirstGame

namespace FirstGame

open Three

/-- The states of the first game a session reaches: the new game, a change of the key
flags by a key event between two ticks, and a tick started by the
`requestAnimationFrame` of the tick before. -/
inductive GameManager.Reachable : GameManager → Prop
  | start : GameManager.Reachable GameManager.new
  | keys (g : GameManager) (d a : Bool) : GameManager.Reachable g →
      GameManager.Reachable
        { g with player := { g.player with key_D_Pressed := d, key_A_Pressed := a } }
  | tick (g : GameManager) (f : Frame) : GameManager.Reachable g →
      Effect.requestAnimationFrame ∈ (g._animate f).effects →
      GameManager.Reachable (g._animate f).game

/-- Between two ticks the speed and the threshold are those for a score `seen` that
is the current score or one less. -/
def GameManager.Ramped (g : GameManager) : Prop :=
  ∃ seen : Nat, (g.score.score = seen ∨ g.score.score = seen + 1) ∧
    g.conveyor.boxSpeed = 30 + 5 * (multiplesBelow seen : ℚ) ∧
    g.conveyor.coef = 15 * ((multiplesBelow seen : ℚ) + 1)

end FirstGame

/-! ## Second game: diamonds, monsters and the frame loop -/

namespace SecondGame

open Three

/-- The axis names `'x'`, `'y'`, `'z'` a monster is created with. -/
inductive Axis
  | x
  | y
  | z
deriving DecidableEq, Repr

/-- Read of `position[axis]`. -/
def getAxis (v : Vector3 ℚ) : Axis → ℚ
  | .x => v.x
  | .y => v.y
  | .z => v.z

/-- Write of `position[axis]`. -/
def setAxis (v : Vector3 ℚ) (axis : Axis) (value : ℚ) : Vector3 ℚ :=
  match axis with
  | .x => { v with x := value }
  | .y => { v with y := value }
  | .z => { v with z := value }

/-- What a frame takes from outside: the frame time and the boxes `setFromObject`
computes for the player after its move and for each monster (by reference) after its
move and turn. -/
structure Frame where
  dt : ℚ
  playerBox : Box3
  monsterBox : Nat → Box3

/-- Constructor `new Diamond(posX, posZ)`; `volume` is the box `setFromObject` computes
for the diamond mesh at (posX, 1.2, posZ). -/
def Diamond.new (ref : Nat) (volume : Box3) : Diamond := { ref := ref, box3 := volume }

/-- Method `Diamond.update(dt)`: the mesh turns; the volume is not recomputed, so the
fields modelled here stay as they are. -/
def Diamond.update (d : Diamond) : Diamond := d

/-- Method `Diamond.checkCollision(playerBox)`. -/
def Diamond.checkCollision (d : Diamond) (playerBox : Box3) : Bool :=
  if d.box3.intersectsBox playerBox then true else false

/-- A `Monster`: its mesh, the position of the mesh, the axis it moves along, the
bounds of its patrol, its speed and its volume. -/
structure Monster where
  ref : Nat
  position : Vector3 ℚ
  moveAxis : Axis
  minPos : ℚ
  maxPos : ℚ
  speed : ℚ
  box3 : Box3
deriving DecidableEq

/-- Constructor `new Monster(posX, posZ, rotAxis1, rotAxis2, minPos, maxPos)`: the
monster moves along `rotAxis1` with speed 3. -/
def Monster.new (ref : Nat) (posX posZ : ℚ) (rotAxis1 : Axis) (minPos maxPos : ℚ) : Monster :=
  { ref := ref
    position := { x := posX, y := 0, z := posZ }
    moveAxis := rotAxis1
    minPos := minPos
    maxPos := maxPos
    speed := 3
    box3 := Box3.new }

/-- Method `Monster.update(dt)`: the monster turns and moves by `speed * dt` along its
axis, the volume is recomputed (`volume`), and the speed is reversed when the position
is then below `minPos` or above `maxPos`. The numbers are doubles: the product
`speed * dt` is rounded and so is the sum the position is set to. -/
def Monster.update (m : Monster) (dt : ℚ) (volume : Box3) : Monster :=
  let position := setAxis m.position m.moveAxis
    (Binary64.nearest (getAxis m.position m.moveAxis + Binary64.nearest (m.speed * dt)))
  let m1 := { m with position := position, box3 := volume }
  if getAxis m1.position m1.moveAxis < m1.minPos ∨ getAxis m1.position m1.moveAxis > m1.maxPos then
    { m1 with speed := -m1.speed }
  else m1

/-- Method `Monster.checkCollision(playerBox)`. -/
def Monster.checkCollision (m : Monster) (playerBox : Box3) : Bool :=
  if m.box3.intersectsBox playerBox then true else false

/-- The second game's `Player`: its volume. Its moves show in the volume a frame gives. -/
structure Player where
  box3 : Box3
deriving DecidableEq

/-- Method `Player.update(dt)`: the player moves and jumps and its volume is
recomputed. -/
def Player.update (_p : Player) (f : Frame) : Player := { box3 := f.playerBox }

/-- The state of `Game`: the player, the diamonds, the monsters, `_count` and the
element `_el`. -/
structure Game where
  player : Player
  diamonds : List Diamond
  monsters : List Monster
  count : Int
  el : Element

/-- How an `_animate` call ends. -/
inductive Outcome
  | completed
  | gameOver
  | scheduled
deriving DecidableEq, Repr

/-- The result of the monster loop of `_animate`: the monsters as the loop leaves them,
whether a monster touched the player, and the calls made on monsters. -/
structure MonsterPass where
  monsters : List Monster
  hit : Bool
  visits : List Visit

/-- The loop `for (let monster of this._monsters)` of `_animate`: it returns at the
first monster whose volume intersects the player's. -/
def monsterPass (f : Frame) (playerBox : Box3) : List Monster → MonsterPass
  | [] => { monsters := [], hit := false, visits := [] }
  | monster :: rest =>
    let m1 := monster.update f.dt (f.monsterBox monster.ref)
    if m1.checkCollision playerBox then
      { monsters := m1 :: rest
        hit := true
        visits := [Visit.update .monster monster.ref, Visit.collision .monster monster.ref] }
    else
      let p := monsterPass f playerBox rest
      { monsters := m1 :: p.monsters
        hit := p.hit
        visits :=
          Visit.update .monster monster.ref :: Visit.collision .monster monster.ref :: p.visits }

/-- The result of the diamond loop of `_animate`: the diamonds as the loop leaves them,
`_count`, the library calls and the calls made on diamonds. -/
structure DiamondPass where
  diamonds : List Diamond
  count : Int
  effects : List Effect
  visits : List Visit

/-- The loop `for (let diamond of this._diamonds)` of `_animate`. -/
def diamondPass (playerBox : Box3) : List Diamond → Int → DiamondPass
  | [], count => { diamonds := [], count := count, effects := [], visits := [] }
  | diamond :: rest, count =>
    let d1 := diamond.update
    if d1.checkCollision playerBox then
      let r := Scene.remove d1
      let p := diamondPass playerBox rest (count - 1)
      { diamonds := r.1 :: p.diamonds
        count := p.count
        effects := r.2 ++ p.effects
        visits :=
          Visit.update .diamond diamond.ref :: Visit.collision .diamond diamond.ref :: p.visits }
    else
      let p := diamondPass playerBox rest count
      { diamonds := d1 :: p.diamonds
        count := p.count
        effects := p.effects
        visits :=
          Visit.update .diamond diamond.ref :: Visit.collision .diamond diamond.ref :: p.visits }

/-- The result of one `_animate` call. -/
structure Tick where
  game : Game
  outcome : Outcome
  effects : List Effect
  visits : List Visit

/-- Method `Game._animate()`. -/
def Game._animate (g : Game) (f : Frame) : Tick :=
  let g1 := { g with player := g.player.update f }
  let playerBox := g1.player.box3
  if g1.count = 0 then
    { game := { g1 with el := { innerText := "Completed", visibility := "visible" } }
      outcome := .completed
      effects := []
      visits := [] }
  else
    let mp := monsterPass f playerBox g1.monsters
    let g2 := { g1 with monsters := mp.monsters }
    if mp.hit then
      { game := { g2 with el := { innerText := "Game Over!", visibility := "visible" } }
        outcome := .gameOver
        effects := []
        visits := mp.visits }
    else
      let dp := diamondPass playerBox g2.diamonds g2.count
      { game := { g2 with diamonds := dp.diamonds, count := dp.count }
        outcome := .scheduled
        effects := dp.effects ++ [Effect.render, Effect.requestAnimationFrame]
        visits := mp.visits ++ dp.visits }

/-- Method `Game._spawnDiamond()`: the fourteen diamonds, numbered 0 to 13; `volume`
gives the box of a diamond created at (posX, posZ). -/
def Game._spawnDiamond (volume : ℚ → ℚ → Box3) : List Diamond :=
  [ Diamond.new 0 (volume (-23 / 2) 0), Diamond.new 1 (volume (-23 / 2) (-3)),
    Diamond.new 2 (volume (-23 / 2) (-6)), Diamond.new 3 (volume (-23 / 2) (-9)),
    Diamond.new 4 (volume (23 / 2) 0), Diamond.new 5 (volume (23 / 2) (-3)),
    Diamond.new 6 (volume (23 / 2) (-6)), Diamond.new 7 (volume (23 / 2) (-9)),
    Diamond.new 8 (volume 4 7), Diamond.new 9 (volume 0 7), Diamond.new 10 (volume (-4) 7),
    Diamond.new 11 (volume 4 (-16)), Diamond.new 12 (volume 0 (-16)),
    Diamond.new 13 (volume (-4) (-16)) ]

/-- Method `Game._spawnMonster()`: the four monsters, numbered 14 to 17. -/
def Game._spawnMonster : List Monster :=
  [ Monster.new 14 (-12) (-8) .z (-10) 0, Monster.new 15 12 (-1) .z (-10) 0,
    Monster.new 16 (-3) 7 .x (-5) 5, Monster.new 17 4 (-16) .x (-5) 5 ]

/-- Constructor `new Game(canvas, el)`; the player's volume is empty until its first
update. -/
def Game.new (volume : ℚ → ℚ → Box3) (el : Element) : Game :=
  { player := { box3 := Box3.new }
    diamonds := Game._spawnDiamond volume
    monsters := Game._spawnMonster
    count := 14
    el := el }

/-- The number of diamonds whose volume has been emptied. -/
def Game.removed (g : Game) : Nat :=
  (g.diamonds.filter (fun d => decide (d.box3 = Box3.new))).length

/-- The states of the second game a session reaches: the new game, with finite volumes
for its diamonds, and the state a tick leaves when it was started in a reached state by
the start of the game or by the `requestAnimationFrame` of the tick before, with a
finite volume computed for the player. -/
inductive Game.Reachable : Game → Prop
  | start (volume : ℚ → ℚ → Box3) (el : Element) :
      (∀ x z, (volume x z).Finite) → Game.Reachable (Game.new volume el)
  | tick (g : Game) (f : Frame) : Game.Reachable g → f.playerBox.Finite →
      (g._animate f).outcome = .scheduled → Game.Reachable (g._animate f).game

end SecondGame

/-! ## The entities a tick runs over -/

namespace FirstGame

open Three

/-- The references of the boxes are those of boxes created so far, each used once. -/
def Conveyor.WellFormed (c : Conveyor) : Prop :=
  (∀ b ∈ c.boxes, b.ref < c.created) ∧ (c.boxes.map Box.ref).Nodup

end FirstGame

namespace ThirdGame

open Three

/-- The calls of `update` and `checkCollision` one `_animate` call makes: none when no
enemy is left, else both on every bullet of the magazine, in order, and then both on
every enemy. -/
def Game.visits (g : Game) : List Visit :=
  if g.enemies.length = 0 then []
  else
    g.magazine.items.flatMap
        (fun bullet => [Visit.update .bullet bullet.ref, Visit.collision .bullet bullet.ref]) ++
      g.enemies.flatMap
        (fun enemy => [Visit.update .enemy enemy.ref, Visit.collision .enemy enemy.ref])

/-- The calls on bullets and enemies of consecutive ticks, each started by the
`requestAnimationFrame` of the one before, one list per tick that ran. -/
def Game.runVisits (g : Game) : List Frame → List (List Visit)
  | [] => []
  | f :: rest =>
    if Effect.requestAnimationFrame ∈ (g._animate f).2 then
      g.visits :: Game.runVisits (g._animate f).1 rest
    else [g.visits]

/-- The references of the bullets the bullet loop of a tick flags and removes. -/
def Game.removedBullets (g : Game) (f : Frame) : List Nat :=
  ((bulletPass f g.blocks g.magazine.items g.enemies).processed.filter
    (fun b => b.shouldRemove)).map Bullet.ref

/-- The references of the enemies the enemy loop of a tick removes. -/
def Game.removedEnemies (g : Game) (f : Frame) : List Nat :=
  ((enemyPass f g.player.box3 (bulletPass f g.blocks g.magazine.items g.enemies).enemies
    g.player).processed.filter (fun e => decide (e.hp < 0))).map Enemy.ref

/-- The references of the bullets are those of objects created so far, and every
bullet and every enemy is in its list once. -/
def Game.WellFormed (g : Game) : Prop :=
  (∀ b ∈ g.magazine.items, b.ref < g.created) ∧ (g.magazine.items.map Bullet.ref).Nodup ∧
    (g.enemies.map Enemy.ref).Nodup

end ThirdGame

namespace FifthGame

open Three

/-- The result of the chicken loop of `animate`: the chickens as the loop leaves them,
the library calls and the calls made on chickens. -/
structure ChickenPass where
  chickens : List Chicken
  effects : List Effect
  visits : List Visit

/-- The loop `chickens.forEach(c => { c.update(dt); c.collision(playerBox, scene) })` of
`animate`. A chicken is named by its place in the array, counted from `i`. -/
def chickenPass (playerBox : Box3) : List Chicken → Nat → Option ChickenPass
  | [], _ => some { chickens := [], effects := [], visits := [] }
  | c :: rest, i =>
    match c.frame playerBox with
    | none => none
    | some (c1, effects) =>
      match chickenPass playerBox rest (i + 1) with
      | none => none
      | some p =>
        some
          { chickens := c1 :: p.chickens
            effects := effects ++ p.effects
            visits := Visit.update .chicken i :: Visit.collision .chicken i :: p.visits }

/-- A chicken whose object is `null` has an emptied volume. -/
def Chicken.WellFormed (c : Chicken) : Prop := c.chicken = none → c.box3 = Box3.new

end FifthGame

namespace FifthGame

open Three

/-- The first chicken of the game, made from the sample model at (40, 20), as ten
frames of contact with the player leave it. -/
def tenthFrameChicken : Chicken :=
  { (Chicken.new sampleModel 40 20).update with delay := 10 }

end FifthGame

/-! ## Fifth game: the moves of the player -/

namespace FifthGame

open Three

/-- The two ray directions of the player, `_fRayDir` and `_bRayDir`. -/
inductive Ray
  | forward
  | backward
deriving DecidableEq, Repr

/-- A call `_transform` makes on the player's model or on a ray direction. Angles are
given in degrees: `_angle` is 75 degrees. -/
inductive Motion
  | translateZ (distance : ℚ)
  | rotateY (degrees : ℚ)
  | applyAxisAngle (ray : Ray) (degrees : ℚ)
deriving DecidableEq, Repr

/-- The call changes the position of the player's model: `translateZ` does, a turn of
the model or of a ray direction does not. -/
def Motion.moves : Motion → Bool
  | .translateZ _ => true
  | .rotateY _ => false
  | .applyAxisAngle _ _ => false

/-- Method `Player._transform(dt)`, as the calls it makes in order; the run speed is
10, the backward speed 5 and the angle 75 degrees. -/
def Player._transform (p : Player) (input : Input) (dt : ℚ) : List Motion :=
  (if input.forward && !p.fBump then [Motion.translateZ (10 * dt)] else []) ++
  (if input.backward && !p.bBump then [Motion.translateZ (-5 * dt)] else []) ++
  (if input.right then
    [Motion.rotateY (-75 * dt), Motion.applyAxisAngle .forward (-75 * dt),
     Motion.applyAxisAngle .backward (-75 * dt)]
   else []) ++
  (if input.left then
    [Motion.rotateY (75 * dt), Motion.applyAxisAngle .forward (75 * dt),
     Motion.applyAxisAngle .backward (75 * dt)]
   else [])

/-- The part of one `animate` call that concerns the player's moves: `player.update(dt)`
moves the player by `_transform` and `player.collision(walls)` then sets the two flags
from what the rays report. -/
def Player.frame (p : Player) (input : Input) (dt : ℚ) (fCollide bCollide : List Intersection) :
    Player × List Motion :=
  (p.collision fCollide bCollide, p._transform input dt)

end FifthGame

namespace FifthGame

open Three

/-- The number of frames, among those with the player volumes `boxes`, in which the
volume the chicken has after its `update` intersects the player's volume. -/
def Chicken.contacts (c : Chicken) (boxes : List Box3) : Nat :=
  (boxes.filter (fun box => c.update.box3.intersectsBox box)).length

/-- Twelve frames for the first chicken: the player stands on it for ten frames, is
away at the origin for one frame, and stands on it again in the twelfth. -/
def interruptedContact : List Box3 :=
  List.replicate 10 samplePlayerBox ++ [cube 0 1] ++ [samplePlayerBox]

end FifthGame

namespace FirstGame

open Three

/-- The first statement of `Conveyor.update` with the access `this._boxes[0]` spelled
out: on an empty array the access gives `undefined` and the call of `getBox` on it
throws (`none`). -/
def Conveyor.createOrRemove? (c : Conveyor) (f : Frame) : Option (Conveyor × List Effect) :=
  if c.boxes.length < Conveyor.maxBox then some (c._create f.lane, [])
  else
    match c.boxes[0]? with
    | none => none
    | some first => if first.position.z > 30 then some c._remove else some (c, [])

/-- The gap is -20, there are at most `maxBox` boxes, and each box lies 20 behind the
box before it in the array. -/
def Conveyor.Spaced (c : Conveyor) : Prop :=
  c.boxGap = -20 ∧ c.boxes.length ≤ Conveyor.maxBox ∧
    List.Chain' (fun a b : Box => b.position.z = a.position.z - 20) c.boxes

/-- A frame of a sixtieth of a second in which the lane 0 is picked and every volume
is the unit cube. -/
def conveyorFrame : Frame :=
  { dt := 1 / 60, lane := 0, boxVolume := fun _ => cube 0 1, playerVolume := fun _ => cube 0 1 }

end FirstGame

namespace SecondGame

open Three

/-- Read of `this._monster.position[this._moveAxis]`. -/
def Monster.along (m : Monster) : ℚ := getAxis m.position m.moveAxis

/-- Consecutive `update` calls on one monster with the same frame time, one computed
volume per call. -/
def Monster.updates (m : Monster) (dt : ℚ) : List Box3 → Monster
  | [] => m
  | volume :: rest => Monster.updates (m.update dt volume) dt rest

end SecondGame

namespace SecondGame

open Three

/-- The states of a patrol with frame time `dt`: the monster is within its bounds and
its speed is 3 or -3, or it is beyond `maxPos` by at most `3 * dt` and moves back with
speed -3, or it is below `minPos` by at most `3 * dt` and moves back with speed 3. -/
def Monster.Patrolling (m : Monster) (dt : ℚ) : Prop :=
  (m.minPos ≤ m.along ∧ m.along ≤ m.maxPos ∧ (m.speed = 3 ∨ m.speed = -3)) ∨
  (m.maxPos < m.along ∧ m.along ≤ m.maxPos + 3 * dt ∧ m.speed = -3) ∨
  (m.along < m.minPos ∧ m.minPos - 3 * dt ≤ m.along ∧ m.speed = 3)

/-- No update of the patrol is rounded: `minPos`, `maxPos`, the position along the axis
and `dt` are the multiples `a`, `b`, `p`, `d` of `2 ^ -k`, with `k` at most 1074, and
`minPos - 3 * dt` and `maxPos + 3 * dt` have fewer than 54 binary digits as multiples
of `2 ^ -k`. Every value between them on that grid is a double. -/
def Monster.Unrounded (m : Monster) (dt : ℚ) (k : ℕ) (a b p d : ℤ) : Prop :=
  k ≤ 1074 ∧ m.minPos = (a : ℚ) / 2 ^ k ∧ m.maxPos = (b : ℚ) / 2 ^ k ∧
    m.along = (p : ℚ) / 2 ^ k ∧ dt = (d : ℚ) / 2 ^ k ∧
    -(2 ^ 53) < a - 3 * d ∧ b + 3 * d < 2 ^ 53

/-- A monster that patrols between -5 and 5 along x and starts at 5. -/
def edgeMonster : Monster := Monster.new 18 5 0 .x (-5) 5

/-- The double nearest to 1.005, as a frame time. -/
def edgeTime : ℚ := 1131529406376837 / 2 ^ 50

end SecondGame

namespace ThirdGame

open Three

/-- A game as `sampleGame false` with two enemies that have lost nine health points
each: enemy 1 stood at 20 in the frame before, where bullet 10 now flies, and enemy 2
at 50. -/
def woundedGame : Game :=
  { sampleGame false with
    enemies := [{ ref := 1, box3 := cube 20 21, hp := 0 }, { ref := 2, box3 := cube 50 51, hp := 0 }] }

end ThirdGame

/-! ## Sessions of the first and of the second game -/

namespace FirstGame

open Three

/-- A slow frame of two seconds in which the lane 4 is picked. The volume of a conveyor
box is the box of size (2, 1/2, 2) around its position, that of the player the cube of
size 1 around its position. -/
def slowFrame : Frame :=
  { dt := 2
    lane := 4
    boxVolume := fun p => Box3.new.setFromCenterAndSize p { x := 2, y := 1 / 2, z := 2 }
    playerVolume := fun p => Box3.new.setFromCenterAndSize p { x := 1, y := 1, z := 1 } }

/-- The game after the ticks of the frames given, each started by the
`requestAnimationFrame` of the one before, and whether every one of these ticks asked
for the next. -/
def GameManager.advance (g : GameManager) : List Frame → GameManager × Bool
  | [] => (g, true)
  | f :: rest =>
    if Effect.requestAnimationFrame ∈ (g._animate f).effects then
      GameManager.advance (g._animate f).game rest
    else ((g._animate f).game, false)

end FirstGame

namespace SecondGame

open Three

/-- The volume of a diamond created at (posX, posZ): the box of size 1 around
(posX, 1.2, posZ). -/
def diamondVolume (posX posZ : ℚ) : Box3 :=
  Box3.new.setFromCenterAndSize { x := posX, y := 6 / 5, z := posZ } { x := 1, y := 1, z := 1 }

/-- A frame of a sixtieth of a second in which the player is in a jump above the place
of the first diamond, at (-11.5, 0.5, 0), and each monster has a volume of size 5/2
around the place where it starts. -/
def touchFrame : Frame :=
  { dt := 1 / 60
    playerBox :=
      Box3.new.setFromCenterAndSize { x := -23 / 2, y := 1 / 2, z := 0 } { x := 1, y := 1, z := 1 }
    monsterBox := fun ref =>
      if ref = 14 then
        Box3.new.setFromCenterAndSize { x := -12, y := 0, z := -8 }
          { x := 5 / 2, y := 5 / 2, z := 5 / 2 }
      else if ref = 15 then
        Box3.new.setFromCenterAndSize { x := 12, y := 0, z := -1 }
          { x := 5 / 2, y := 5 / 2, z := 5 / 2 }
      else if ref = 16 then
        Box3.new.setFromCenterAndSize { x := -3, y := 0, z := 7 }
          { x := 5 / 2, y := 5 / 2, z := 5 / 2 }
      else
        Box3.new.setFromCenterAndSize { x := 4, y := 0, z := -16 }
          { x := 5 / 2, y := 5 / 2, z := 5 / 2 } }

/-- The second game after its first tick, in which the player touched the first
diamond. -/
def collectedGame : Game :=
  ((Game.new diamondVolume { innerText := "", visibility := "hidden" })._animate touchFrame).game

end SecondGame

/-! ## Properties of the character state machine -/

namespace FifthGame

theorem State.Name_mem_animations (p : State) :
    p.Name ∈ ["Idle", "Run", "WalkBackward"] := by
  cases p with
  | mk cls ref => cases cls <;> simp [State.Name, StateClass.Name]

theorem enterCalls_isAnimation (curr : String) (prev : Option State) :
    ∀ c ∈ enterCalls curr prev, c.isAnimation = true := by
  cases prev <;> simp [enterCalls, Call.isAnimation]

theorem FiniteStateMachine.setState_eq (m : FiniteStateMachine) (cls : StateClass)
    (hm : m.Loaded) :
    m.setState cls.Name = some { m with
      created := m.created + 1
      currentState := some { cls := cls, ref := m.created }
      calls := m.calls ++ exitCalls m.currentState ++
        [Call.enter { cls := cls, ref := m.created } m.currentState] ++
        enterCalls cls.Name m.currentState } := by
  obtain ⟨hs, ha⟩ := hm
  have hs' : m.states = [("WalkBackward", StateClass.WalkBackward), ("Run", StateClass.Run),
      ("Idle", StateClass.Idle)] := by rw [hs]; rfl
  have ha' : m.animations = ["Idle", "Run", "WalkBackward"] := by rw [ha]; rfl
  cases hcur : m.currentState with
  | none =>
    cases cls <;>
      simp [FiniteStateMachine.setState, hcur, FiniteStateMachine.install, hs', List.lookup,
          State.enter, enterBody, ha', StateClass.Name, exitCalls, enterCalls]
  | some p =>
    have hp := p.Name_mem_animations
    cases cls <;>
      simp [FiniteStateMachine.setState, hcur, FiniteStateMachine.install, hs', List.lookup,
          State.enter, enterBody, ha', StateClass.Name, exitCalls, enterCalls, State.name,
          State.exit, hp]

theorem Player.loadedFSM_loaded : Player.loadedFSM.Loaded := ⟨rfl, rfl⟩

theorem FiniteStateMachine.setState_loaded (m : FiniteStateMachine) (cls : StateClass)
    (hm : m.Loaded) : ∃ m', m.setState cls.Name = some m' ∧ m'.Loaded ∧
      m'.currentState = some { cls := cls, ref := m.created } ∧
      m'.calls = m.calls ++ exitCalls m.currentState ++
        [Call.enter { cls := cls, ref := m.created } m.currentState] ++
        enterCalls cls.Name m.currentState :=
  ⟨_, m.setState_eq cls hm, ⟨hm.1, hm.2⟩, rfl, rfl⟩

theorem registered_name (name : String)
    (h : name = "Idle" ∨ name = "Run" ∨ name = "WalkBackward") :
    ∃ cls : StateClass, cls.Name = name := by
  rcases h with h | h | h
  · exact ⟨.Idle, h.symm⟩
  · exact ⟨.Run, h.symm⟩
  · exact ⟨.WalkBackward, h.symm⟩

theorem FiniteStateMachine.setStates_spec (names : List String) :
    ∀ m : FiniteStateMachine, m.Loaded →
      (∀ n ∈ names, n = "Idle" ∨ n = "Run" ∨ n = "WalkBackward") →
      (∃ last, m.setStates names = some last) ∧
      ∀ (k : Nat) (hk : k < names.length),
        ∃ before after s, m.setStates (names.take k) = some before ∧
          before.setState (names.get ⟨k, hk⟩) = some after ∧
          after.currentState = some s ∧ s.Name = names.get ⟨k, hk⟩ ∧
          ∃ anim, (∀ c ∈ anim, c.isAnimation = true) ∧
            after.calls = before.calls ++ exitCalls before.currentState ++
              [Call.enter s before.currentState] ++ anim := by
  induction names with
  | nil =>
    intro m _ _
    exact ⟨⟨m, rfl⟩, fun k hk => absurd hk (Nat.not_lt_zero k)⟩
  | cons n rest ih =>
    intro m hm hreg
    obtain ⟨cls, hcls⟩ := registered_name n (hreg n (List.mem_cons_self n rest))
    obtain ⟨m1, h1, hl1, hc1, hcalls1⟩ := m.setState_loaded cls hm
    rw [hcls] at h1
    obtain ⟨hlast, hsteps⟩ := ih m1 hl1 (fun x hx => hreg x (List.mem_cons_of_mem n hx))
    refine ⟨?_, ?_⟩
    · obtain ⟨last, hl⟩ := hlast
      exact ⟨last, by simp [FiniteStateMachine.setStates, h1, hl]⟩
    · intro k hk
      cases k with
      | zero =>
        refine ⟨m, m1, _, rfl, h1, hc1, hcls, _, enterCalls_isAnimation cls.Name m.currentState,
          hcalls1⟩
      | succ j =>
        have hj : j < rest.length := Nat.lt_of_succ_lt_succ hk
        obtain ⟨before, after, s, hb, ha, hs, hn, hanim⟩ := hsteps j hj
        refine ⟨before, after, s, ?_, ha, hs, hn, hanim⟩
        simp [FiniteStateMachine.setStates, h1, hb]

/-- C1. The guard of `setState` does not fire: on the player's machine in state X,
for X any of the three classes, `setState` with X's own name calls `exit` on the current
state object, creates a second object, enters it with the first as previous state, which
fades the clip out, resets it, fades it in and plays it, and makes the second object
current. -/
theorem setState_same_name_reenters (X : StateClass) :
    ∃ m m', Player.loadedFSM.setState X.Name = some m ∧
      m.currentState = some { cls := X, ref := 0 } ∧
      m.setState X.Name = some m' ∧
      m'.currentState = some { cls := X, ref := 1 } ∧
      m'.calls = m.calls ++
        [Call.exit { cls := X, ref := 0 },
         Call.enter { cls := X, ref := 1 } (some { cls := X, ref := 0 }),
         Call.fadeOut X.Name (1 / 4), Call.reset X.Name, Call.fadeIn X.Name (1 / 4),
         Call.play X.Name] := by
  obtain ⟨m, h1, hl1, hc1, _⟩ := Player.loadedFSM.setState_loaded X Player.loadedFSM_loaded
  obtain ⟨m', h2, _, hc2, hcalls2⟩ := m.setState_loaded X hl1
  have hcreated : m.created = 1 := by
    have := Player.loadedFSM.setState_eq X Player.loadedFSM_loaded
    rw [h1] at this
    injection this with this
    rw [this]
    rfl
  refine ⟨m, m', h1, hc1, h2, ?_, ?_⟩
  · rw [hc2, hcreated]
  · rw [hcalls2, hc1, hcreated]
    have h0 : Player.loadedFSM.created = 0 := rfl
    simp [exitCalls, enterCalls, State.Name, h0]

/-- C2. For every sequence of `setState` calls with registered names on the player's
machine, every call succeeds; after each call exactly the state registered under the
called name is current, and the call made `exit` on the outgoing state (when there was
one) right before `enter` on the incoming state, which received the outgoing state, and
after that only animation calls. -/
theorem setState_exclusive (names : List String)
    (hreg : ∀ n ∈ names, n = "Idle" ∨ n = "Run" ∨ n = "WalkBackward") :
    (∃ last, Player.loadedFSM.setStates names = some last) ∧
    ∀ (k : Nat) (hk : k < names.length),
      ∃ before after s, Player.loadedFSM.setStates (names.take k) = some before ∧
        before.setState (names.get ⟨k, hk⟩) = some after ∧
        after.currentState = some s ∧ s.Name = names.get ⟨k, hk⟩ ∧
        ∃ anim, (∀ c ∈ anim, c.isAnimation = true) ∧
          after.calls = before.calls ++ exitCalls before.currentState ++
            [Call.enter s before.currentState] ++ anim :=
  FiniteStateMachine.setStates_spec names Player.loadedFSM Player.loadedFSM_loaded hreg

theorem setState_exclusive_witness :
    (∃ last, Player.loadedFSM.setStates ["Idle", "Run", "Run"] = some last) ∧
    ∀ (k : Nat) (hk : k < ["Idle", "Run", "Run"].length),
      ∃ before after s, Player.loadedFSM.setStates (["Idle", "Run", "Run"].take k) = some before ∧
        before.setState (["Idle", "Run", "Run"].get ⟨k, hk⟩) = some after ∧
        after.currentState = some s ∧ s.Name = ["Idle", "Run", "Run"].get ⟨k, hk⟩ ∧
        ∃ anim, (∀ c ∈ anim, c.isAnimation = true) ∧
          after.calls = before.calls ++ exitCalls before.currentState ++
            [Call.enter s before.currentState] ++ anim :=
  setState_exclusive ["Idle", "Run", "Run"] (by simp)

end FifthGame

/-! ## Properties of the removal operations -/

namespace FifthGame

open Three

theorem Chicken.disposeNodes_isDispose (nodes : List Node) :
    ∀ e ∈ Chicken.disposeNodes nodes, e.isDispose = true := by
  induction nodes with
  | nil => simp [Chicken.disposeNodes]
  | cons n rest ih =>
    intro e he
    simp only [Chicken.disposeNodes, List.mem_append] at he
    rcases he with he | he
    · split at he
      · simp at he
        rcases he with he | he <;> subst he <;> rfl
      · simp at he
    · exact ih e he

theorem Chicken.disposeNodes_mem (nodes : List Node) (n : Node) (hn : n ∈ nodes)
    (hmesh : n.isMesh = true) :
    Effect.geometryDispose n.ref ∈ Chicken.disposeNodes nodes ∧
      Effect.materialDispose n.ref ∈ Chicken.disposeNodes nodes := by
  induction nodes with
  | nil => simp at hn
  | cons a rest ih =>
    simp only [Chicken.disposeNodes, List.mem_append]
    rcases List.mem_cons.1 hn with h | h
    · subst h
      simp [hmesh]
    · exact ⟨Or.inr (ih h).1, Or.inr (ih h).2⟩

theorem Chicken.collision_removal (c c' : Chicken) (box : Box3) (tr : List Effect)
    (h : c.collision box = some (c', tr)) (hne : tr ≠ []) :
    ∃ obj, c.chicken = some obj ∧ c'.box3 = Box3.new ∧ c'.chicken = none ∧
      tr = [Effect.makeEmpty obj.ref] ++ Chicken.disposeNodes obj.nodes ++
        [Effect.sceneRemove obj.ref] := by
  unfold Chicken.collision at h
  split at h
  · simp only at h
    split at h
    · cases hc : c.chicken with
      | none => simp [hc] at h
      | some obj =>
        simp only [hc, Option.some.injEq, Prod.mk.injEq] at h
        obtain ⟨h1, h2⟩ := h
        subst h1 h2
        exact ⟨obj, rfl, rfl, rfl, rfl⟩
    · simp only [Option.some.injEq, Prod.mk.injEq] at h
      exact absurd h.2.symm hne
  · simp only [Option.some.injEq, Prod.mk.injEq] at h
    exact absurd h.2.symm hne

end FifthGame

open Three

theorem Three.precedes_append (p q : Effect → Bool) (front back : List Effect)
    (hfront : ∀ e ∈ front, q e = false) (hback : ∀ e ∈ back, p e = false) :
    Precedes p q (front ++ back) := by
  unfold Precedes
  rw [List.pairwise_append]
  refine ⟨?_, ?_, ?_⟩
  · exact List.pairwise_of_forall_mem_list (fun a ha b _ h => by simp [hfront a ha] at h)
  · exact List.pairwise_of_forall_mem_list (fun a _ b hb h => by simp [hback b hb] at h)
  · exact fun a ha b _ h => by simp [hfront a ha] at h

namespace ThirdGame

/-- C3, as stated, fails for a bullet: its removal disposes the geometry and the
material of a new bullet before it empties the volume. -/
theorem removal_order_counterexample :
    ¬ Precedes Effect.isMakeEmpty Effect.isDispose (Game.removeBullet (Bullet.new 0)).2 := by
  decide

/-- C3, amended. Every removal operation empties the volume of the entity and disposes
its geometry and material before it detaches the entity from the scene.
`Scene.remove` of a diamond and the removal branch of `Chicken.collision` empty the
volume before they dispose; the removals of a bullet and of an enemy dispose first and
empty the volume after that. -/
theorem removal_order :
    (∀ d : SecondGame.Diamond,
      (SecondGame.Scene.remove d).1.box3 = Box3.new ∧
      (SecondGame.Scene.remove d).2 =
        [Effect.makeEmpty d.ref, Effect.geometryDispose d.ref, Effect.materialDispose d.ref,
         Effect.sceneRemove d.ref] ∧
      Precedes Effect.isMakeEmpty Effect.isDispose (SecondGame.Scene.remove d).2 ∧
      Precedes Effect.isMakeEmpty Effect.isSceneRemove (SecondGame.Scene.remove d).2 ∧
      Precedes Effect.isDispose Effect.isSceneRemove (SecondGame.Scene.remove d).2) ∧
    (∀ (c c' : FifthGame.Chicken) (box : Box3) (tr : List Effect),
      c.collision box = some (c', tr) → tr ≠ [] →
      ∃ obj, c.chicken = some obj ∧ c'.box3 = Box3.new ∧
        Effect.makeEmpty obj.ref ∈ tr ∧ Effect.sceneRemove obj.ref ∈ tr ∧
        (∀ n ∈ obj.nodes, n.isMesh = true →
          Effect.geometryDispose n.ref ∈ tr ∧ Effect.materialDispose n.ref ∈ tr) ∧
        Precedes Effect.isMakeEmpty Effect.isDispose tr ∧
        Precedes Effect.isMakeEmpty Effect.isSceneRemove tr ∧
        Precedes Effect.isDispose Effect.isSceneRemove tr) ∧
    (∀ b : Bullet,
      (Game.removeBullet b).1.box3 = Box3.new ∧
      (Game.removeBullet b).2 =
        [Effect.geometryDispose b.ref, Effect.materialDispose b.ref, Effect.makeEmpty b.ref,
         Effect.sceneRemove b.ref] ∧
      Precedes Effect.isDispose Effect.isMakeEmpty (Game.removeBullet b).2 ∧
      Precedes Effect.isMakeEmpty Effect.isSceneRemove (Game.removeBullet b).2 ∧
      Precedes Effect.isDispose Effect.isSceneRemove (Game.removeBullet b).2) ∧
    (∀ e : Enemy,
      (Game.removeEnemy e).1.box3 = Box3.new ∧
      (Game.removeEnemy e).2 =
        [Effect.geometryDispose e.ref, Effect.materialDispose e.ref, Effect.makeEmpty e.ref,
         Effect.sceneRemove e.ref] ∧
      Precedes Effect.isDispose Effect.isMakeEmpty (Game.removeEnemy e).2 ∧
      Precedes Effect.isMakeEmpty Effect.isSceneRemove (Game.removeEnemy e).2 ∧
      Precedes Effect.isDispose Effect.isSceneRemove (Game.removeEnemy e).2) := by
  refine ⟨?_, ?_, ?_, ?_⟩
  · intro d
    refine ⟨rfl, rfl, ?_, ?_, ?_⟩ <;>
      simp [Precedes, SecondGame.Scene.remove, Effect.isMakeEmpty, Effect.isDispose,
        Effect.isSceneRemove]
  · intro c c' box tr h hne
    obtain ⟨obj, hobj, hbox, _, htr⟩ := FifthGame.Chicken.collision_removal c c' box tr h hne
    have hd := FifthGame.Chicken.disposeNodes_isDispose obj.nodes
    refine ⟨obj, hobj, hbox, by simp [htr], by simp [htr], ?_, ?_, ?_, ?_⟩
    · intro n hn hmesh
      have := FifthGame.Chicken.disposeNodes_mem obj.nodes n hn hmesh
      exact ⟨by simp [htr, this.1], by simp [htr, this.2]⟩
    · rw [htr, List.append_assoc]
      refine Three.precedes_append _ _ _ _ (by simp [Effect.isDispose]) ?_
      intro e he
      rcases List.mem_append.1 he with he | he
      · have := hd e he
        cases e <;> simp_all [Effect.isDispose, Effect.isMakeEmpty]
      · simp at he
        subst he
        rfl
    · rw [htr]
      refine Three.precedes_append _ _ _ _ ?_ (by simp [Effect.isMakeEmpty])
      intro e he
      rcases List.mem_append.1 he with he | he
      · simp at he
        subst he
        rfl
      · have := hd e he
        cases e <;> simp_all [Effect.isDispose, Effect.isSceneRemove]
    · rw [htr]
      refine Three.precedes_append _ _ _ _ ?_ (by simp [Effect.isDispose])
      intro e he
      rcases List.mem_append.1 he with he | he
      · simp at he
        subst he
        rfl
      · have := hd e he
        cases e <;> simp_all [Effect.isDispose, Effect.isSceneRemove]
  · intro b
    refine ⟨rfl, rfl, ?_, ?_, ?_⟩ <;>
      simp [Precedes, Game.removeBullet, Bullet.remove, Effect.isMakeEmpty, Effect.isDispose,
        Effect.isSceneRemove]
  · intro e
    refine ⟨rfl, rfl, ?_, ?_, ?_⟩ <;>
      simp [Precedes, Game.removeEnemy, Enemy.remove, Effect.isMakeEmpty, Effect.isDispose,
        Effect.isSceneRemove]

theorem removal_order_witness :
    Precedes Effect.isMakeEmpty Effect.isDispose
      [Effect.makeEmpty 7, Effect.geometryDispose 8, Effect.materialDispose 8,
       Effect.sceneRemove 7] ∧
    Precedes Effect.isDispose Effect.isSceneRemove
      [Effect.makeEmpty 7, Effect.geometryDispose 8, Effect.materialDispose 8,
       Effect.sceneRemove 7] := by
  obtain ⟨_, _, _, _, _, _, h1, _, h3⟩ :=
    removal_order.2.1 FifthGame.sampleChicken
      { chicken := none, box3 := Box3.new, delay := 11 } (cube 0 1)
      [Effect.makeEmpty 7, Effect.geometryDispose 8, Effect.materialDispose 8,
       Effect.sceneRemove 7] rfl (by simp)
  exact ⟨h1, h3⟩

end ThirdGame

/-! ## Properties of the third game's frame loop -/

namespace ThirdGame

theorem Bullet.enemyLoop_ref (es : List Enemy) : ∀ b : Bullet,
    (b.enemyLoop es).1.ref = b.ref ∧ (b.enemyLoop es).1.shouldRemove = b.shouldRemove ∧
      (b.enemyLoop es).1.newBullet = b.newBullet ∧ (b.enemyLoop es).1.box3 = b.box3 := by
  induction es with
  | nil => intro b; simp [Bullet.enemyLoop]
  | cons e rest ih =>
    intro b
    unfold Bullet.enemyLoop
    split
    · exact ih _
    · exact ih _

theorem Bullet.wallLoop_ref (ws : List Block) : ∀ b : Bullet,
    (b.wallLoop ws).ref = b.ref ∧ (b.wallLoop ws).shouldRemove = b.shouldRemove ∧
      (b.wallLoop ws).newBullet = b.newBullet ∧ (b.wallLoop ws).box3 = b.box3 := by
  induction ws with
  | nil => intro b; simp [Bullet.wallLoop]
  | cons w rest ih =>
    intro b
    unfold Bullet.wallLoop
    split
    · exact ih _
    · exact ih _

theorem Bullet.checkCollision_ref (b : Bullet) (es : List Enemy) (ws : List Block) :
    (b.checkCollision es ws).1.ref = b.ref ∧
      (b.checkCollision es ws).1.newBullet = b.newBullet := by
  have h1 := Bullet.enemyLoop_ref es b
  have h2 := Bullet.wallLoop_ref ws (b.enemyLoop es).1
  unfold Bullet.checkCollision
  simp only
  split
  · exact ⟨h2.1.trans h1.1, h2.2.2.1.trans h1.2.2.1⟩
  · exact ⟨h2.1.trans h1.1, h2.2.2.1.trans h1.2.2.1⟩

theorem bulletPass_processed_ref (f : Frame) (ws : List Block) (bs : List Bullet) :
    ∀ es : List Enemy, (bulletPass f ws bs es).processed.map Bullet.ref = bs.map Bullet.ref := by
  induction bs with
  | nil => intro es; rfl
  | cons b rest ih =>
    intro es
    have hr : ((b.update (f.bulletBox b.ref)).checkCollision es ws).1.ref = b.ref :=
      (Bullet.checkCollision_ref (b.update (f.bulletBox b.ref)) es ws).1
    unfold bulletPass
    simp only
    split
    · simp only [List.map_cons, ih, Game.removeBullet, Bullet.remove, hr]
    · simp only [List.map_cons, ih, hr]

theorem bulletPass_kept (f : Frame) (ws : List Block) (bs : List Bullet) :
    ∀ es : List Enemy, (bulletPass f ws bs es).kept =
      (bulletPass f ws bs es).processed.filter (fun b => !b.shouldRemove) := by
  induction bs with
  | nil => intro es; rfl
  | cons b rest ih =>
    intro es
    unfold bulletPass
    simp only
    split
    · rename_i h
      simp only [Bullet.getShouldRemove] at h
      simp [ih, Game.removeBullet, Bullet.remove, h]
    · rename_i h
      simp only [Bullet.getShouldRemove] at h
      simp [ih, h]

theorem bulletPass_no_request (f : Frame) (ws : List Block) (bs : List Bullet) :
    ∀ es : List Enemy, Effect.requestAnimationFrame ∉ (bulletPass f ws bs es).effects := by
  induction bs with
  | nil => intro es; simp [bulletPass]
  | cons b rest ih =>
    intro es
    unfold bulletPass
    simp only
    split <;> split <;> simp [Game.removeBullet, Bullet.remove, ih]

theorem enemyPass_no_request (f : Frame) (box : Box3) (es : List Enemy) :
    ∀ p : Player, Effect.requestAnimationFrame ∉ (enemyPass f box es p).effects := by
  induction es with
  | nil => intro p; simp [enemyPass]
  | cons e rest ih =>
    intro p
    unfold enemyPass
    simp only
    split <;> simp [Game.removeEnemy, Enemy.remove, ih]

/-- C10. A tick schedules the next tick exactly when at least one enemy is left at
its start and the player has at least one health point after its enemy loop. With no
enemy left it shows 'Completed' and makes no call; with the player's health below one
it shows 'Game Over!' and schedules nothing. -/
theorem animate_schedules_iff (g : Game) (f : Frame) :
    (Effect.requestAnimationFrame ∈ (g._animate f).2 ↔
      g.enemies ≠ [] ∧
        1 ≤ (enemyPass f g.player.box3
          (bulletPass f g.blocks g.magazine.items g.enemies).enemies g.player).player.getHP) ∧
    (g.enemies = [] →
      (g._animate f).1.el = { innerText := "Completed", visibility := "visible" } ∧
        (g._animate f).2 = []) ∧
    (g.enemies ≠ [] →
      (enemyPass f g.player.box3
        (bulletPass f g.blocks g.magazine.items g.enemies).enemies g.player).player.getHP < 1 →
      (g._animate f).1.el = { innerText := "Game Over!", visibility := "visible" } ∧
        Effect.requestAnimationFrame ∉ (g._animate f).2) := by
  have hb := bulletPass_no_request f g.blocks g.magazine.items g.enemies
  have he := enemyPass_no_request f g.player.box3
    (bulletPass f g.blocks g.magazine.items g.enemies).enemies g.player
  refine ⟨?_, ?_, ?_⟩
  · unfold Game._animate
    simp only
    by_cases h0 : g.enemies = []
    · simp [h0]
    · have hlen : ¬ g.enemies.length = 0 := by simpa using h0
      rw [if_neg hlen]
      split
      · rename_i hlt
        simp only [List.mem_append, hb, he, or_self, false_iff, not_and, not_le]
        exact fun _ => hlt
      · rename_i hge
        refine ⟨fun _ => ⟨h0, not_lt.1 hge⟩, fun _ => ?_⟩
        simp
  · intro h0
    unfold Game._animate
    simp [h0]
  · intro h0 hlt
    have hlen : ¬ g.enemies.length = 0 := by simpa using h0
    unfold Game._animate
    simp only
    rw [if_neg hlen, if_pos hlt]
    simp [hb, he]

theorem enemyPass_input (f : Frame) (box : Box3) (es : List Enemy) :
    ∀ p : Player, (enemyPass f box es p).player.input = p.input := by
  induction es with
  | nil => intro p; rfl
  | cons e rest ih =>
    intro p
    unfold enemyPass
    simp only
    split <;> simp only [ih] <;> split <;> rfl

/-- C4, as stated, fails in a frame in which the player fires: the magazine then holds
a bullet that is not of the pre-frame list. -/
theorem magazine_rebuild_counterexample :
    ((sampleGame true)._animate sampleFrame).1.magazine.items.map Bullet.ref ≠
      ((bulletPass sampleFrame (sampleGame true).blocks (sampleGame true).magazine.items
        (sampleGame true).enemies).processed.filter (fun b => !b.shouldRemove)).map Bullet.ref := by
  decide

/-- C4, amended. In a tick that schedules the next one, the bullet loop visits the
bullets of the pre-frame list in order, the array installed by `setMagazine` is the
array created in this tick and holds exactly the visited bullets this tick did not flag
for removal, in their order; at the end of the tick the magazine holds that array,
followed by the one new bullet when the fire flag was set. -/
theorem magazine_rebuild (g : Game) (f : Frame)
    (hcont : Effect.requestAnimationFrame ∈ (g._animate f).2) :
    (bulletPass f g.blocks g.magazine.items g.enemies).processed.map Bullet.ref =
      g.magazine.items.map Bullet.ref ∧
    (bulletPass f g.blocks g.magazine.items g.enemies).kept =
      (bulletPass f g.blocks g.magazine.items g.enemies).processed.filter
        (fun b => !b.shouldRemove) ∧
    (g._animate f).1.magazine.ref = g.created ∧
    (g.magazine.ref < g.created →
      (g._animate f).1.magazine.ref ≠ g.magazine.ref ∧
        (g._animate f).1.magazine.ref < (g._animate f).1.created) ∧
    (g._animate f).1.magazine.items =
      (bulletPass f g.blocks g.magazine.items g.enemies).kept ++
        (if g.player.input.shoot then [Bullet.new (g.created + 1)] else []) := by
  have hb := bulletPass_no_request f g.blocks g.magazine.items g.enemies
  have he := enemyPass_no_request f g.player.box3
    (bulletPass f g.blocks g.magazine.items g.enemies).enemies g.player
  refine ⟨bulletPass_processed_ref f g.blocks g.magazine.items g.enemies,
    bulletPass_kept f g.blocks g.magazine.items g.enemies, ?_⟩
  unfold Game._animate at hcont ⊢
  simp only at hcont ⊢
  by_cases h0 : g.enemies.length = 0
  · rw [if_pos h0] at hcont
    simp at hcont
  · rw [if_neg h0] at hcont ⊢
    split at hcont
    · simp [hb, he] at hcont
    · rename_i hge
      rw [if_neg hge]
      have hin := enemyPass_input f g.player.box3
        (bulletPass f g.blocks g.magazine.items g.enemies).enemies g.player
      simp only [Player.update, Magazine.setMagazine, hin]
      by_cases hs : g.player.input.shoot = true
      · rw [hs]
        refine ⟨rfl, fun h => ⟨Nat.ne_of_gt h, ?_⟩, rfl⟩
        show g.created < g.created + 1 + 1
        omega
      · have hs' : g.player.input.shoot = false := by simpa using hs
        rw [hs']
        refine ⟨rfl, fun h => ⟨Nat.ne_of_gt h, ?_⟩, by simp⟩
        show g.created < g.created + 1
        omega

theorem magazine_rebuild_witness :
    Effect.requestAnimationFrame ∈ ((sampleGame false)._animate sampleFrame).2 ∧
    (bulletPass sampleFrame (sampleGame false).blocks (sampleGame false).magazine.items
      (sampleGame false).enemies).processed.map Bullet.shouldRemove = [false, true, false] ∧
    ((sampleGame false)._animate sampleFrame).1.magazine.items.map Bullet.ref = [10, 12] ∧
    ((sampleGame false)._animate sampleFrame).1.magazine.items =
      (bulletPass sampleFrame (sampleGame false).blocks (sampleGame false).magazine.items
        (sampleGame false).enemies).kept ++
        (if (sampleGame false).player.input.shoot then
          [Bullet.new ((sampleGame false).created + 1)] else []) :=
  ⟨by decide, by decide, by decide,
    (magazine_rebuild (sampleGame false) sampleFrame (by decide)).2.2.2.2⟩

/-- C5. The flag of a new bullet is never cleared: with the bullets 10, 11 and 12 new
in the magazine, the first tick adds all three to the scene (and removes 11, which is
inside a wall), and the second tick adds 10 and 12 to the scene again; after both
ticks their flags are still set. -/
theorem new_bullet_added_again :
    (Game.run (sampleGame false) [sampleFrame, sampleFrame]).2 =
      [[Effect.sceneAdd 10, Effect.sceneAdd 11, Effect.geometryDispose 11,
        Effect.materialDispose 11, Effect.makeEmpty 11, Effect.sceneRemove 11,
        Effect.sceneAdd 12, Effect.render, Effect.requestAnimationFrame],
       [Effect.sceneAdd 10, Effect.sceneAdd 12, Effect.render,
        Effect.requestAnimationFrame]] ∧
    (Game.run (sampleGame false) [sampleFrame, sampleFrame]).1.magazine.items.map
      (fun b => (b.ref, b.getIsNewBullet)) = [(10, true), (12, true)] := by
  decide

theorem Bullet.enemyLoop_eq (es : List Enemy) : ∀ b : Bullet,
    b.enemyLoop es =
      ({ b with hp := b.hp - ((es.filter (fun e => b.box3.intersectsBox e.box3)).length : Int) },
        es.map (fun e => if b.box3.intersectsBox e.box3 then e.decreaseHP else e)) := by
  induction es with
  | nil => intro b; simp [Bullet.enemyLoop]
  | cons e rest ih =>
    intro b
    unfold Bullet.enemyLoop
    by_cases h : b.box3.intersectsBox e.box3 = true
    · simp only [h, if_true, ih, List.filter_cons_of_pos, List.length_cons, List.map_cons]
      congr 2
      push_cast
      ring
    · simp only [h, if_false, ih, List.map_cons, Bool.false_eq_true]
      rw [List.filter_cons_of_neg (by simpa using h)]

theorem Bullet.wallLoop_free (ws : List Block) (b : Bullet)
    (h : ∀ w ∈ ws, b.box3.intersectsBox w.box3 = false) : b.wallLoop ws = b := by
  induction ws with
  | nil => rfl
  | cons w rest ih =>
    unfold Bullet.wallLoop
    rw [h w (List.mem_cons_self w rest)]
    simp only [Bool.false_eq_true, if_false]
    exact ih (fun x hx => h x (List.mem_cons_of_mem w hx))

theorem Bullet.checkCollision_one (b : Bullet) (es : List Enemy) (ws : List Block)
    (hone : (es.filter (fun e => b.box3.intersectsBox e.box3)).length = 1)
    (hfree : ∀ w ∈ ws, b.box3.intersectsBox w.box3 = false) :
    b.checkCollision es ws =
      ({ b with hp := b.hp - 1, shouldRemove := if b.hp - 1 ≤ 0 then true else b.shouldRemove },
        es.map (fun e => if b.box3.intersectsBox e.box3 then e.decreaseHP else e)) := by
  unfold Bullet.checkCollision
  simp only [Bullet.enemyLoop_eq, hone]
  have hw := Bullet.wallLoop_free ws { b with hp := b.hp - ((1 : Nat) : Int) } hfree
  rw [hw]
  simp only [Nat.cast_one]
  split <;> rfl

/-- C6. A new bullet whose volume, in each of three consecutive `checkCollision`
calls, intersects the volume of exactly one enemy and of no wall is not flagged for
removal after the first and the second call and is flagged after the third; each call
lowers the health of the enemy struck by one and leaves the other enemies as they are. -/
theorem bullet_exhaustion (ref : Nat) (v1 v2 v3 : Box3) (es1 es2 es3 : List Enemy)
    (ws1 ws2 ws3 : List Block)
    (h1 : (es1.filter (fun e => v1.intersectsBox e.box3)).length = 1)
    (h2 : (es2.filter (fun e => v2.intersectsBox e.box3)).length = 1)
    (h3 : (es3.filter (fun e => v3.intersectsBox e.box3)).length = 1)
    (w1 : ∀ w ∈ ws1, v1.intersectsBox w.box3 = false)
    (w2 : ∀ w ∈ ws2, v2.intersectsBox w.box3 = false)
    (w3 : ∀ w ∈ ws3, v3.intersectsBox w.box3 = false) :
    let r1 := ((Bullet.new ref).update v1).checkCollision es1 ws1
    let r2 := (r1.1.update v2).checkCollision es2 ws2
    let r3 := (r2.1.update v3).checkCollision es3 ws3
    r1.1.getShouldRemove = false ∧ r2.1.getShouldRemove = false ∧
      r3.1.getShouldRemove = true ∧
      r1.2 = es1.map (fun e => if v1.intersectsBox e.box3 then { e with hp := e.hp - 1 } else e) ∧
      r2.2 = es2.map (fun e => if v2.intersectsBox e.box3 then { e with hp := e.hp - 1 } else e) ∧
      r3.2 = es3.map (fun e => if v3.intersectsBox e.box3 then { e with hp := e.hp - 1 } else e) := by
  intro r1 r2 r3
  have e1 : r1 = _ := Bullet.checkCollision_one ((Bullet.new ref).update v1) es1 ws1 h1 w1
  have e2 : r2 = _ := Bullet.checkCollision_one (r1.1.update v2) es2 ws2
    (by rw [e1]; exact h2) (by rw [e1]; exact w2)
  have e3 : r3 = _ := Bullet.checkCollision_one (r2.1.update v3) es3 ws3
    (by rw [e2]; exact h3) (by rw [e2]; exact w3)
  rw [e3, e2, e1]
  simp [Bullet.getShouldRemove, Bullet.update, Bullet.new, Enemy.decreaseHP]

theorem bullet_exhaustion_witness :
    ([({ ref := 1, box3 := cube 50 51, hp := 9 } : Enemy)].filter
      (fun e => (cube 50 51).intersectsBox e.box3)).length = 1 ∧
    (let r1 := ((Bullet.new 10).update (cube 50 51)).checkCollision
        [{ ref := 1, box3 := cube 50 51, hp := 9 }] [{ ref := 3, box3 := cube 100 101 }]
     let r2 := (r1.1.update (cube 50 51)).checkCollision
        [{ ref := 1, box3 := cube 50 51, hp := 8 }] [{ ref := 3, box3 := cube 100 101 }]
     let r3 := (r2.1.update (cube 50 51)).checkCollision
        [{ ref := 1, box3 := cube 50 51, hp := 7 }] [{ ref := 3, box3 := cube 100 101 }]
     r1.1.getShouldRemove = false ∧ r2.1.getShouldRemove = false ∧
       r3.1.getShouldRemove = true) := by
  refine ⟨by decide, ?_⟩
  have h := bullet_exhaustion 10 (cube 50 51) (cube 50 51) (cube 50 51)
    [{ ref := 1, box3 := cube 50 51, hp := 9 }] [{ ref := 1, box3 := cube 50 51, hp := 8 }]
    [{ ref := 1, box3 := cube 50 51, hp := 7 }]
    [{ ref := 3, box3 := cube 100 101 }] [{ ref := 3, box3 := cube 100 101 }]
    [{ ref := 3, box3 := cube 100 101 }]
    (by decide) (by decide) (by decide) (by decide) (by decide) (by decide)
  exact ⟨h.1, h.2.1, h.2.2.1⟩

end ThirdGame

/-! ## Properties of the wall probe and of the pickups -/

namespace FifthGame

theorem Player.fLoop_eq (hits : List Intersection) : ∀ flag : Bool,
    Player.fLoop flag hits = (hits.any (fun f => decide (f.distance < 3 / 2)) || flag) := by
  induction hits with
  | nil => intro flag; simp [Player.fLoop]
  | cons h rest ih =>
    intro flag
    unfold Player.fLoop
    rw [ih]
    by_cases hd : h.distance < 3 / 2
    · simp [hd]
    · simp [hd]

/-- C7, as stated, fails: a forward hit at distance 9/5, beyond the threshold 3/2 and
within the reach 2 of the ray, leaves a set forward flag set. -/
theorem forward_probe_counterexample :
    (∀ f ∈ [({ distance := 9 / 5 } : Intersection)], ¬ f.distance < 3 / 2) ∧
    (({ fBump := true, bBump := false } : Player).collision [{ distance := 9 / 5 }] []).fBump
      = true := by
  constructor
  · intro f hf
    simp at hf
    subst hf
    norm_num
  · simp [Player.collision, Player.fLoop]

/-- C7, amended. After `collision` the forward flag is set when some forward hit lies
at a distance below 3/2; otherwise it is cleared when the forward probe reports no hit
at all, and keeps its value when the probe reports hits that all lie at 3/2 or beyond. -/
theorem forward_probe (p : Player) (fCollide bCollide : List Intersection) :
    (p.collision fCollide bCollide).fBump =
      (fCollide.any (fun f => decide (f.distance < 3 / 2)) ||
        (!fCollide.isEmpty && p.fBump)) := by
  simp only [Player.collision, Player.fLoop_eq]
  cases fCollide with
  | nil => cases hp : p.fBump <;> simp [hp]
  | cons h rest => simp

theorem Chicken.update_chicken (c : Chicken) : c.update.chicken = c.chicken ∧
    c.update.delay = c.delay := by
  unfold Chicken.update Chicken._calculateBox3
  cases h : c.chicken <;> simp [h]

theorem Chicken.update_box3 (c c' : Chicken) (obj : Object3D) (h : c.chicken = some obj)
    (h' : c'.chicken = some obj) : c'.update.box3 = c.update.box3 := by
  unfold Chicken.update Chicken._calculateBox3
  simp [h, h', Box3.setFromCenterAndSize]

theorem Chicken.frame_waiting (c : Chicken) (box : Box3)
    (hdelay : c.delay + 1 ≤ 10)
    (hbox : c.update.box3.intersectsBox box = true) :
    c.frame box = some ({ c.update with delay := c.delay + 1 }, []) := by
  have hu := c.update_chicken
  unfold Chicken.frame Chicken.collision
  rw [hbox]
  simp only [if_true, hu.2]
  rw [if_neg (by omega)]

theorem Chicken.frame_removal (c : Chicken) (obj : Object3D) (box : Box3)
    (hobj : c.chicken = some obj) (hdelay : 10 < c.delay + 1)
    (hbox : c.update.box3.intersectsBox box = true) :
    c.frame box = some ({ c.update with delay := c.delay + 1, box3 := Box3.new, chicken := none },
      [Effect.makeEmpty obj.ref] ++ Chicken.disposeNodes obj.nodes ++
        [Effect.sceneRemove obj.ref]) := by
  have hu := c.update_chicken
  unfold Chicken.frame Chicken.collision
  rw [hbox]
  simp only [if_true, hu.2, hu.1, hobj]
  rw [if_pos (by omega)]
  rfl

theorem Chicken.frames_waiting (boxes : List Box3) : ∀ (c : Chicken) (obj : Object3D),
    c.chicken = some obj → c.delay + boxes.length ≤ 10 →
    (∀ box ∈ boxes, c.update.box3.intersectsBox box = true) →
    ∃ c', c.frames boxes = some (c', List.replicate boxes.length []) ∧
      c'.chicken = some obj ∧ c'.delay = c.delay + boxes.length := by
  induction boxes with
  | nil =>
    intro c obj hobj _ _
    exact ⟨c, rfl, hobj, by simp⟩
  | cons box rest ih =>
    intro c obj hobj hdelay hbox
    simp only [List.length_cons, Nat.cast_add, Nat.cast_one] at hdelay
    have hstep := c.frame_waiting box (by omega) (hbox box (List.mem_cons_self box rest))
    have hobj1 : ({ c.update with delay := c.delay + 1 } : Chicken).chicken = some obj := by
      show c.update.chicken = some obj
      rw [c.update_chicken.1, hobj]
    obtain ⟨c', hc', hch, hd⟩ := ih { c.update with delay := c.delay + 1 } obj hobj1
      (by show c.delay + 1 + (rest.length : Int) ≤ 10; omega)
      (fun b hb => by
        rw [Chicken.update_box3 c _ obj hobj hobj1]
        exact hbox b (List.mem_cons_of_mem box hb))
    refine ⟨c', ?_, hch, ?_⟩
    · simp only [Chicken.frames, hstep, hc', List.length_cons, List.replicate_succ]
    · rw [hd]
      simp only [List.length_cons, Nat.cast_add, Nat.cast_one]
      ring

theorem Chicken.frames_append (l1 : List Box3) : ∀ (c c1 c2 : Chicken) (l2 : List Box3)
    (t1 t2 : List (List Effect)), c.frames l1 = some (c1, t1) → c1.frames l2 = some (c2, t2) →
    c.frames (l1 ++ l2) = some (c2, t1 ++ t2) := by
  induction l1 with
  | nil =>
    intro c c1 c2 l2 t1 t2 h1 h2
    simp only [Chicken.frames, Option.some.injEq, Prod.mk.injEq] at h1
    obtain ⟨rfl, rfl⟩ := h1
    simpa using h2
  | cons box rest ih =>
    intro c c1 c2 l2 t1 t2 h1 h2
    simp only [Chicken.frames, List.cons_append] at h1 ⊢
    cases hf : c.frame box with
    | none => simp [hf] at h1
    | some r =>
      obtain ⟨c0, e0⟩ := r
      simp only [hf] at h1 ⊢
      cases hr : c0.frames rest with
      | none => simp [hr] at h1
      | some r1 =>
        obtain ⟨c3, t3⟩ := r1
        simp only [hr, Option.some.injEq, Prod.mk.injEq] at h1
        obtain ⟨rfl, rfl⟩ := h1
        have hrec := ih c0 c3 c2 l2 t3 t2 hr h2
        simp only [List.append_eq, hrec, List.cons_append]

theorem Chicken.disposeNodes_eq (nodes : List Node) :
    Chicken.disposeNodes nodes =
      (nodes.filter (fun n => n.isMesh)).flatMap
        (fun n => [Effect.geometryDispose n.ref, Effect.materialDispose n.ref]) := by
  induction nodes with
  | nil => rfl
  | cons n rest ih =>
    unfold Chicken.disposeNodes
    rw [ih]
    cases hm : n.isMesh <;> simp [List.filter_cons, hm]

/-- C8. A freshly created chicken whose volume the player's volume overlaps in eleven
consecutive frames is still there after each of the first ten: no call is made, the
object is kept and the counter equals the number of frames. The eleventh frame removes
it: that frame empties the volume, then disposes the geometry and the material of every
mesh among the nodes of the chicken, in the order of the nodes, then detaches the
chicken from the scene, and makes no other call; the chicken is left without its object
and with an emptied volume. -/
theorem pickup_debounce (obj : Object3D) (posX posZ : ℚ) (boxes : List Box3)
    (hlen : boxes.length = 11)
    (hover : ∀ box ∈ boxes, (Chicken.new obj posX posZ).update.box3.intersectsBox box = true) :
    (∀ k : Nat, k ≤ 10 →
      ∃ c, (Chicken.new obj posX posZ).frames (boxes.take k) = some (c, List.replicate k []) ∧
        c.chicken = some { obj with position := { x := posX, y := 1 / 2, z := posZ } } ∧
        c.delay = k) ∧
    ∃ c removal, (Chicken.new obj posX posZ).frames boxes =
        some (c, List.replicate 10 [] ++ [removal]) ∧
      removal = [Effect.makeEmpty obj.ref] ++
        (obj.nodes.filter (fun n => n.isMesh)).flatMap
          (fun n => [Effect.geometryDispose n.ref, Effect.materialDispose n.ref]) ++
        [Effect.sceneRemove obj.ref] ∧
      (∀ n ∈ obj.nodes, n.isMesh = true →
        Effect.geometryDispose n.ref ∈ removal ∧ Effect.materialDispose n.ref ∈ removal) ∧
      c.chicken = none ∧ c.box3 = Box3.new := by
  have hnew : (Chicken.new obj posX posZ).chicken =
      some { obj with position := { x := posX, y := 1 / 2, z := posZ } } := rfl
  have hwait : ∀ k : Nat, k ≤ 10 →
      ∃ c, (Chicken.new obj posX posZ).frames (boxes.take k) = some (c, List.replicate k []) ∧
        c.chicken = some { obj with position := { x := posX, y := 1 / 2, z := posZ } } ∧
        c.delay = k := by
    intro k hk
    have hl : (boxes.take k).length = k := by rw [List.length_take, hlen]; omega
    obtain ⟨c, hc, hch, hd⟩ := Chicken.frames_waiting (boxes.take k) (Chicken.new obj posX posZ) _
      hnew (by rw [hl]; show (0 : Int) + (k : Int) ≤ 10; omega)
      (fun b hb => hover b (List.mem_of_mem_take hb))
    rw [hl] at hc hd
    exact ⟨c, hc, hch, by rw [hd]; show (0 : Int) + (k : Int) = k; omega⟩
  refine ⟨hwait, ?_⟩
  obtain ⟨c10, hc10, hch10, hd10⟩ := hwait 10 (le_refl 10)
  have hsplit : boxes = boxes.take 10 ++ boxes.drop 10 := (List.take_append_drop 10 boxes).symm
  have hdrop : (boxes.drop 10).length = 1 := by rw [List.length_drop, hlen]
  obtain ⟨last, hlast⟩ := List.length_eq_one.1 hdrop
  have hmem : last ∈ boxes := by
    rw [hsplit, hlast]
    simp
  have hbox : c10.update.box3.intersectsBox last = true := by
    rw [Chicken.update_box3 (Chicken.new obj posX posZ) c10 _ hnew hch10]
    exact hover last hmem
  have hrem := c10.frame_removal _ last hch10 (by rw [hd10]; norm_num) hbox
  refine ⟨{ c10.update with delay := c10.delay + 1, box3 := Box3.new, chicken := none },
    [Effect.makeEmpty obj.ref] ++ Chicken.disposeNodes obj.nodes ++ [Effect.sceneRemove obj.ref],
    ?_, ?_, ?_, rfl, rfl⟩
  · rw [hsplit, hlast]
    refine Chicken.frames_append _ _ c10 _ _ _ _ hc10 ?_
    simp only [Chicken.frames, hrem]
  · rw [Chicken.disposeNodes_eq]
  · intro n hn hmesh
    have := Chicken.disposeNodes_mem obj.nodes n hn hmesh
    simp only [List.mem_append, List.mem_singleton, List.mem_cons]
    exact ⟨Or.inl (Or.inr this.1), Or.inl (Or.inr this.2)⟩

theorem pickup_debounce_witness :
    ∃ c removal, (Chicken.new sampleModel 40 20).frames (List.replicate 11 samplePlayerBox) =
        some (c, List.replicate 10 [] ++ [removal]) ∧
      removal = [Effect.makeEmpty 7, Effect.geometryDispose 8, Effect.materialDispose 8,
        Effect.sceneRemove 7] ∧
      (∀ n ∈ sampleModel.nodes, n.isMesh = true →
        Effect.geometryDispose n.ref ∈ removal ∧ Effect.materialDispose n.ref ∈ removal) ∧
      c.chicken = none ∧ c.box3 = Box3.new :=
  (pickup_debounce sampleModel 40 20 (List.replicate 11 samplePlayerBox) (by simp)
    (by
      intro box hb
      rw [List.eq_of_mem_replicate hb]
      simp [Chicken.new, Chicken.update, Chicken._calculateBox3, samplePlayerBox,
        Player._calculateBox3, Box3.setFromCenterAndSize, Box3.intersectsBox, Vector3.add,
        Number.lt, sampleModel]
      norm_num)).2

end FifthGame

/-! ## Properties of the rounding of doubles -/

namespace Binary64

theorem bitLengthAux_spec : ∀ fuel n : Nat, n ≤ fuel → n ≠ 0 →
    2 ^ (bitLengthAux fuel n - 1) ≤ n ∧ n < 2 ^ bitLengthAux fuel n ∧
      1 ≤ bitLengthAux fuel n := by
  intro fuel
  induction fuel with
  | zero => intro n hn h0; omega
  | succ fuel ih =>
    intro n hn h0
    unfold bitLengthAux
    rw [if_neg h0]
    by_cases h1 : n / 2 = 0
    · have hn1 : n = 1 := by omega
      subst hn1
      cases fuel <;> simp [bitLengthAux]
    · obtain ⟨hlow, hup, hpos⟩ := ih (n / 2) (by omega) h1
      refine ⟨?_, ?_, by omega⟩
      · rw [Nat.add_sub_cancel]
        have h2 : 2 ^ bitLengthAux fuel (n / 2) = 2 * 2 ^ (bitLengthAux fuel (n / 2) - 1) := by
          rw [← pow_succ', Nat.sub_add_cancel hpos]
        rw [h2]
        omega
      · rw [pow_succ]
        omega

theorem bitLength_spec (n : Nat) (h0 : n ≠ 0) :
    2 ^ (bitLength n - 1) ≤ n ∧ n < 2 ^ bitLength n ∧ 1 ≤ bitLength n :=
  bitLengthAux_spec n n (le_refl n) h0

theorem floorLog2_spec (q : ℚ) (hq : q ≠ 0) :
    (2 : ℚ) ^ floorLog2 q ≤ |q| ∧ |q| < (2 : ℚ) ^ (floorLog2 q + 1) := by
  have hnum : q.num.natAbs ≠ 0 := by
    simpa using Rat.num_ne_zero.2 hq
  obtain ⟨halow, haup, hapos⟩ := bitLength_spec q.num.natAbs hnum
  obtain ⟨hblow, hbup, hbpos⟩ := bitLength_spec q.den q.den_nz
  have hden : (0 : ℚ) < (q.den : ℚ) := by exact_mod_cast q.den_pos
  have habs : |q| = (q.num.natAbs : ℚ) / (q.den : ℚ) := by
    calc |q| = |(q.num : ℚ) / (q.den : ℚ)| := by rw [Rat.num_div_den]
      _ = |(q.num : ℚ)| / (q.den : ℚ) := by rw [abs_div, abs_of_pos hden]
      _ = (q.num.natAbs : ℚ) / (q.den : ℚ) := by
        rw [← Int.cast_abs, Int.abs_eq_natAbs]
        rfl
  have h2 : (0 : ℚ) < 2 := by norm_num
  -- the bounds on numerator and denominator, in ℚ with integer exponents
  have ha1 : (2 : ℚ) ^ ((bitLength q.num.natAbs : ℤ) - 1) ≤ (q.num.natAbs : ℚ) := by
    have : ((bitLength q.num.natAbs : ℤ) - 1) = ((bitLength q.num.natAbs - 1 : ℕ) : ℤ) := by
      omega
    rw [this, zpow_natCast]
    exact_mod_cast halow
  have ha2 : (q.num.natAbs : ℚ) < (2 : ℚ) ^ (bitLength q.num.natAbs : ℤ) := by
    rw [zpow_natCast]
    exact_mod_cast haup
  have hb1 : (2 : ℚ) ^ ((bitLength q.den : ℤ) - 1) ≤ (q.den : ℚ) := by
    have : ((bitLength q.den : ℤ) - 1) = ((bitLength q.den - 1 : ℕ) : ℤ) := by
      omega
    rw [this, zpow_natCast]
    exact_mod_cast hblow
  have hb2 : (q.den : ℚ) < (2 : ℚ) ^ (bitLength q.den : ℤ) := by
    rw [zpow_natCast]
    exact_mod_cast hbup
  unfold floorLog2
  simp only
  split
  · rename_i hc
    refine ⟨hc, ?_⟩
    rw [habs, div_lt_iff₀ hden]
    calc (q.num.natAbs : ℚ) < (2 : ℚ) ^ (bitLength q.num.natAbs : ℤ) := ha2
      _ = (2 : ℚ) ^ ((bitLength q.num.natAbs : ℤ) - (bitLength q.den : ℤ) + 1) *
            (2 : ℚ) ^ ((bitLength q.den : ℤ) - 1) := by
          rw [← zpow_add₀ (ne_of_gt h2)]
          congr 1
          ring
      _ ≤ (2 : ℚ) ^ ((bitLength q.num.natAbs : ℤ) - (bitLength q.den : ℤ) + 1) * (q.den : ℚ) :=
          mul_le_mul_of_nonneg_left hb1 (le_of_lt (zpow_pos h2 _))
  · rename_i hc
    refine ⟨?_, ?_⟩
    · rw [habs, le_div_iff₀ hden]
      calc (2 : ℚ) ^ ((bitLength q.num.natAbs : ℤ) - (bitLength q.den : ℤ) - 1) * (q.den : ℚ)
          ≤ (2 : ℚ) ^ ((bitLength q.num.natAbs : ℤ) - (bitLength q.den : ℤ) - 1) *
              (2 : ℚ) ^ (bitLength q.den : ℤ) :=
            mul_le_mul_of_nonneg_left (le_of_lt hb2) (le_of_lt (zpow_pos h2 _))
        _ = (2 : ℚ) ^ ((bitLength q.num.natAbs : ℤ) - 1) := by
            rw [← zpow_add₀ (ne_of_gt h2)]
            congr 1
            ring
        _ ≤ (q.num.natAbs : ℚ) := ha1
    · rw [sub_add_cancel]
      exact lt_of_not_le hc

theorem roundHalfEven_intCast (z : ℤ) : roundHalfEven (z : ℚ) = z := by
  unfold roundHalfEven
  simp

theorem nearest_eq_self (n : ℤ) (k : ℕ) (hk : k ≤ 1074) (hn : |n| < 2 ^ 53) :
    nearest ((n : ℚ) / 2 ^ k) = (n : ℚ) / 2 ^ k := by
  have h2 : (0 : ℚ) < 2 := by norm_num
  by_cases h0 : n = 0
  · subst h0
    simp [nearest, roundHalfEven]
  have hq : (n : ℚ) / 2 ^ k ≠ 0 := by
    apply div_ne_zero
    · exact_mod_cast h0
    · positivity
  -- the exponent does not exceed `-k`
  have hexp : exponent ((n : ℚ) / 2 ^ k) ≤ -(k : ℤ) := by
    unfold exponent
    apply max_le
    · have hlow := (floorLog2_spec _ hq).1
      have hup : |(n : ℚ) / 2 ^ k| < (2 : ℚ) ^ ((53 : ℤ) - k) := by
        rw [abs_div, abs_of_pos (by positivity : (0 : ℚ) < 2 ^ k), div_lt_iff₀ (by positivity)]
        have : (2 : ℚ) ^ ((53 : ℤ) - k) * 2 ^ k = 2 ^ 53 := by
          rw [← zpow_natCast, ← zpow_add₀ (ne_of_gt h2)]
          norm_num
        rw [this]
        have : |(n : ℚ)| = ((|n| : ℤ) : ℚ) := by simp
        rw [this]
        exact_mod_cast hn
      have hlt := lt_of_le_of_lt hlow hup
      have := (zpow_lt_zpow_iff_right₀ (by norm_num : (1 : ℚ) < 2)).1 hlt
      omega
    · omega
  obtain ⟨j, hj⟩ : ∃ j : ℕ, (j : ℤ) = -(k : ℤ) - exponent ((n : ℚ) / 2 ^ k) :=
    ⟨(-(k : ℤ) - exponent ((n : ℚ) / 2 ^ k)).toNat, Int.toNat_of_nonneg (by omega)⟩
  have hquot : (n : ℚ) / 2 ^ k / 2 ^ exponent ((n : ℚ) / 2 ^ k) = ((n * 2 ^ j : ℤ) : ℚ) := by
    rw [div_div, div_eq_iff (by positivity)]
    push_cast
    rw [mul_assoc]
    rw [← zpow_natCast, ← zpow_natCast, ← zpow_add₀ (ne_of_gt h2), ← zpow_add₀ (ne_of_gt h2)]
    rw [hj]
    simp
  unfold nearest
  rw [hquot, roundHalfEven_intCast, ← hquot]
  rw [div_mul_cancel₀]
  exact ne_of_gt (zpow_pos h2 _)

theorem floorLog2_unique (q : ℚ) (e : ℤ) (hlow : (2 : ℚ) ^ e ≤ |q|)
    (hup : |q| < (2 : ℚ) ^ (e + 1)) : floorLog2 q = e := by
  have hq : q ≠ 0 := by
    intro h
    rw [h, abs_zero] at hlow
    exact absurd hlow (not_le.2 (zpow_pos (by norm_num) _))
  obtain ⟨h1, h2⟩ := floorLog2_spec q hq
  have ha := (zpow_lt_zpow_iff_right₀ (by norm_num : (1 : ℚ) < 2)).1 (lt_of_le_of_lt h1 hup)
  have hb := (zpow_lt_zpow_iff_right₀ (by norm_num : (1 : ℚ) < 2)).1 (lt_of_le_of_lt hlow h2)
  omega

theorem nearest_one_sub (p : ℚ) (h0 : 0 ≤ p) (h1 : p ≤ 1 / 2 ^ 54) : nearest (1 - p) = 1 := by
  rcases eq_or_lt_of_le h0 with hp | hp
  · rw [← hp, sub_zero]
    have := nearest_eq_self 1 0 (by norm_num) (by norm_num)
    simpa using this
  have hfl : floorLog2 (1 - p) = -1 := by
    apply floorLog2_unique
    · rw [abs_of_pos (by linarith)]
      norm_num
      linarith
    · rw [abs_of_pos (by linarith)]
      norm_num
      linarith
  have hexp : exponent (1 - p) = -53 := by
    unfold exponent
    rw [hfl]
    norm_num
  have hy : (1 - p) / 2 ^ (-53 : ℤ) = 2 ^ 53 - p * 2 ^ 53 := by
    rw [zpow_neg, div_inv_eq_mul]
    norm_num
    ring
  have hfloor : ⌊(2 : ℚ) ^ 53 - p * 2 ^ 53⌋ = 2 ^ 53 - 1 := by
    rw [Int.floor_eq_iff]
    push_cast
    constructor <;> linarith
  have hround : roundHalfEven ((2 : ℚ) ^ 53 - p * 2 ^ 53) = 2 ^ 53 := by
    unfold roundHalfEven
    rw [hfloor]
    have hfrac : ¬ ((2 : ℚ) ^ 53 - p * 2 ^ 53 - ((2 ^ 53 - 1 : ℤ) : ℚ) < 1 / 2) := by
      push_cast
      linarith
    rw [if_neg hfrac]
    split_ifs with ha hb
    · norm_num
    · norm_num at hb
    · norm_num
  unfold nearest
  rw [hexp, hy, hround]
  norm_num


theorem roundHalfEven_error (x : ℚ) : |(roundHalfEven x : ℚ) - x| ≤ 1 / 2 := by
  have h1 := Int.floor_le x
  have h2 := Int.lt_floor_add_one x
  unfold roundHalfEven
  split_ifs with ha hb hc
  · rw [abs_le]
    constructor <;> linarith
  · push_cast
    rw [abs_le]
    constructor <;> linarith
  · rw [abs_le]
    constructor <;> linarith
  · push_cast
    rw [abs_le]
    constructor <;> linarith

theorem nearest_error (q : ℚ) : |nearest q - q| ≤ |q| / 2 ^ 53 + 1 / 2 ^ 1075 := by
  have h2 : (0 : ℚ) < 2 := by norm_num
  by_cases hq : q = 0
  · subst hq
    have : nearest 0 = 0 := by simpa using nearest_eq_self 0 0 (by norm_num) (by norm_num)
    rw [this]
    norm_num
  have hpos : (0 : ℚ) < 2 ^ exponent q := zpow_pos h2 _
  have herr : |nearest q - q| ≤ 2 ^ exponent q / 2 := by
    have e : nearest q - q =
        ((roundHalfEven (q / 2 ^ exponent q) : ℚ) - q / 2 ^ exponent q) * 2 ^ exponent q := by
      unfold nearest
      rw [sub_mul, div_mul_cancel₀ _ (ne_of_gt hpos)]
    rw [e, abs_mul, abs_of_pos hpos]
    have := roundHalfEven_error (q / 2 ^ exponent q)
    calc |(roundHalfEven (q / 2 ^ exponent q) : ℚ) - q / 2 ^ exponent q| * 2 ^ exponent q
        ≤ 1 / 2 * 2 ^ exponent q := mul_le_mul_of_nonneg_right this (le_of_lt hpos)
      _ = 2 ^ exponent q / 2 := by ring
  have hlow := (floorLog2_spec q hq).1
  have habs : (0 : ℚ) ≤ |q| := abs_nonneg q
  unfold exponent at herr
  rcases le_total (floorLog2 q - 52) (-1074) with hc | hc
  · rw [max_eq_right hc] at herr
    have : (2 : ℚ) ^ (-1074 : ℤ) / 2 = 1 / 2 ^ 1075 := by
      rw [zpow_neg]
      norm_num
    rw [this] at herr
    have : (0 : ℚ) ≤ |q| / 2 ^ 53 := by positivity
    linarith
  · rw [max_eq_left hc] at herr
    have : (2 : ℚ) ^ (floorLog2 q - 52) / 2 = 2 ^ floorLog2 q / 2 ^ 53 := by
      rw [zpow_sub₀ (ne_of_gt h2)]
      norm_num
      ring
    rw [this] at herr
    have h3 : (2 : ℚ) ^ floorLog2 q / 2 ^ 53 ≤ |q| / 2 ^ 53 :=
      div_le_div_of_nonneg_right hlow (by positivity)
    have : (0 : ℚ) ≤ 1 / 2 ^ 1075 := by positivity
    linarith

theorem roundHalfEven_nonneg (x : ℚ) (hx : 0 ≤ x) : 0 ≤ roundHalfEven x := by
  have h0 : 0 ≤ ⌊x⌋ := Int.floor_nonneg.2 hx
  unfold roundHalfEven
  split_ifs <;> omega

theorem roundHalfEven_le (x : ℚ) (n : ℤ) (hx : x ≤ n) : roundHalfEven x ≤ n := by
  have h1 : ⌊x⌋ ≤ n := by
    have : (⌊x⌋ : ℚ) ≤ n := le_trans (Int.floor_le x) hx
    exact_mod_cast this
  rcases lt_or_eq_of_le h1 with hlt | heq
  · unfold roundHalfEven
    split_ifs <;> omega
  · have hfx : (⌊x⌋ : ℚ) = x := by
      apply le_antisymm (Int.floor_le x)
      rw [heq]
      exact hx
    unfold roundHalfEven
    rw [if_pos (by rw [hfx]; norm_num)]
    exact h1

theorem nearest_unit (q : ℚ) (h0 : 0 ≤ q) (h1 : q ≤ 1) : 0 ≤ nearest q ∧ nearest q ≤ 1 := by
  have h2 : (0 : ℚ) < 2 := by norm_num
  have hpos : (0 : ℚ) < 2 ^ exponent q := zpow_pos h2 _
  constructor
  · unfold nearest
    apply mul_nonneg _ (le_of_lt hpos)
    have := roundHalfEven_nonneg (q / 2 ^ exponent q) (div_nonneg h0 (le_of_lt hpos))
    exact_mod_cast this
  · rcases eq_or_lt_of_le h1 with he | hlt
    · rw [he]
      have := nearest_eq_self 1 0 (by norm_num) (by norm_num)
      simp only [Int.cast_one, pow_zero, div_one] at this
      rw [this]
    by_cases hq : q = 0
    · subst hq
      have : nearest 0 = 0 := by simpa using nearest_eq_self 0 0 (by norm_num) (by norm_num)
      rw [this]
      norm_num
    -- the exponent is negative, so `1` is a multiple of the spacing
    have hfl : floorLog2 q < 0 := by
      have hlow := (floorLog2_spec q hq).1
      rw [abs_of_nonneg h0] at hlow
      have : (2 : ℚ) ^ floorLog2 q < 2 ^ (0 : ℤ) := by
        rw [zpow_zero]
        exact lt_of_le_of_lt hlow hlt
      exact (zpow_lt_zpow_iff_right₀ (by norm_num : (1 : ℚ) < 2)).1 this
    have hexp : exponent q ≤ 0 := by
      unfold exponent
      apply max_le <;> omega
    obtain ⟨j, hj⟩ : ∃ j : ℕ, (j : ℤ) = -exponent q := ⟨(-exponent q).toNat,
      Int.toNat_of_nonneg (by omega)⟩
    have hinv : (1 : ℚ) / 2 ^ exponent q = ((2 ^ j : ℤ) : ℚ) := by
      push_cast
      rw [← zpow_natCast, hj, zpow_neg, one_div]
    have hle : q / 2 ^ exponent q ≤ ((2 ^ j : ℤ) : ℚ) := by
      rw [← hinv]
      exact div_le_div_of_nonneg_right h1 (le_of_lt hpos)
    have := roundHalfEven_le _ _ hle
    unfold nearest
    calc (roundHalfEven (q / 2 ^ exponent q) : ℚ) * 2 ^ exponent q
        ≤ ((2 ^ j : ℤ) : ℚ) * 2 ^ exponent q :=
          mul_le_mul_of_nonneg_right (by exact_mod_cast this) (le_of_lt hpos)
      _ = 1 := by
          rw [← hinv, one_div, inv_mul_cancel₀ (ne_of_gt hpos)]

theorem lerp_error (x v t : ℚ) (ht : |t| ≤ 1) :
    |nearest (x + nearest (nearest (v - x) * t)) - v - (1 - t) * (x - v)| ≤
      (|x| + |v|) / 2 ^ 50 + 1 / 2 ^ 1072 := by
  have e1 := nearest_error (v - x)
  have e2 := nearest_error (nearest (v - x) * t)
  have e3 := nearest_error (x + nearest (nearest (v - x) * t))
  set a := nearest (v - x) with ha
  set b := nearest (a * t) with hb
  set c := nearest (x + b) with hc
  have hd : |v - x| ≤ |x| + |v| := by
    calc |v - x| ≤ |v| + |x| := abs_sub v x
      _ = |x| + |v| := add_comm _ _
  have hx0 : 0 ≤ |x| := abs_nonneg x
  have hv0 : 0 ≤ |v| := abs_nonneg v
  -- magnitudes
  have habs_a : |a| ≤ |v - x| + (|v - x| / 2 ^ 53 + 1 / 2 ^ 1075) := by
    calc |a| = |(a - (v - x)) + (v - x)| := by ring_nf
      _ ≤ |a - (v - x)| + |v - x| := abs_add _ _
      _ ≤ |v - x| + (|v - x| / 2 ^ 53 + 1 / 2 ^ 1075) := by linarith
  have hat : |a * t| ≤ |a| := by
    rw [abs_mul]
    calc |a| * |t| ≤ |a| * 1 := mul_le_mul_of_nonneg_left ht (abs_nonneg a)
      _ = |a| := mul_one _
  have habs_b : |b| ≤ |a| + (|a| / 2 ^ 53 + 1 / 2 ^ 1075) := by
    calc |b| = |(b - a * t) + a * t| := by ring_nf
      _ ≤ |b - a * t| + |a * t| := abs_add _ _
      _ ≤ |a| + (|a| / 2 ^ 53 + 1 / 2 ^ 1075) := by
        have : |a * t| / 2 ^ 53 ≤ |a| / 2 ^ 53 := div_le_div_of_nonneg_right hat (by positivity)
        linarith
  have habs_xb : |x + b| ≤ |x| + |b| := abs_add _ _
  have het : |(a - (v - x)) * t| ≤ |a - (v - x)| := by
    rw [abs_mul]
    calc |a - (v - x)| * |t| ≤ |a - (v - x)| * 1 :=
          mul_le_mul_of_nonneg_left ht (abs_nonneg _)
      _ = |a - (v - x)| := mul_one _
  have hsplit : c - v - (1 - t) * (x - v) =
      (a - (v - x)) * t + (b - a * t) + (c - (x + b)) := by ring
  rw [hsplit]
  have htri : |(a - (v - x)) * t + (b - a * t) + (c - (x + b))| ≤
      |(a - (v - x)) * t| + |b - a * t| + |c - (x + b)| :=
    (abs_add _ _).trans (add_le_add_right (abs_add _ _) _)
  have hat2 : |a * t| / 2 ^ 53 ≤ |a| / 2 ^ 53 := div_le_div_of_nonneg_right hat (by positivity)
  have hxb2 : |x + b| / 2 ^ 53 ≤ (|x| + |b|) / 2 ^ 53 :=
    div_le_div_of_nonneg_right habs_xb (by positivity)
  have hd2 : |v - x| / 2 ^ 53 ≤ (|x| + |v|) / 2 ^ 53 :=
    div_le_div_of_nonneg_right hd (by positivity)
  -- numeric bounds on the chain
  have hA : |a| ≤ (|x| + |v|) * (1 + 1 / 2 ^ 53) + 1 / 2 ^ 1075 := by
    have : |v - x| / 2 ^ 53 = |v - x| * (1 / 2 ^ 53) := by ring
    nlinarith [abs_nonneg (v - x)]
  have hB : |b| ≤ (|x| + |v|) * (1 + 1 / 2 ^ 51) + 1 / 2 ^ 1073 := by
    have hA2 : |a| / 2 ^ 53 ≤ ((|x| + |v|) * (1 + 1 / 2 ^ 53) + 1 / 2 ^ 1075) / 2 ^ 53 :=
      div_le_div_of_nonneg_right hA (by positivity)
    have hs : 0 ≤ |x| + |v| := by linarith
    have k1 : ((|x| + |v|) * (1 + 1 / 2 ^ 53) + 1 / 2 ^ 1075) / 2 ^ 53 ≤
        (|x| + |v|) * (1 / 2 ^ 51 - 1 / 2 ^ 53) + 1 / 2 ^ 1075 := by
      have : ((|x| + |v|) * (1 + 1 / 2 ^ 53) + 1 / 2 ^ 1075) / 2 ^ 53 =
          (|x| + |v|) * ((1 + 1 / 2 ^ 53) / 2 ^ 53) + 1 / 2 ^ 1075 / 2 ^ 53 := by ring
      rw [this]
      have c1 : ((1 : ℚ) + 1 / 2 ^ 53) / 2 ^ 53 ≤ 1 / 2 ^ 51 - 1 / 2 ^ 53 := by norm_num
      have c2 : (1 : ℚ) / 2 ^ 1075 / 2 ^ 53 ≤ 1 / 2 ^ 1075 := by
        apply div_le_self (by positivity)
        norm_num
      have := mul_le_mul_of_nonneg_left c1 hs
      linarith
    have k2 : (1 : ℚ) / 2 ^ 1075 + 1 / 2 ^ 1075 + 1 / 2 ^ 1075 ≤ 1 / 2 ^ 1073 := by norm_num
    nlinarith
  have hE1 : |a - (v - x)| ≤ (|x| + |v|) / 2 ^ 53 + 1 / 2 ^ 1075 := by linarith
  have hE2 : |b - a * t| ≤ (|x| + |v|) / 2 ^ 52 + 1 / 2 ^ 1074 := by
    have hA2 : |a| / 2 ^ 53 ≤ ((|x| + |v|) * (1 + 1 / 2 ^ 53) + 1 / 2 ^ 1075) / 2 ^ 53 :=
      div_le_div_of_nonneg_right hA (by positivity)
    have hs : 0 ≤ |x| + |v| := by linarith
    have k1 : ((|x| + |v|) * (1 + 1 / 2 ^ 53) + 1 / 2 ^ 1075) / 2 ^ 53 ≤
        (|x| + |v|) / 2 ^ 52 + 1 / 2 ^ 1075 := by
      have : ((|x| + |v|) * (1 + 1 / 2 ^ 53) + 1 / 2 ^ 1075) / 2 ^ 53 =
          (|x| + |v|) * ((1 + 1 / 2 ^ 53) / 2 ^ 53) + 1 / 2 ^ 1075 / 2 ^ 53 := by ring
      rw [this]
      have c1 : ((1 : ℚ) + 1 / 2 ^ 53) / 2 ^ 53 ≤ 1 / 2 ^ 52 := by norm_num
      have c2 : (1 : ℚ) / 2 ^ 1075 / 2 ^ 53 ≤ 1 / 2 ^ 1075 := by
        apply div_le_self (by positivity)
        norm_num
      have := mul_le_mul_of_nonneg_left c1 hs
      have e : (|x| + |v|) / 2 ^ 52 = (|x| + |v|) * (1 / 2 ^ 52) := by ring
      linarith
    have k2 : (1 : ℚ) / 2 ^ 1075 + 1 / 2 ^ 1075 ≤ 1 / 2 ^ 1074 := by norm_num
    linarith
  have hE3 : |c - (x + b)| ≤ (|x| + |v|) / 2 ^ 51 + 1 / 2 ^ 1074 := by
    have hs : 0 ≤ |x| + |v| := by linarith
    have hxb3 : (|x| + |b|) / 2 ^ 53 ≤
        (|x| + ((|x| + |v|) * (1 + 1 / 2 ^ 51) + 1 / 2 ^ 1073)) / 2 ^ 53 :=
      div_le_div_of_nonneg_right (by linarith) (by positivity)
    have k1 : (|x| + ((|x| + |v|) * (1 + 1 / 2 ^ 51) + 1 / 2 ^ 1073)) / 2 ^ 53 ≤
        (|x| + |v|) / 2 ^ 51 + 1 / 2 ^ 1075 := by
      have hxs : |x| ≤ |x| + |v| := by linarith
      have : (|x| + ((|x| + |v|) * (1 + 1 / 2 ^ 51) + 1 / 2 ^ 1073)) / 2 ^ 53 ≤
          ((|x| + |v|) * (2 + 1 / 2 ^ 51) + 1 / 2 ^ 1073) / 2 ^ 53 :=
        div_le_div_of_nonneg_right (by linarith) (by positivity)
      have e : ((|x| + |v|) * (2 + 1 / 2 ^ 51) + 1 / 2 ^ 1073) / 2 ^ 53 =
          (|x| + |v|) * ((2 + 1 / 2 ^ 51) / 2 ^ 53) + 1 / 2 ^ 1073 / 2 ^ 53 := by ring
      have c1 : ((2 : ℚ) + 1 / 2 ^ 51) / 2 ^ 53 ≤ 1 / 2 ^ 51 := by norm_num
      have c2 : (1 : ℚ) / 2 ^ 1073 / 2 ^ 53 ≤ 1 / 2 ^ 1075 := by norm_num
      have := mul_le_mul_of_nonneg_left c1 hs
      have e' : (|x| + |v|) / 2 ^ 51 = (|x| + |v|) * (1 / 2 ^ 51) := by ring
      linarith
    have k2 : (1 : ℚ) / 2 ^ 1075 + 1 / 2 ^ 1075 ≤ 1 / 2 ^ 1074 := by norm_num
    linarith
  have hs : 0 ≤ |x| + |v| := by linarith
  have kfin : (|x| + |v|) / 2 ^ 53 + (|x| + |v|) / 2 ^ 52 + (|x| + |v|) / 2 ^ 51 ≤
      (|x| + |v|) / 2 ^ 50 := by
    have e : (|x| + |v|) / 2 ^ 53 + (|x| + |v|) / 2 ^ 52 + (|x| + |v|) / 2 ^ 51 =
        (|x| + |v|) * (1 / 2 ^ 53 + 1 / 2 ^ 52 + 1 / 2 ^ 51) := by ring
    have e' : (|x| + |v|) / 2 ^ 50 = (|x| + |v|) * (1 / 2 ^ 50) := by ring
    rw [e, e']
    exact mul_le_mul_of_nonneg_left (by norm_num) hs
  have kfin2 : (1 : ℚ) / 2 ^ 1075 + 1 / 2 ^ 1074 + 1 / 2 ^ 1074 ≤ 1 / 2 ^ 1072 := by norm_num
  linarith

end Binary64

/-! ## Properties of the follow camera -/

theorem Three.Vector3.lerp_sub (v ideal : Vector3 ℝ) (k : ℝ) :
    (v.lerp ideal (1 - k)).sub ideal = (v.sub ideal).multiplyScalar k := by
  simp only [Vector3.lerp, Vector3.sub, Vector3.multiplyScalar, Vector3.mk.injEq]
  refine ⟨?_, ?_, ?_⟩ <;> ring

theorem Three.Vector3.eq_of_sub_eq (v w ideal : Vector3 ℝ) (h : v.sub ideal = w.sub ideal) :
    v = w := by
  cases v; cases w
  simp only [Vector3.sub, Vector3.mk.injEq] at h ⊢
  obtain ⟨h1, h2, h3⟩ := h
  exact ⟨by linarith, by linarith, by linarith⟩

theorem followsAtFixedRate_of_step (rig : ℝ → Nat → Vector3 ℝ) (start ideal : Vector3 ℝ)
    (h0 : ∀ dt, rig dt 0 = start)
    (hstep : ∀ dt n, rig dt (n + 1) = (rig dt n).lerp ideal (1 - (1 / 1000 : ℝ) ^ dt)) :
    FollowsAtFixedRate rig start ideal := by
  have hpos : (0 : ℝ) < 1 / 1000 := by norm_num
  have hform : ∀ (dt : ℝ) (n : Nat),
      (rig dt n).sub ideal = (start.sub ideal).multiplyScalar ((1 / 1000 : ℝ) ^ ((n : ℝ) * dt)) := by
    intro dt n
    induction n with
    | zero => simp [h0, Vector3.multiplyScalar]
    | succ n ih =>
      rw [hstep, Vector3.lerp_sub, ih]
      have hk : (1 / 1000 : ℝ) ^ (((n + 1 : Nat) : ℝ) * dt) =
          (1 / 1000 : ℝ) ^ ((n : ℝ) * dt) * (1 / 1000 : ℝ) ^ dt := by
        rw [← Real.rpow_add hpos]
        congr 1
        push_cast
        ring
      simp only [Vector3.multiplyScalar, hk, Vector3.mk.injEq]
      refine ⟨?_, ?_, ?_⟩ <;> ring
  intro dt hdt n
  refine ⟨hform dt n, ⟨Real.rpow_pos_of_pos hpos dt, ?_, ?_⟩, ?_⟩
  · exact Real.rpow_lt_one (le_of_lt hpos) (by norm_num) hdt
  · rw [hstep, Vector3.lerp_sub]
  · intro dt' _ m htime
    apply Vector3.eq_of_sub_eq _ _ ideal
    rw [hform dt n, hform dt' m, htime]

theorem Binary64.Double.lerp_one (v : Binary64.Double)
    (hv : Binary64.nearest v.value = v.value) :
    ({ value := Binary64.nearest (Binary64.nearest 0 +
      Binary64.nearest (Binary64.nearest (v.value - Binary64.nearest 0) * 1)) } :
        Binary64.Double) = v := by
  have h0 : Binary64.nearest 0 = 0 := by
    simpa using Binary64.nearest_eq_self 0 0 (by norm_num) (by norm_num)
  rw [h0, sub_zero, hv, mul_one, hv, zero_add, hv]

/-- C9, as stated, fails on the doubles the code computes with. The target stands at
(3, 0, 4) and is not turned, the rig of the fourth game starts at the origin, 15 below
its ideal height, and one update is made with `dt = 6`, for which `Math.pow(0.001, dt)`
is about `1e-18`. Then `1.0 - Math.pow(0.001, dt)` is rounded to 1 and the update puts
the rig exactly on its ideal value: the remaining offset is 0 and not `0.001 ^ 6` times
the initial one. The rig of the fifth game lands on its ideal value in the same way.
For the fourth game this holds whatever double between 0 and `2 ^ -54` `Math.pow`
returns. -/
theorem follow_camera_counterexample :
    (FourthGame.FollowCamera.new : FourthGame.FollowCamera Binary64.Double).offset.y.value -
      (FourthGame.FollowCamera._calculateIdealOffset (fun v (_ : Unit) => v)
        doubleTarget).y.value = -15 ∧
    (FourthGame.FollowCamera.update attoPow (fun v (_ : Unit) => v) doubleTarget
      FourthGame.FollowCamera.new ((6 : ℚ) : Binary64.Double)).offset =
        FourthGame.FollowCamera._calculateIdealOffset (fun v (_ : Unit) => v) doubleTarget ∧
    ((((FourthGame.FollowCamera.update attoPow (fun v (_ : Unit) => v) doubleTarget
        FourthGame.FollowCamera.new ((6 : ℚ) : Binary64.Double)).offset.y.value -
      (FourthGame.FollowCamera._calculateIdealOffset (fun v (_ : Unit) => v)
        doubleTarget).y.value : ℚ) : ℝ) ≠
      (1 / 1000 : ℝ) ^ ((1 : ℝ) * 6) *
        ((((FourthGame.FollowCamera.new : FourthGame.FollowCamera Binary64.Double).offset.y.value -
          (FourthGame.FollowCamera._calculateIdealOffset (fun v (_ : Unit) => v)
            doubleTarget).y.value : ℚ)) : ℝ)) ∧
    (FifthGame.FollowCamera.update attoPow (fun v (_ : Unit) => v) doubleTarget
      FifthGame.FollowCamera.new ((6 : ℚ) : Binary64.Double)).idealOffset =
        FifthGame.FollowCamera._calculateIdealOffset (fun v (_ : Unit) => v) doubleTarget ∧
    ∀ p : ℚ, 0 ≤ p → p ≤ 1 / 2 ^ 54 →
      (FourthGame.FollowCamera.update (fun _ _ => ({ value := p } : Binary64.Double))
        (fun v (_ : Unit) => v) doubleTarget FourthGame.FollowCamera.new
        ((6 : ℚ) : Binary64.Double)).offset =
          FourthGame.FollowCamera._calculateIdealOffset (fun v (_ : Unit) => v) doubleTarget := by
  have hstart : (FourthGame.FollowCamera.new : FourthGame.FollowCamera Binary64.Double).offset.y.value -
      (FourthGame.FollowCamera._calculateIdealOffset (fun v (_ : Unit) => v)
        doubleTarget).y.value = -15 := by decide!
  have hland : (FourthGame.FollowCamera.update attoPow (fun v (_ : Unit) => v) doubleTarget
      FourthGame.FollowCamera.new ((6 : ℚ) : Binary64.Double)).offset =
        FourthGame.FollowCamera._calculateIdealOffset (fun v (_ : Unit) => v) doubleTarget := by
    decide!
  refine ⟨hstart, hland, ?_, by decide!, ?_⟩
  · rw [hland, hstart, sub_self]
    have hpos : (0 : ℝ) < (1 / 1000 : ℝ) ^ ((1 : ℝ) * 6) :=
      Real.rpow_pos_of_pos (by norm_num) _
    push_cast
    intro h
    linarith
  · intro p h0 h1
    have h1' : Binary64.nearest 1 = 1 := by
      simpa using Binary64.nearest_eq_self 1 0 (by norm_num) (by norm_num)
    have ht : (((1 : ℚ) : Binary64.Double) - ({ value := p } : Binary64.Double)) =
        ({ value := 1 } : Binary64.Double) := by
      show ({ value := Binary64.nearest (Binary64.nearest 1 - p) } : Binary64.Double) = _
      rw [h1', Binary64.nearest_one_sub p h0 h1]
    simp only [FourthGame.FollowCamera.update, ht, Vector3.lerp, FourthGame.FollowCamera.new]
    have hx := Binary64.Double.lerp_one
      (FourthGame.FollowCamera._calculateIdealOffset (fun v (_ : Unit) => v) doubleTarget).x
      (by decide!)
    have hy := Binary64.Double.lerp_one
      (FourthGame.FollowCamera._calculateIdealOffset (fun v (_ : Unit) => v) doubleTarget).y
      (by decide!)
    have hz := Binary64.Double.lerp_one
      (FourthGame.FollowCamera._calculateIdealOffset (fun v (_ : Unit) => v) doubleTarget).z
      (by decide!)
    cases hi : FourthGame.FollowCamera._calculateIdealOffset (fun v (_ : Unit) => v) doubleTarget
    rw [hi] at hx hy hz
    simp only at hx hy hz
    simp only [Vector3.mk.injEq]
    exact ⟨hx, hy, hz⟩

/-- C9, amended. With a target that does not move: in exact real arithmetic, with
`Math.pow` the real power and nothing rounded, the smoothed position and the smoothed
look-at point of the follow camera of the fourth and of the fifth game follow their
ideal values at a fixed rate: after `n` updates with a constant `dt > 0` the remaining
offset is `0.001 ^ (n * dt)` times the initial one in every coordinate, each tick
multiplies it by `0.001 ^ dt`, which lies strictly between 0 and 1, and equal elapsed
times give equal values whatever the tick length. On the doubles the code computes
with, whenever `Math.pow(0.001, dt)` returns a value between 0 and 1, the factor
`t = 1.0 - Math.pow(0.001, dt)` lies between 0 and 1 and one update takes the remaining
offset `d` of every coordinate whose rig value and ideal value are at most `2 ^ 1000` in
magnitude to `(1 - t) * d` up to `(|rig| + |ideal|) / 2 ^ 50 + 2 ^ -1072`. -/
theorem follow_camera_convergence {ρ : Type} (applyEuler : Vector3 ℝ → ρ → Vector3 ℝ)
    (target : Target ρ ℝ) (c4 : FourthGame.FollowCamera ℝ) (c5 : FifthGame.FollowCamera ℝ) :
    FollowsAtFixedRate
      (fun dt n => (FourthGame.FollowCamera.run Real.rpow applyEuler target c4 dt n).offset)
      c4.offset (FourthGame.FollowCamera._calculateIdealOffset applyEuler target) ∧
    FollowsAtFixedRate
      (fun dt n => (FourthGame.FollowCamera.run Real.rpow applyEuler target c4 dt n).lookAt)
      c4.lookAt (FourthGame.FollowCamera._calculateIdealLookAt applyEuler target) ∧
    FollowsAtFixedRate
      (fun dt n => (FifthGame.FollowCamera.run Real.rpow applyEuler target c5 dt n).idealOffset)
      c5.idealOffset (FifthGame.FollowCamera._calculateIdealOffset applyEuler target) ∧
    FollowsAtFixedRate
      (fun dt n => (FifthGame.FollowCamera.run Real.rpow applyEuler target c5 dt n).idealLookAt)
      c5.idealLookAt (FifthGame.FollowCamera._calculateIdealLookAt applyEuler target) ∧
    ∀ (pow : Binary64.Double → Binary64.Double → Binary64.Double)
      (turn : Vector3 Binary64.Double → ρ → Vector3 Binary64.Double)
      (goal : Target ρ Binary64.Double) (d4 : FourthGame.FollowCamera Binary64.Double)
      (d5 : FifthGame.FollowCamera Binary64.Double) (dt : Binary64.Double),
      0 ≤ (pow ((1 / 1000 : ℚ) : Binary64.Double) dt).value →
      (pow ((1 / 1000 : ℚ) : Binary64.Double) dt).value ≤ 1 →
      (0 ≤ (((1 : ℚ) : Binary64.Double) - pow ((1 / 1000 : ℚ) : Binary64.Double) dt).value ∧
        (((1 : ℚ) : Binary64.Double) - pow ((1 / 1000 : ℚ) : Binary64.Double) dt).value ≤ 1) ∧
      FollowsUpToRounding (((1 : ℚ) : Binary64.Double) - pow ((1 / 1000 : ℚ) : Binary64.Double) dt)
        d4.offset (FourthGame.FollowCamera.update pow turn goal d4 dt).offset
        (FourthGame.FollowCamera._calculateIdealOffset turn goal) ∧
      FollowsUpToRounding (((1 : ℚ) : Binary64.Double) - pow ((1 / 1000 : ℚ) : Binary64.Double) dt)
        d4.lookAt (FourthGame.FollowCamera.update pow turn goal d4 dt).lookAt
        (FourthGame.FollowCamera._calculateIdealLookAt turn goal) ∧
      FollowsUpToRounding (((1 : ℚ) : Binary64.Double) - pow ((1 / 1000 : ℚ) : Binary64.Double) dt)
        d5.idealOffset (FifthGame.FollowCamera.update pow turn goal d5 dt).idealOffset
        (FifthGame.FollowCamera._calculateIdealOffset turn goal) ∧
      FollowsUpToRounding (((1 : ℚ) : Binary64.Double) - pow ((1 / 1000 : ℚ) : Binary64.Double) dt)
        d5.idealLookAt (FifthGame.FollowCamera.update pow turn goal d5 dt).idealLookAt
        (FifthGame.FollowCamera._calculateIdealLookAt turn goal) := by
  have e1 : ((1 : ℚ) : ℝ) = 1 := Rat.cast_one
  have e2 : ((1 / 1000 : ℚ) : ℝ) = 1 / 1000 := by norm_num
  refine ⟨?_, ?_, ?_, ?_, ?_⟩
  · exact followsAtFixedRate_of_step _ _ _ (fun _ => rfl) (fun dt n => by
      simp only [FourthGame.FollowCamera.run, FourthGame.FollowCamera.update, e1, e2]
      rfl)
  · exact followsAtFixedRate_of_step _ _ _ (fun _ => rfl) (fun dt n => by
      simp only [FourthGame.FollowCamera.run, FourthGame.FollowCamera.update, e1, e2]
      rfl)
  · exact followsAtFixedRate_of_step _ _ _ (fun _ => rfl) (fun dt n => by
      simp only [FifthGame.FollowCamera.run, FifthGame.FollowCamera.update, e1, e2]
      rfl)
  · exact followsAtFixedRate_of_step _ _ _ (fun _ => rfl) (fun dt n => by
      simp only [FifthGame.FollowCamera.run, FifthGame.FollowCamera.update, e1, e2]
      rfl)
  · intro pow turn goal d4 d5 dt hp0 hp1
    have hone : Binary64.nearest 1 = 1 := by
      simpa using Binary64.nearest_eq_self 1 0 (by norm_num) (by norm_num)
    have ht : 0 ≤ (((1 : ℚ) : Binary64.Double) -
          pow ((1 / 1000 : ℚ) : Binary64.Double) dt).value ∧
        (((1 : ℚ) : Binary64.Double) - pow ((1 / 1000 : ℚ) : Binary64.Double) dt).value ≤ 1 := by
      show 0 ≤ Binary64.nearest (Binary64.nearest 1 - _) ∧
        Binary64.nearest (Binary64.nearest 1 - _) ≤ 1
      rw [hone]
      exact Binary64.nearest_unit _ (by linarith) (by linarith)
    have habs : |(((1 : ℚ) : Binary64.Double) -
        pow ((1 / 1000 : ℚ) : Binary64.Double) dt).value| ≤ 1 := by
      rw [abs_le]
      exact ⟨by linarith [ht.1], ht.2⟩
    have hcoord : ∀ rig ideal : Binary64.Double,
        Binary64.Double.FollowsUpToRounding
          (((1 : ℚ) : Binary64.Double) - pow ((1 / 1000 : ℚ) : Binary64.Double) dt) rig
          (rig + (ideal - rig) *
            (((1 : ℚ) : Binary64.Double) - pow ((1 / 1000 : ℚ) : Binary64.Double) dt)) ideal :=
      fun rig ideal _ _ => Binary64.lerp_error rig.value ideal.value _ habs
    exact ⟨ht, ⟨hcoord _ _, hcoord _ _, hcoord _ _⟩, ⟨hcoord _ _, hcoord _ _, hcoord _ _⟩,
      ⟨hcoord _ _, hcoord _ _, hcoord _ _⟩, ⟨hcoord _ _, hcoord _ _, hcoord _ _⟩⟩

theorem follow_camera_convergence_witness :
    (FourthGame.FollowCamera.run Real.rpow (fun v (_ : Unit) => v) sampleTarget
      FourthGame.FollowCamera.new (1 / 60) 60).offset =
    (FourthGame.FollowCamera.run Real.rpow (fun v (_ : Unit) => v) sampleTarget
      FourthGame.FollowCamera.new (1 / 30) 30).offset ∧
    FollowsUpToRounding (((1 : ℚ) : Binary64.Double) - attoPow ((1 / 1000 : ℚ) : Binary64.Double)
        ((6 : ℚ) : Binary64.Double))
      (FourthGame.FollowCamera.new : FourthGame.FollowCamera Binary64.Double).offset
      (FourthGame.FollowCamera.update attoPow (fun v (_ : Unit) => v) doubleTarget
        FourthGame.FollowCamera.new ((6 : ℚ) : Binary64.Double)).offset
      (FourthGame.FollowCamera._calculateIdealOffset (fun v (_ : Unit) => v) doubleTarget) :=
  ⟨((follow_camera_convergence (fun v (_ : Unit) => v) sampleTarget
      FourthGame.FollowCamera.new FifthGame.FollowCamera.new).1 (1 / 60) (by norm_num) 60).2.2
      (1 / 30) (by norm_num) 30 (by norm_num),
    ((follow_camera_convergence (fun v (_ : Unit) => v) sampleTarget
      FourthGame.FollowCamera.new FifthGame.FollowCamera.new).2.2.2.2 attoPow
      (fun v (_ : Unit) => v) doubleTarget FourthGame.FollowCamera.new FifthGame.FollowCamera.new
      ((6 : ℚ) : Binary64.Double) (by decide!) (by decide!)).2.1⟩

/-! ## Properties of entering and updating a state -/

namespace FifthGame

/-- C13. On a machine with the three clips bound, entering a state with a previous
state makes, after the `enter` call itself, exactly four animation calls in this order:
`fadeOut(0.25)` on the action of the previous state's clip, then `reset`, `fadeIn(0.25)`
and `play` on the action of the entered state's clip. Entering without a previous state
makes the single animation call `play` on the action of the entered state's clip. -/
theorem enter_cross_fade (m : FiniteStateMachine) (hm : m.Loaded) (s : State) :
    (∀ p : State, s.enter m (some p) = some { m with calls := m.calls ++
      [Call.enter s (some p), Call.fadeOut p.Name (1 / 4), Call.reset s.Name,
       Call.fadeIn s.Name (1 / 4), Call.play s.Name] }) ∧
    s.enter m none = some { m with calls := m.calls ++ [Call.enter s none, Call.play s.Name] } := by
  have ha : m.animations = ["Idle", "Run", "WalkBackward"] := by rw [hm.2]; rfl
  obtain ⟨cls, ref⟩ := s
  refine ⟨fun p => ?_, ?_⟩
  · obtain ⟨pcls, pref⟩ := p
    cases pcls <;> cases cls <;>
      simp [State.enter, enterBody, ha, State.Name, StateClass.Name]
  · cases cls <;> simp [State.enter, enterBody, ha, State.Name, StateClass.Name]

theorem enter_cross_fade_witness :
    (∀ p : State, ({ cls := .Run, ref := 1 } : State).enter Player.loadedFSM (some p) =
      some { Player.loadedFSM with calls := Player.loadedFSM.calls ++
        [Call.enter { cls := .Run, ref := 1 } (some p), Call.fadeOut p.Name (1 / 4),
         Call.reset "Run", Call.fadeIn "Run" (1 / 4), Call.play "Run"] }) ∧
    ({ cls := .Run, ref := 1 } : State).enter Player.loadedFSM none =
      some { Player.loadedFSM with calls := Player.loadedFSM.calls ++
        [Call.enter { cls := .Run, ref := 1 } none, Call.play "Run"] } :=
  enter_cross_fade Player.loadedFSM Player.loadedFSM_loaded { cls := .Run, ref := 1 }

theorem FiniteStateMachine.setState_class (m : FiniteStateMachine) (cls : StateClass)
    (hm : m.Loaded) : ∃ m', m.setState cls.Name = some m' ∧ m'.Loaded ∧
      m'.currentState = some { cls := cls, ref := m.created } ∧
      m'.created = m.created + 1 ∧
      m'.calls = m.calls ++ exitCalls m.currentState ++
        [Call.enter { cls := cls, ref := m.created } m.currentState] ++
        enterCalls cls.Name m.currentState :=
  ⟨_, m.setState_eq cls hm, ⟨hm.1, hm.2⟩, rfl, rfl, rfl⟩

/-- C20. One update of a machine with the three clips bound, in a state of class X,
succeeds and ends in the class the table gives: from Idle in WalkBackward when backward
is held, else in Run when forward is held, else in Idle; from Run in Run when forward is
held, else in Idle; from WalkBackward in WalkBackward when backward is held, else in
Idle. When the class stays the machine is left as it was; from Idle with both keys held
a Run object is entered after the Idle object and left again for the WalkBackward
object within the update. -/
theorem update_transitions (m : FiniteStateMachine) (hm : m.Loaded) (s : State)
    (hs : m.currentState = some s) (input : Input) :
    ∃ m' s', m.update input = some m' ∧ m'.currentState = some s' ∧
      s'.cls = transitionTable s.cls input ∧
      (transitionTable s.cls input = s.cls → m' = m) ∧
      (s.cls = .Idle → input.forward = true → input.backward = true →
        ∃ r : State, r.cls = .Run ∧
          m'.calls = m.calls ++
            [Call.exit s, Call.enter r (some s), Call.fadeOut "Idle" (1 / 4), Call.reset "Run",
             Call.fadeIn "Run" (1 / 4), Call.play "Run",
             Call.exit r, Call.enter s' (some r), Call.fadeOut "Run" (1 / 4),
             Call.reset "WalkBackward", Call.fadeIn "WalkBackward" (1 / 4),
             Call.play "WalkBackward"]) := by
  obtain ⟨cls, ref⟩ := s
  obtain ⟨mR, hR, hRl, hRc, hRn, hRcalls⟩ := m.setState_class .Run hm
  obtain ⟨mW, hW, _, hWc, _, hWcalls⟩ := m.setState_class .WalkBackward hm
  obtain ⟨mI, hI, _, hIc, _, hIcalls⟩ := m.setState_class .Idle hm
  obtain ⟨mRW, hRW, _, hRWc, _, hRWcalls⟩ := mR.setState_class .WalkBackward hRl
  simp only [StateClass.Name] at hR hW hI hRW
  cases cls <;> cases hf : input.forward <;> cases hb : input.backward
  all_goals simp only [FiniteStateMachine.update, hs, State.update, hf, hb, transitionTable,
    if_true, if_false, Bool.not_true, Bool.not_false, Bool.false_eq_true, hR, hW, hI, hRW]
  · exact ⟨m, _, rfl, hs, rfl, fun _ => rfl, by simp⟩
  · exact ⟨mW, _, rfl, hWc, rfl, by simp, by simp⟩
  · exact ⟨mR, _, rfl, hRc, rfl, by simp, by simp⟩
  · refine ⟨mRW, _, rfl, hRWc, rfl, by simp, fun _ _ _ => ⟨{ cls := .Run, ref := m.created }, rfl, ?_⟩⟩
    rw [hRWcalls, hRc, hRcalls, hs]
    simp [exitCalls, enterCalls, State.Name, StateClass.Name, hRn]
  · exact ⟨mI, _, rfl, hIc, rfl, by simp, by simp⟩
  · exact ⟨mI, _, rfl, hIc, rfl, by simp, by simp⟩
  · exact ⟨m, _, rfl, hs, rfl, fun _ => rfl, by simp⟩
  · exact ⟨m, _, rfl, hs, rfl, fun _ => rfl, by simp⟩
  · exact ⟨mI, _, rfl, hIc, rfl, by simp, by simp⟩
  · exact ⟨m, _, rfl, hs, rfl, fun _ => rfl, by simp⟩
  · exact ⟨mI, _, rfl, hIc, rfl, by simp, by simp⟩
  · exact ⟨m, _, rfl, hs, rfl, fun _ => rfl, by simp⟩

end FifthGame

namespace FifthGame

theorem update_transitions_witness :
    ∃ m' s',
      sampleIdleFSM.update { forward := true, backward := true, right := false, left := false } =
        some m' ∧
      m'.currentState = some s' ∧ s'.cls = .WalkBackward := by
  obtain ⟨m', s', h1, h2, h3, _⟩ := update_transitions sampleIdleFSM ⟨rfl, rfl⟩
    { cls := .Idle, ref := 0 } rfl
    { forward := true, backward := true, right := false, left := false }
  exact ⟨m', s', h1, h2, h3⟩

end FifthGame

/-! ## Properties of the volumes -/

namespace Three

theorem Number.lt_posInfinity_of_finite (q : ℚ) : (Number.finite q).lt .posInfinity = true := rfl

theorem firstGame_checkCollision_eq (pb : Box3) (boxes : List FirstGame.Box) :
    (FirstGame.checkCollision boxes pb).1 = boxes.any (fun box => pb.intersectsBox box.box3) := by
  have hsym : ∀ a b : Box3, a.intersectsBox b = b.intersectsBox a := by
    intro a b
    unfold Box3.intersectsBox
    cases b.max.x.lt a.min.x <;> cases a.max.x.lt b.min.x <;>
      cases b.max.y.lt a.min.y <;> cases a.max.y.lt b.min.y <;>
      cases b.max.z.lt a.min.z <;> cases a.max.z.lt b.min.z <;> rfl
  induction boxes with
  | nil => rfl
  | cons b rest ih =>
    unfold FirstGame.checkCollision
    by_cases h : b.box3.intersectsBox pb = true
    · rw [if_pos h]
      simp [← hsym b.box3 pb, h]
    · rw [if_neg h]
      have h' : b.box3.intersectsBox pb = false := by simpa using h
      simp [← hsym b.box3 pb, h', ih]

/-- C18. For all boxes `a` and `b`, `a.intersectsBox(b)` and `b.intersectsBox(a)` give
the same answer, so the collision checks of the games, which ask the entity's volume
about the player's, give what the player's volume asked about the entity's would give.
Two boxes with finite corners that share the face `x = x1` and nothing else (the first
spans `x0..x1`, the second `x1..x2`, both the same `y` and `z` ranges) are reported as
intersecting. -/
theorem intersectsBox_symmetric :
    (∀ a b : Box3, a.intersectsBox b = b.intersectsBox a) ∧
    (∀ (e : ThirdGame.Enemy) (playerBox : Box3),
      e.checkCollision playerBox = playerBox.intersectsBox e.box3) ∧
    (∀ (boxes : List FirstGame.Box) (playerBox : Box3),
      (FirstGame.checkCollision boxes playerBox).1 =
        boxes.any (fun box => playerBox.intersectsBox box.box3)) ∧
    (∀ x0 x1 x2 y0 y1 z0 z1 : ℚ, x0 ≤ x1 → x1 ≤ x2 → y0 ≤ y1 → z0 ≤ z1 →
      Box3.intersectsBox
        { min := { x := .finite x0, y := .finite y0, z := .finite z0 }
          max := { x := .finite x1, y := .finite y1, z := .finite z1 } }
        { min := { x := .finite x1, y := .finite y0, z := .finite z0 }
          max := { x := .finite x2, y := .finite y1, z := .finite z1 } } = true) := by
  have hsym : ∀ a b : Box3, a.intersectsBox b = b.intersectsBox a := by
    intro a b
    unfold Box3.intersectsBox
    cases b.max.x.lt a.min.x <;> cases a.max.x.lt b.min.x <;>
      cases b.max.y.lt a.min.y <;> cases a.max.y.lt b.min.y <;>
      cases b.max.z.lt a.min.z <;> cases a.max.z.lt b.min.z <;> rfl
  refine ⟨hsym, fun e pb => ?_, fun boxes pb => firstGame_checkCollision_eq pb boxes, ?_⟩
  · rw [← hsym e.box3 pb]
    unfold ThirdGame.Enemy.checkCollision
    cases e.box3.intersectsBox pb <;> rfl
  · intro x0 x1 x2 y0 y1 z0 z1 hx01 hx12 hy hz
    simp only [Box3.intersectsBox, Number.lt, Bool.or_eq_true, decide_eq_true_eq]
    rw [if_neg]
    intro h
    rcases h with ((((h | h) | h) | h) | h) | h <;> linarith

theorem intersectsBox_symmetric_witness :
    Box3.intersectsBox
      { min := { x := .finite 0, y := .finite 0, z := .finite 0 }
        max := { x := .finite 1, y := .finite 1, z := .finite 1 } }
      { min := { x := .finite 1, y := .finite 0, z := .finite 0 }
        max := { x := .finite 2, y := .finite 1, z := .finite 1 } } = true :=
  intersectsBox_symmetric.2.2.2 0 1 2 0 1 0 1 (by norm_num) (by norm_num) (by norm_num)
    (by norm_num)

theorem Box3.new_intersectsBox (b : Box3) (hb : b.IsVolume) :
    Box3.new.intersectsBox b = false ∧ b.intersectsBox Box3.new = false := by
  rcases hb with ⟨x0, y0, z0, x1, y1, z1, rfl⟩ | rfl
  · exact ⟨rfl, rfl⟩
  · exact ⟨rfl, rfl⟩

theorem Box3.Finite.ne_new (b : Box3) (hb : b.Finite) : b ≠ Box3.new := by
  obtain ⟨x0, y0, z0, x1, y1, z1, rfl⟩ := hb
  intro h
  simp [Box3.new] at h

theorem Box3.Finite.isVolume (b : Box3) (hb : b.Finite) : b.IsVolume := Or.inl hb

end Three

/-! ## Properties of the conveyor -/

namespace FirstGame

open Three

theorem Conveyor.ramp_boxes (c : Conveyor) (score : Nat) :
    (c.ramp score).boxes = c.boxes ∧ (c.ramp score).created = c.created := by
  unfold Conveyor.ramp
  split <;> exact ⟨rfl, rfl⟩

theorem Conveyor.update_boxes (c : Conveyor) (f : Frame) (score : Nat) :
    (c.update f score).conveyor.boxes =
      (c.createOrRemove f).1.boxes.map
        (fun b => b.setPosition f.boxVolume ((c.createOrRemove f).1.boxSpeed * f.dt)) := by
  simp only [Conveyor.update, Conveyor.ramp_boxes]

theorem Conveyor.createOrRemove_fields (c : Conveyor) (f : Frame) :
    (c.createOrRemove f).1.boxSpeed = c.boxSpeed ∧ (c.createOrRemove f).1.coef = c.coef ∧
      (c.createOrRemove f).1.boxGap = c.boxGap := by
  unfold Conveyor.createOrRemove
  split
  · exact ⟨rfl, rfl, rfl⟩
  · cases hb : c.boxes with
    | nil => exact ⟨rfl, rfl, rfl⟩
    | cons first rest =>
      simp only [Conveyor._remove, hb]
      split <;> exact ⟨rfl, rfl, rfl⟩

/-- C14. With fewer than 10 boxes at the start of `update` (and the gap of -20 the
constructor sets), the list after the update is the old list with exactly one new box
at its end, all advanced by this frame's step; before the advance the new box stands at
the z of the previous last box minus 20, or at -50 when the conveyor was empty. With 10
boxes the list after the update holds only old boxes, advanced: all of them or all but
the first. -/
theorem conveyor_top_up (c : Conveyor) (f : Frame) (score : Nat) (hgap : c.boxGap = -20) :
    (c.boxes.length < 10 →
      ∃ box : Box,
        box.position.z =
          (match c.boxes.getLast? with
            | none => -50
            | some last => last.position.z - 20) ∧
        (c.update f score).conveyor.boxes =
          (c.boxes ++ [box]).map (fun b => b.setPosition f.boxVolume (c.boxSpeed * f.dt))) ∧
    (c.boxes.length = 10 →
      (c.update f score).conveyor.boxes =
          c.boxes.map (fun b => b.setPosition f.boxVolume (c.boxSpeed * f.dt)) ∨
        (c.update f score).conveyor.boxes =
          c.boxes.tail.map (fun b => b.setPosition f.boxVolume (c.boxSpeed * f.dt))) := by
  have hboxes := c.update_boxes f score
  have hspeed := c.createOrRemove_fields f
  rw [hspeed.1] at hboxes
  refine ⟨fun hlt => ?_, fun heq => ?_⟩
  · refine ⟨Box.new c.created f.lane
      (match c.boxes.getLast? with
        | none => -50
        | some last => last.position.z + c.boxGap), ?_, ?_⟩
    · cases c.boxes.getLast? with
      | none => rfl
      | some last =>
        simp only [Box.new, hgap]
        ring
    · have h : c.boxes.length < Conveyor.maxBox := hlt
      rw [hboxes]
      simp only [Conveyor.createOrRemove, h, if_true, Conveyor._create]
  · have h : ¬ c.boxes.length < Conveyor.maxBox := by
      simp [Conveyor.maxBox, heq]
    rw [hboxes]
    simp only [Conveyor.createOrRemove, h, if_false]
    cases hb : c.boxes with
    | nil => simp [hb] at heq
    | cons first rest =>
      by_cases hz : first.position.z > 30
      · right
        simp only [hz, if_true, Conveyor._remove, hb, List.tail_cons]
      · left
        simp only [hz, if_false, hb]

theorem conveyor_top_up_witness :
    ∃ box : Box, box.position.z = -50 ∧
      (Conveyor.new.update
        { dt := 1 / 60, lane := 1, boxVolume := fun _ => cube 0 1, playerVolume := fun _ => cube 0 1 }
        0).conveyor.boxes =
        ([] ++ [box]).map (fun b : Box => b.setPosition (fun _ => cube 0 1) (30 * (1 / 60))) :=
  (conveyor_top_up Conveyor.new
    { dt := 1 / 60, lane := 1, boxVolume := fun _ => cube 0 1, playerVolume := fun _ => cube 0 1 }
    0 rfl).1 (by decide)

end FirstGame

namespace FirstGame

open Three

theorem multiplesBelow_succ (s : Nat) :
    multiplesBelow (s + 1) = multiplesBelow s + (if s ≠ 0 ∧ s % 15 = 0 then 1 else 0) := by
  unfold multiplesBelow
  rw [List.range_succ, List.filter_append, List.length_append]
  by_cases h : s ≠ 0 ∧ s % 15 = 0
  · simp [h]
  · simp [h]

theorem multiplesBelow_bounds (s : Nat) :
    s ≤ 15 * (multiplesBelow s + 1) ∧ (s = 0 ∨ 15 * multiplesBelow s < s) := by
  induction s with
  | zero => exact ⟨by omega, Or.inl rfl⟩
  | succ s ih =>
    rw [multiplesBelow_succ]
    obtain ⟨hub, hlb⟩ := ih
    by_cases h : s ≠ 0 ∧ s % 15 = 0
    · rw [if_pos h]
      have hmod := h.2
      refine ⟨by omega, Or.inr ?_⟩
      rcases hlb with h0 | hlt
      · exact absurd h0 h.1
      · omega
    · rw [if_neg h]
      refine ⟨?_, Or.inr ?_⟩
      · rcases hlb with h0 | hlt
        · omega
        · have : ¬ s % 15 = 0 ∨ s = 0 := by
            by_cases hs : s = 0
            · exact Or.inr hs
            · exact Or.inl (fun hm => h ⟨hs, hm⟩)
          omega
      · rcases hlb with h0 | hlt
        · subst h0
          simp [multiplesBelow]
        · omega

theorem Conveyor.ramp_same (c : Conveyor) (s : Nat)
    (hspeed : c.boxSpeed = 30 + 5 * (multiplesBelow s : ℚ))
    (hcoef : c.coef = 15 * ((multiplesBelow s : ℚ) + 1)) :
    (c.ramp s).boxSpeed = 30 + 5 * (multiplesBelow s : ℚ) ∧
      (c.ramp s).coef = 15 * ((multiplesBelow s : ℚ) + 1) := by
  have hub := (multiplesBelow_bounds s).1
  have hle : ¬ ((s : ℚ) > c.coef) := by
    rw [hcoef, not_lt]
    exact_mod_cast hub
  simp only [Conveyor.ramp, hle, if_false]
  exact ⟨hspeed, hcoef⟩

theorem Conveyor.ramp_next (c : Conveyor) (s : Nat)
    (hspeed : c.boxSpeed = 30 + 5 * (multiplesBelow s : ℚ))
    (hcoef : c.coef = 15 * ((multiplesBelow s : ℚ) + 1)) :
    (c.ramp (s + 1)).boxSpeed = 30 + 5 * (multiplesBelow (s + 1) : ℚ) ∧
      (c.ramp (s + 1)).coef = 15 * ((multiplesBelow (s + 1) : ℚ) + 1) := by
  obtain ⟨hub, hlb⟩ := multiplesBelow_bounds s
  rw [multiplesBelow_succ]
  by_cases h : s ≠ 0 ∧ s % 15 = 0
  · have hgt : ((s + 1 : Nat) : ℚ) > c.coef := by
      rw [hcoef]
      have hmod := h.2
      have : 15 * (multiplesBelow s + 1) < s + 1 := by
        rcases hlb with h0 | hlt
        · exact absurd h0 h.1
        · omega
      exact_mod_cast this
    unfold Conveyor.ramp
    rw [if_pos hgt, if_pos h]
    simp only [hspeed, hcoef]
    push_cast
    constructor <;> ring
  · have hle : ¬ (((s + 1 : Nat) : ℚ) > c.coef) := by
      rw [hcoef, not_lt]
      have : s + 1 ≤ 15 * (multiplesBelow s + 1) := by
        rcases hlb with h0 | hlt
        · omega
        · have : ¬ s % 15 = 0 ∨ s = 0 := by
            by_cases hs : s = 0
            · exact Or.inr hs
            · exact Or.inl (fun hm => h ⟨hs, hm⟩)
          omega
      exact_mod_cast this
    unfold Conveyor.ramp
    rw [if_neg hle, if_neg h]
    simp only [hspeed, hcoef]
    push_cast
    constructor <;> ring

theorem Conveyor.update_ramped (c : Conveyor) (f : Frame) (seen s : Nat)
    (hs : s = seen ∨ s = seen + 1)
    (hspeed : c.boxSpeed = 30 + 5 * (multiplesBelow seen : ℚ))
    (hcoef : c.coef = 15 * ((multiplesBelow seen : ℚ) + 1)) :
    (c.update f s).conveyor.boxSpeed = 30 + 5 * (multiplesBelow s : ℚ) ∧
      (c.update f s).conveyor.coef = 15 * ((multiplesBelow s : ℚ) + 1) := by
  have hf := c.createOrRemove_fields f
  simp only [Conveyor.update]
  rcases hs with rfl | rfl
  · exact Conveyor.ramp_same _ _ (hf.1.trans hspeed) (hf.2.1.trans hcoef)
  · exact Conveyor.ramp_next _ _ (hf.1.trans hspeed) (hf.2.1.trans hcoef)

theorem Score.updateScore_score (s : Score) (dt : ℚ) :
    (s.updateScore dt).score = s.score ∨ (s.updateScore dt).score = s.score + 1 := by
  unfold Score.updateScore
  simp only
  split
  · exact Or.inr rfl
  · exact Or.inl rfl

theorem Scene.update_fields (c : Conveyor) :
    (Scene.update c).1.boxSpeed = c.boxSpeed ∧ (Scene.update c).1.coef = c.coef ∧
      (Scene.update c).1.boxes = c.boxes ∧ (Scene.update c).1.created = c.created := by
  unfold Scene.update
  split
  · split <;> exact ⟨rfl, rfl, rfl, rfl⟩
  · exact ⟨rfl, rfl, rfl, rfl⟩

theorem GameManager.animate_fields (g : GameManager) (f : Frame) :
    (g._animate f).game.score = g.score.updateScore f.dt ∧
      (g._animate f).game.conveyor = (Scene.update (g.conveyor.update f g.score.getScore).conveyor).1 := by
  unfold GameManager._animate
  simp only
  split <;> exact ⟨rfl, rfl⟩

theorem GameManager.Reachable.ramped (g : GameManager) (hg : g.Reachable) : g.Ramped := by
  induction hg with
  | start => exact ⟨0, Or.inl rfl, by simp [GameManager.new, Conveyor.new, multiplesBelow],
      by simp [GameManager.new, Conveyor.new, multiplesBelow]⟩
  | keys g d a _ ih => exact ih
  | tick g f _ _ ih =>
    obtain ⟨seen, hseen, hspeed, hcoef⟩ := ih
    have hu := g.conveyor.update_ramped f seen g.score.score
      (by rcases hseen with h | h <;> simp [h]) hspeed hcoef
    have ha := g.animate_fields f
    have hsc := Scene.update_fields (g.conveyor.update f g.score.getScore).conveyor
    refine ⟨g.score.score, ?_, ?_, ?_⟩
    · rw [ha.1]
      exact g.score.updateScore_score f.dt
    · rw [ha.2, hsc.1]
      exact hu.1
    · rw [ha.2, hsc.2.1]
      exact hu.2

theorem GameManager.Reachable.advance (fs : List Frame) : ∀ g : GameManager, g.Reachable →
    (g.advance fs).2 = true → (g.advance fs).1.Reachable := by
  induction fs with
  | nil => intro g hg _; exact hg
  | cons f rest ih =>
    intro g hg h
    unfold GameManager.advance at h ⊢
    by_cases hc : Effect.requestAnimationFrame ∈ (g._animate f).effects
    · rw [if_pos hc] at h ⊢
      exact ih _ (GameManager.Reachable.tick g f hg hc) h
    · rw [if_neg hc] at h
      cases h

/-- C15. In every state the first game reaches, the conveyor update of the next tick
leaves the box speed at `30 + 5 * k` and the threshold at `15 * (k + 1)`, where `k` is
the number of multiples of 15 strictly below the score that update reads; the score a
tick leaves is the one it found or one more, so the score read grows by at most one from
one update to the next. -/
theorem difficulty_ramp (g : GameManager) (hg : g.Reachable) (f : Frame) :
    (g.conveyor.update f g.score.getScore).conveyor.boxSpeed =
      30 + 5 * (multiplesBelow g.score.getScore : ℚ) ∧
    (g.conveyor.update f g.score.getScore).conveyor.coef =
      15 * ((multiplesBelow g.score.getScore : ℚ) + 1) ∧
    ((g._animate f).game.score.getScore = g.score.getScore ∨
      (g._animate f).game.score.getScore = g.score.getScore + 1) := by
  obtain ⟨seen, hseen, hspeed, hcoef⟩ := GameManager.Reachable.ramped g hg
  have hu := g.conveyor.update_ramped f seen g.score.score
    (by rcases hseen with h | h <;> simp [h]) hspeed hcoef
  refine ⟨hu.1, hu.2, ?_⟩
  rw [(g.animate_fields f).1]
  exact g.score.updateScore_score f.dt

theorem difficulty_ramp_witness :
    (GameManager.advance GameManager.new (List.replicate 17 slowFrame)).1.score.getScore = 17 ∧
    multiplesBelow 17 = 1 ∧
    ((GameManager.advance GameManager.new (List.replicate 17 slowFrame)).1.conveyor.update
      slowFrame
      (GameManager.advance GameManager.new
        (List.replicate 17 slowFrame)).1.score.getScore).conveyor.boxSpeed =
      30 + 5 * (multiplesBelow (GameManager.advance GameManager.new
        (List.replicate 17 slowFrame)).1.score.getScore : ℚ) ∧
    ((GameManager.advance GameManager.new (List.replicate 17 slowFrame)).1.conveyor.update
      slowFrame
      (GameManager.advance GameManager.new
        (List.replicate 17 slowFrame)).1.score.getScore).conveyor.coef =
      15 * ((multiplesBelow (GameManager.advance GameManager.new
        (List.replicate 17 slowFrame)).1.score.getScore : ℚ) + 1) ∧
    ((GameManager.advance GameManager.new (List.replicate 17 slowFrame)).1.conveyor.update
      slowFrame 17).conveyor.boxSpeed = 35 ∧
    ((GameManager.advance GameManager.new (List.replicate 17 slowFrame)).1.conveyor.update
      slowFrame 17).conveyor.coef = 30 ∧
    (GameManager.advance GameManager.new (List.replicate 15 slowFrame)).1.conveyor.boxSpeed
      = 30 :=
  ⟨by decide!, by decide,
    (difficulty_ramp (GameManager.advance GameManager.new (List.replicate 17 slowFrame)).1
      (GameManager.Reachable.advance _ _ GameManager.Reachable.start (by decide!)) slowFrame).1,
    (difficulty_ramp (GameManager.advance GameManager.new (List.replicate 17 slowFrame)).1
      (GameManager.Reachable.advance _ _ GameManager.Reachable.start (by decide!)) slowFrame).2.1,
    by decide!, by decide!, by decide!⟩

end FirstGame

/-! ## Properties of the second game's counter -/

namespace SecondGame

open Three

theorem diamondPass_spec (pb : Box3) (hpb : pb.IsVolume) (ds : List Diamond) :
    ∀ count : Int,
      (diamondPass pb ds count).diamonds =
        ds.map (fun d => if d.box3.intersectsBox pb then (Scene.remove d).1 else d) ∧
      (diamondPass pb ds count).count =
        count - ((ds.filter (fun d => d.box3.intersectsBox pb)).length : Int) ∧
      (((diamondPass pb ds count).diamonds.filter
          (fun d => decide (d.box3 = Box3.new))).length : Int) =
        ((ds.filter (fun d => decide (d.box3 = Box3.new))).length : Int) +
          ((ds.filter (fun d => d.box3.intersectsBox pb)).length : Int) := by
  induction ds with
  | nil => intro count; simp [diamondPass]
  | cons d rest ih =>
    intro count
    by_cases h : d.box3.intersectsBox pb = true
    · obtain ⟨h1, h2, h3⟩ := ih (count - 1)
      have hne : d.box3 ≠ Box3.new := by
        intro he
        rw [he, (Box3.new_intersectsBox pb hpb).1] at h
        exact Bool.false_ne_true h
      simp only [diamondPass, Diamond.update, Diamond.checkCollision, h, if_true, h1, h2,
        List.map_cons, List.filter_cons_of_pos, List.length_cons]
      rw [h1] at h3
      refine ⟨trivial, by push_cast; ring, ?_⟩
      rw [List.filter_cons_of_pos (by simp [Scene.remove, Box3.makeEmpty]),
        List.filter_cons_of_neg (by simpa using hne), List.length_cons]
      push_cast
      rw [h3]
      ring
    · obtain ⟨h1, h2, h3⟩ := ih count
      have hf : d.box3.intersectsBox pb = false := by simpa using h
      simp only [diamondPass, Diamond.update, Diamond.checkCollision, hf, if_false, h1, h2,
        List.map_cons, Bool.false_eq_true]
      rw [h1] at h3
      rw [List.filter_cons_of_neg (by simp [hf])]
      refine ⟨trivial, rfl, ?_⟩
      by_cases he : d.box3 = Box3.new
      · rw [List.filter_cons_of_pos (by simpa using he),
          List.filter_cons_of_pos (by simpa using he), List.length_cons, List.length_cons]
        push_cast
        rw [h3]
        ring
      · rw [List.filter_cons_of_neg (by simpa using he),
          List.filter_cons_of_neg (by simpa using he)]
        exact h3

end SecondGame

namespace SecondGame

open Three

theorem Game.animate_cases (g : Game) (f : Frame) :
    ((g._animate f).outcome = .completed ∧ g.count = 0 ∧
      (g._animate f).game.diamonds = g.diamonds ∧ (g._animate f).game.count = g.count) ∨
    ((g._animate f).outcome = .gameOver ∧ g.count ≠ 0 ∧
      (g._animate f).game.diamonds = g.diamonds ∧ (g._animate f).game.count = g.count) ∨
    ((g._animate f).outcome = .scheduled ∧ g.count ≠ 0 ∧
      (g._animate f).game.diamonds = (diamondPass f.playerBox g.diamonds g.count).diamonds ∧
      (g._animate f).game.count = (diamondPass f.playerBox g.diamonds g.count).count) := by
  unfold Game._animate
  simp only [Player.update]
  by_cases h0 : g.count = 0
  · left
    simp [h0]
  · right
    rw [if_neg h0]
    split
    · left
      exact ⟨rfl, h0, rfl, rfl⟩
    · right
      exact ⟨rfl, h0, rfl, rfl⟩

theorem Game.new_inv (volume : ℚ → ℚ → Box3) (el : Element)
    (hv : ∀ x z, (volume x z).Finite) :
    (Game.new volume el).diamonds.length = 14 ∧
      (Game.new volume el).count = 14 - ((Game.new volume el).removed : Int) := by
  have hne : ∀ x z, volume x z ≠ Box3.new := fun x z => Box3.Finite.ne_new _ (hv x z)
  refine ⟨rfl, ?_⟩
  simp [Game.new, Game.removed, Game._spawnDiamond, Diamond.new, hne]

theorem Game.animate_inv (g : Game) (f : Frame) (hf : f.playerBox.Finite)
    (hlen : g.diamonds.length = 14) (hcount : g.count = 14 - (g.removed : Int)) :
    (g._animate f).game.diamonds.length = 14 ∧
      (g._animate f).game.count = 14 - ((g._animate f).game.removed : Int) := by
  have hspec := diamondPass_spec f.playerBox (Or.inl hf) g.diamonds g.count
  rcases g.animate_cases f with ⟨_, _, hd, hc⟩ | ⟨_, _, hd, hc⟩ | ⟨_, _, hd, hc⟩
  · simp only [Game.removed, hd, hc, hlen]
    exact ⟨trivial, hcount⟩
  · simp only [Game.removed, hd, hc, hlen]
    exact ⟨trivial, hcount⟩
  · obtain ⟨h1, h2, h3⟩ := hspec
    refine ⟨?_, ?_⟩
    · rw [hd, h1, List.length_map, hlen]
    · simp only [Game.removed, hd, hc]
      rw [h3, h2, hcount]
      simp only [Game.removed]
      ring

theorem Game.Reachable.inv (g : Game) (hg : g.Reachable) :
    g.diamonds.length = 14 ∧ g.count = 14 - (g.removed : Int) := by
  induction hg with
  | start volume el hv => exact Game.new_inv volume el hv
  | tick g f _ hf _ ih => exact g.animate_inv f hf ih.1 ih.2

/-- C19. In every state the second game reaches there are fourteen diamonds and the
count is 14 minus the number of diamonds removed (emptied) so far, and so it is again
after the next tick, however that tick ends. A tick that schedules the next one empties
exactly the diamonds whose volume intersects the player's, leaves the others as they
are and lowers the count by the number of diamonds it emptied; a diamond that has been
removed is not touched again. A tick ends with 'Completed' exactly when all fourteen
diamonds have been removed. -/
theorem remaining_count (g : Game) (hg : g.Reachable) (f : Frame) (hf : f.playerBox.Finite) :
    g.diamonds.length = 14 ∧ g.count = 14 - (g.removed : Int) ∧
    (g._animate f).game.count = 14 - ((g._animate f).game.removed : Int) ∧
    ((g._animate f).outcome = .scheduled →
      (g._animate f).game.diamonds =
        g.diamonds.map
          (fun d => if d.box3.intersectsBox f.playerBox then (Scene.remove d).1 else d) ∧
      (g._animate f).game.count =
        g.count - ((g.diamonds.filter (fun d => d.box3.intersectsBox f.playerBox)).length : Int) ∧
      ((g._animate f).game.removed : Int) =
        g.removed + ((g.diamonds.filter (fun d => d.box3.intersectsBox f.playerBox)).length : Int)) ∧
    (∀ d ∈ g.diamonds, d.box3 = Box3.new → d.checkCollision f.playerBox = false) ∧
    ((g._animate f).outcome = .completed ↔ ∀ d ∈ g.diamonds, d.box3 = Box3.new) := by
  obtain ⟨hlen, hcount⟩ := Game.Reachable.inv g hg
  have hspec := diamondPass_spec f.playerBox (Or.inl hf) g.diamonds g.count
  refine ⟨hlen, hcount, (g.animate_inv f hf hlen hcount).2, ?_, ?_, ?_⟩
  · intro hs
    rcases g.animate_cases f with ⟨ho, _⟩ | ⟨ho, _⟩ | ⟨_, _, hd, hc⟩
    · rw [ho] at hs
      cases hs
    · rw [ho] at hs
      cases hs
    · simp only [Game.removed]
      rw [hd, hc]
      exact hspec
  · intro d _ he
    simp [Diamond.checkCollision, he, (Box3.new_intersectsBox f.playerBox (Or.inl hf)).1]
  · have hall : (∀ d ∈ g.diamonds, d.box3 = Box3.new) ↔ g.removed = 14 := by
      rw [← hlen]
      simp only [Game.removed]
      rw [List.filter_length_eq_length]
      simp
    have hzero : g.count = 0 ↔ g.removed = 14 := by
      rw [hcount]
      omega
    rw [hall, ← hzero]
    rcases g.animate_cases f with ⟨ho, h0, _⟩ | ⟨ho, h0, _⟩ | ⟨ho, h0, _⟩
    · simp [ho, h0]
    · simp [ho, h0]
    · simp [ho, h0]

theorem collectedGame_reachable : collectedGame.Reachable :=
  Game.Reachable.tick _ touchFrame
    (Game.Reachable.start diamondVolume _ (fun _ _ => ⟨_, _, _, _, _, _, rfl⟩))
    ⟨_, _, _, _, _, _, rfl⟩ (by decide!)

theorem remaining_count_witness :
    collectedGame.removed = 1 ∧
    collectedGame.count = 14 - (collectedGame.removed : Int) ∧
    (collectedGame._animate touchFrame).outcome = .scheduled ∧
    (collectedGame._animate touchFrame).game.removed = 1 ∧
    (collectedGame._animate touchFrame).game.count =
      14 - ((collectedGame._animate touchFrame).game.removed : Int) :=
  ⟨by decide!,
    (remaining_count collectedGame collectedGame_reachable touchFrame
      ⟨_, _, _, _, _, _, rfl⟩).2.1,
    by decide!, by decide!,
    (remaining_count collectedGame collectedGame_reachable touchFrame
      ⟨_, _, _, _, _, _, rfl⟩).2.2.1⟩

end SecondGame

/-! ## Properties of emptied volumes, of the fire flag and of the follow light -/

namespace Three

/-- C11. An emptied volume intersects no volume the games hold, finite or itself
emptied, in either direction. So the collision checks made against the volume a removal
has emptied give false: the check of a removed diamond, also after its update, the
check of a removed enemy, the intersection test on a removed bullet, and the collision
of a removed chicken, which after its update still has the emptied volume, makes no
call and leaves the chicken as it is. -/
theorem emptied_volume_never_intersects (b : Box3) (hb : b.IsVolume) :
    Box3.new.intersectsBox b = false ∧ b.intersectsBox Box3.new = false ∧
    (∀ d : SecondGame.Diamond,
      (SecondGame.Scene.remove d).1.checkCollision b = false ∧
        (SecondGame.Scene.remove d).1.update.checkCollision b = false) ∧
    (∀ e : ThirdGame.Enemy, (ThirdGame.Game.removeEnemy e).1.checkCollision b = false) ∧
    (∀ bullet : ThirdGame.Bullet,
      (ThirdGame.Game.removeBullet bullet).1.box3.intersectsBox b = false) ∧
    (∀ (c c' : FifthGame.Chicken) (box : Box3) (tr : List Effect),
      c.collision box = some (c', tr) → tr ≠ [] →
      c'.update.box3 = Box3.new ∧ c'.update.collision b = some (c'.update, [])) := by
  obtain ⟨h1, h2⟩ := Box3.new_intersectsBox b hb
  refine ⟨h1, h2, ?_, ?_, ?_, ?_⟩
  · intro d
    simp [SecondGame.Scene.remove, SecondGame.Diamond.checkCollision, SecondGame.Diamond.update,
      Box3.makeEmpty, h1]
  · intro e
    simp [ThirdGame.Game.removeEnemy, ThirdGame.Enemy.remove, ThirdGame.Enemy.checkCollision,
      Box3.makeEmpty, h1]
  · intro bullet
    simp [ThirdGame.Game.removeBullet, ThirdGame.Bullet.remove, Box3.makeEmpty, h1]
  · intro c c' box tr h hne
    obtain ⟨obj, _, hbox, hnone, _⟩ := FifthGame.Chicken.collision_removal c c' box tr h hne
    have hu : c'.update = c' := by
      simp [FifthGame.Chicken.update, FifthGame.Chicken._calculateBox3, hnone]
    rw [hu, hbox]
    refine ⟨rfl, ?_⟩
    simp [FifthGame.Chicken.collision, hbox, h1]

theorem emptied_volume_never_intersects_witness :
    Box3.new.intersectsBox (cube 0 1) = false ∧ (cube 0 1).intersectsBox Box3.new = false :=
  ⟨(emptied_volume_never_intersects (cube 0 1) (Or.inl ⟨0, 0, 0, 1, 1, 1, rfl⟩)).1,
    (emptied_volume_never_intersects (cube 0 1) (Or.inl ⟨0, 0, 0, 1, 1, 1, rfl⟩)).2.1⟩

end Three

namespace ThirdGame

open Three

theorem Player.update_flag (g : Game) (f : Frame) :
    (Player.update g f).player.input.shoot = false := by
  unfold Player.update
  by_cases h : g.player.input.shoot = true
  · simp [h]
  · have h' : g.player.input.shoot = false := by simpa using h
    simp [h']

theorem Player.update_idle (g : Game) (f : Frame) (h : g.player.input.shoot = false) :
    (Player.update g f).magazine = g.magazine := by
  unfold Player.update
  simp [h]

theorem Player.update_fold (fs : List Frame) : ∀ g : Game, g.player.input.shoot = false →
    (fs.foldl Player.update g).magazine = g.magazine ∧
      (fs.foldl Player.update g).player.input.shoot = false := by
  induction fs with
  | nil => intro g h; exact ⟨rfl, h⟩
  | cons f rest ih =>
    intro g h
    obtain ⟨h1, h2⟩ := ih (Player.update g f) (Player.update_flag g f)
    exact ⟨h1.trans (Player.update_idle g f h), h2⟩

theorem bulletPass_kept_ref (f : Frame) (ws : List Block) (bs : List Bullet) (es : List Enemy) :
    ∀ b ∈ (bulletPass f ws bs es).kept, b.ref ∈ bs.map Bullet.ref := by
  intro b hb
  rw [bulletPass_kept] at hb
  rw [← bulletPass_processed_ref f ws bs es]
  exact List.mem_map_of_mem _ (List.mem_of_mem_filter hb)

/-- C16. `Player.update` with the fire flag set appends exactly one new bullet at the
end of the magazine and clears the flag; with the flag not set it leaves the magazine
as it is. After an update the flag is not set, so whatever number of updates follow,
they add nothing to the magazine; and a whole tick that starts with the flag not set
ends with the flag not set and with no bullet in the magazine that was not there
before. -/
theorem fire_one_shot (g : Game) (f : Frame) :
    (g.player.input.shoot = true →
      (Player.update g f).magazine.items = g.magazine.items ++ [Bullet.new g.created] ∧
        (Player.update g f).player.input.shoot = false) ∧
    (g.player.input.shoot = false →
      (Player.update g f).magazine = g.magazine ∧
        (Player.update g f).player.input.shoot = false) ∧
    (∀ fs : List Frame,
      (fs.foldl Player.update (Player.update g f)).magazine = (Player.update g f).magazine) ∧
    (g.player.input.shoot = false →
      (g._animate f).1.player.input.shoot = false ∧
        ∀ b ∈ (g._animate f).1.magazine.items, b.ref ∈ g.magazine.items.map Bullet.ref) := by
  refine ⟨fun h => ⟨?_, Player.update_flag g f⟩,
    fun h => ⟨Player.update_idle g f h, Player.update_flag g f⟩,
    fun fs => (Player.update_fold fs _ (Player.update_flag g f)).1, fun h => ?_⟩
  · unfold Player.update
    simp [h, Magazine.store]
  · have hin : (enemyPass f g.player.box3
        (bulletPass f g.blocks g.magazine.items g.enemies).enemies g.player).player.input.shoot
        = false := by
      rw [enemyPass_input]
      exact h
    have hkept := bulletPass_kept_ref f g.blocks g.magazine.items g.enemies
    have hproc := bulletPass_processed_ref f g.blocks g.magazine.items g.enemies
    unfold Game._animate
    simp only
    by_cases h0 : g.enemies.length = 0
    · rw [if_pos h0]
      exact ⟨h, fun b hb => List.mem_map_of_mem _ hb⟩
    · rw [if_neg h0]
      split
      · refine ⟨hin, fun b hb => ?_⟩
        rw [← hproc]
        exact List.mem_map_of_mem _ hb
      · refine ⟨Player.update_flag _ f, fun b hb => ?_⟩
        rw [Player.update_idle _ f hin] at hb
        exact hkept b hb

theorem fire_one_shot_witness :
    (Player.update (sampleGame true) sampleFrame).magazine.items =
        (sampleGame true).magazine.items ++ [Bullet.new (sampleGame true).created] ∧
      (Player.update (sampleGame true) sampleFrame).player.input.shoot = false :=
  (fire_one_shot (sampleGame true) sampleFrame).1 rfl

end ThirdGame

namespace FifthGame

open Three

/-- C17, as stated, fails: with the light at (5, 10, 5) and the target at (3, 0, 4),
one update puts the light at (8, 30, 9), not where a step by the factor
`1 - 0.001 ^ dt` from the previous position takes it, here for `dt = 1`. -/
theorem follow_light_counterexample :
    (FollowLight.update (FollowLight.new : FollowLight ℝ) (sampleTarget : Target Unit ℝ)).position ≠
      (FollowLight.new : FollowLight ℝ).position.lerp
        (FollowLight._calculateIdealOffset (sampleTarget : Target Unit ℝ))
        (1 - Real.rpow (1 / 1000) 1) := by
  intro h
  have hx := congrArg Vector3.x h
  simp only [FollowLight.update, FollowLight._calculateIdealOffset, FollowLight.new, sampleTarget,
    Vector3.add, Vector3.lerp, Real.rpow_eq_pow, Real.rpow_one] at hx
  norm_num at hx

/-- C17, amended. `FollowLight.update` sets the light's position to the target's
position plus (5, 30, 5) in one step, whatever the position of the light was before;
there is no frame time in it and no smoothing. -/
theorem follow_light_copies {ρ α : Type} [Field α] (l : FollowLight α) (target : Target ρ α) :
    (l.update target).position =
      { x := 5 + target.position.x, y := 30 + target.position.y, z := 5 + target.position.z } := by
  rfl

end FifthGame

/-! ## Properties of the lists the ticks run over -/

namespace ThirdGame

open Three

theorem Bullet.enemyLoop_enemy_refs (es : List Enemy) (b : Bullet) :
    (b.enemyLoop es).2.map Enemy.ref = es.map Enemy.ref := by
  rw [Bullet.enemyLoop_eq]
  simp only [List.map_map]
  apply List.map_congr_left
  intro e _
  simp only [Function.comp]
  split <;> rfl

theorem bulletPass_enemy_refs (f : Frame) (ws : List Block) (bs : List Bullet) :
    ∀ es : List Enemy, (bulletPass f ws bs es).enemies.map Enemy.ref = es.map Enemy.ref := by
  induction bs with
  | nil => intro es; rfl
  | cons b rest ih =>
    intro es
    have hl := Bullet.enemyLoop_enemy_refs es (b.update (f.bulletBox b.ref))
    unfold bulletPass
    simp only
    split
    · simp only [ih, Bullet.checkCollision, hl]
    · simp only [ih, Bullet.checkCollision, hl]

theorem enemyPass_processed_ref (f : Frame) (pb : Box3) (es : List Enemy) :
    ∀ p : Player, (enemyPass f pb es p).processed.map Enemy.ref = es.map Enemy.ref := by
  induction es with
  | nil => intro p; rfl
  | cons e rest ih =>
    intro p
    unfold enemyPass
    simp only
    split
    · simp only [List.map_cons, ih, Game.removeEnemy, Enemy.remove, Enemy.update]
    · simp only [List.map_cons, ih, Enemy.update]

theorem enemyPass_kept (f : Frame) (pb : Box3) (es : List Enemy) :
    ∀ p : Player, (enemyPass f pb es p).kept =
      (enemyPass f pb es p).processed.filter (fun e => !decide (e.hp < 0)) := by
  induction es with
  | nil => intro p; rfl
  | cons e rest ih =>
    intro p
    unfold enemyPass
    simp only
    split
    · rename_i h
      simp only [Enemy.getHP, Enemy.update] at h
      simp [ih, Game.removeEnemy, Enemy.remove, Enemy.update, h]
    · rename_i h
      simp only [Enemy.getHP, Enemy.update] at h
      simp [ih, Enemy.update, h]

theorem Game.animate_magazine_refs (g : Game) (f : Frame) :
    g.created ≤ (g._animate f).1.created ∧
    ∀ b ∈ (g._animate f).1.magazine.items,
      b.ref ∈ g.magazine.items.map Bullet.ref ∨ b.ref = g.created + 1 := by
  have hkept := bulletPass_kept_ref f g.blocks g.magazine.items g.enemies
  have hproc := bulletPass_processed_ref f g.blocks g.magazine.items g.enemies
  unfold Game._animate
  simp only
  by_cases h0 : g.enemies.length = 0
  · rw [if_pos h0]
    exact ⟨Nat.le_succ _, fun b hb => Or.inl (List.mem_map_of_mem _ hb)⟩
  · rw [if_neg h0]
    split
    · refine ⟨Nat.le_succ _, fun b hb => Or.inl ?_⟩
      rw [← hproc]
      exact List.mem_map_of_mem _ hb
    · simp only [Player.update, Magazine.setMagazine]
      split
      · refine ⟨by show g.created ≤ g.created + 1 + 1; omega, fun b hb => ?_⟩
        simp only [Magazine.store, List.mem_append, List.mem_singleton] at hb
        rcases hb with hb | hb
        · exact Or.inl (hkept b hb)
        · exact Or.inr (by rw [hb]; rfl)
      · exact ⟨Nat.le_succ _, fun b hb => Or.inl (hkept b hb)⟩

theorem Game.animate_enemy_refs (g : Game) (f : Frame) :
    ∀ e ∈ (g._animate f).1.enemies, e.ref ∈ g.enemies.map Enemy.ref := by
  have hb := bulletPass_enemy_refs f g.blocks g.magazine.items g.enemies
  have hp := enemyPass_processed_ref f g.player.box3
    (bulletPass f g.blocks g.magazine.items g.enemies).enemies g.player
  have hk := enemyPass_kept f g.player.box3
    (bulletPass f g.blocks g.magazine.items g.enemies).enemies g.player
  unfold Game._animate
  simp only
  by_cases h0 : g.enemies.length = 0
  · rw [if_pos h0]
    exact fun e he => List.mem_map_of_mem _ he
  · rw [if_neg h0]
    split
    · intro e he
      rw [← hb, ← hp]
      exact List.mem_map_of_mem _ he
    · intro e he
      simp only [Player.update] at he
      have he' : e ∈ (enemyPass f g.player.box3
          (bulletPass f g.blocks g.magazine.items g.enemies).enemies g.player).kept := by
        split at he <;> exact he
      rw [hk] at he'
      rw [← hb, ← hp]
      exact List.mem_map_of_mem _ (List.mem_of_mem_filter he')

end ThirdGame

namespace ThirdGame

open Three

theorem Game.animate_continuing (g : Game) (f : Frame)
    (hcont : Effect.requestAnimationFrame ∈ (g._animate f).2) :
    (∀ b ∈ (g._animate f).1.magazine.items,
      b ∈ (bulletPass f g.blocks g.magazine.items g.enemies).kept ∨ b.ref = g.created + 1) ∧
    (g._animate f).1.enemies =
      (enemyPass f g.player.box3 (bulletPass f g.blocks g.magazine.items g.enemies).enemies
        g.player).kept := by
  have hb := bulletPass_no_request f g.blocks g.magazine.items g.enemies
  have he := enemyPass_no_request f g.player.box3
    (bulletPass f g.blocks g.magazine.items g.enemies).enemies g.player
  unfold Game._animate at hcont ⊢
  simp only at hcont ⊢
  by_cases h0 : g.enemies.length = 0
  · rw [if_pos h0] at hcont
    simp at hcont
  · rw [if_neg h0] at hcont ⊢
    split at hcont
    · simp [hb, he] at hcont
    · rename_i hge
      rw [if_neg hge]
      simp only [Player.update, Magazine.setMagazine]
      split
      · refine ⟨fun b hb' => ?_, rfl⟩
        simp only [Magazine.store, List.mem_append, List.mem_singleton] at hb'
        rcases hb' with hb' | hb'
        · exact Or.inl hb'
        · exact Or.inr (by rw [hb']; rfl)
      · exact ⟨fun b hb' => Or.inl hb', rfl⟩

theorem Game.visits_bullet_gone (g : Game) (r : Nat) (hgone : ∀ b ∈ g.magazine.items, b.ref ≠ r) :
    ∀ v ∈ g.visits, v.isOn .bullet r = false := by
  intro v hv
  unfold Game.visits at hv
  split at hv
  · simp at hv
  · simp only [List.mem_append, List.mem_flatMap, List.mem_cons, List.mem_singleton,
      List.not_mem_nil, or_false] at hv
    rcases hv with ⟨b, hb, rfl | rfl⟩ | ⟨e, _, rfl | rfl⟩
    · simp [Visit.isOn, hgone b hb]
    · simp [Visit.isOn, hgone b hb]
    · simp [Visit.isOn]
    · simp [Visit.isOn]

theorem Game.visits_enemy_gone (g : Game) (r : Nat) (hgone : ∀ e ∈ g.enemies, e.ref ≠ r) :
    ∀ v ∈ g.visits, v.isOn .enemy r = false := by
  intro v hv
  unfold Game.visits at hv
  split at hv
  · simp at hv
  · simp only [List.mem_append, List.mem_flatMap, List.mem_cons, List.mem_singleton,
      List.not_mem_nil, or_false] at hv
    rcases hv with ⟨b, _, rfl | rfl⟩ | ⟨e, he, rfl | rfl⟩
    · simp [Visit.isOn]
    · simp [Visit.isOn]
    · simp [Visit.isOn, hgone e he]
    · simp [Visit.isOn, hgone e he]

theorem Game.runVisits_bullet_gone (fs : List Frame) (r : Nat) : ∀ g : Game,
    r < g.created → (∀ b ∈ g.magazine.items, b.ref ≠ r) →
    ∀ vs ∈ g.runVisits fs, ∀ v ∈ vs, v.isOn .bullet r = false := by
  induction fs with
  | nil => intro g _ _ vs hvs; simp [Game.runVisits] at hvs
  | cons f rest ih =>
    intro g hlt hgone vs hvs
    have hnow := g.visits_bullet_gone r hgone
    have hrefs := g.animate_magazine_refs f
    unfold Game.runVisits at hvs
    split at hvs
    · rcases List.mem_cons.1 hvs with rfl | hvs
      · exact hnow
      · refine ih _ (Nat.lt_of_lt_of_le hlt hrefs.1) (fun b hb => ?_) vs hvs
        rcases hrefs.2 b hb with h | h
        · obtain ⟨b0, hb0, hb0r⟩ := List.mem_map.1 h
          rw [← hb0r]
          exact hgone b0 hb0
        · omega
    · simp only [List.mem_singleton] at hvs
      rw [hvs]
      exact hnow

theorem Game.runVisits_enemy_gone (fs : List Frame) (r : Nat) : ∀ g : Game,
    (∀ e ∈ g.enemies, e.ref ≠ r) →
    ∀ vs ∈ g.runVisits fs, ∀ v ∈ vs, v.isOn .enemy r = false := by
  induction fs with
  | nil => intro g _ vs hvs; simp [Game.runVisits] at hvs
  | cons f rest ih =>
    intro g hgone vs hvs
    have hnow := g.visits_enemy_gone r hgone
    have hrefs := g.animate_enemy_refs f
    unfold Game.runVisits at hvs
    split at hvs
    · rcases List.mem_cons.1 hvs with rfl | hvs
      · exact hnow
      · refine ih _ (fun e he => ?_) vs hvs
        obtain ⟨e0, he0, he0r⟩ := List.mem_map.1 (hrefs e he)
        rw [← he0r]
        exact hgone e0 he0
    · simp only [List.mem_singleton] at hvs
      rw [hvs]
      exact hnow

theorem Game.removed_then_gone (g : Game) (f : Frame) (hwf : g.WellFormed)
    (hcont : Effect.requestAnimationFrame ∈ (g._animate f).2) :
    (∀ r ∈ g.removedBullets f,
      r < (g._animate f).1.created ∧ ∀ b ∈ (g._animate f).1.magazine.items, b.ref ≠ r) ∧
    (∀ r ∈ g.removedEnemies f, ∀ e ∈ (g._animate f).1.enemies, e.ref ≠ r) := by
  obtain ⟨hlt, hnb, hne⟩ := hwf
  obtain ⟨hitems, henemies⟩ := g.animate_continuing f hcont
  have hproc := bulletPass_processed_ref f g.blocks g.magazine.items g.enemies
  have hkept := bulletPass_kept f g.blocks g.magazine.items g.enemies
  have hcreated := (g.animate_magazine_refs f).1
  refine ⟨fun r hr => ?_, fun r hr => ?_⟩
  · simp only [Game.removedBullets, List.mem_map, List.mem_filter] at hr
    obtain ⟨b0, ⟨hb0, hflag⟩, rfl⟩ := hr
    have hb0ref : b0.ref ∈ g.magazine.items.map Bullet.ref := by
      rw [← hproc]
      exact List.mem_map_of_mem _ hb0
    obtain ⟨b1, hb1, hb1r⟩ := List.mem_map.1 hb0ref
    have hold : b0.ref < g.created := by
      rw [← hb1r]
      exact hlt b1 hb1
    refine ⟨Nat.lt_of_lt_of_le hold hcreated, fun b hb heq => ?_⟩
    rcases hitems b hb with hk | hk
    · rw [hkept] at hk
      obtain ⟨hbp, hbflag⟩ := List.mem_filter.1 hk
      have hnd : ((bulletPass f g.blocks g.magazine.items g.enemies).processed.map
          Bullet.ref).Nodup := by
        rw [hproc]
        exact hnb
      have := List.inj_on_of_nodup_map hnd hbp hb0 heq
      rw [this, hflag] at hbflag
      simp at hbflag
    · omega
  · simp only [Game.removedEnemies, List.mem_map, List.mem_filter] at hr
    obtain ⟨e0, ⟨he0, hhp⟩, rfl⟩ := hr
    intro e he heq
    rw [henemies, enemyPass_kept] at he
    obtain ⟨hep, hehp⟩ := List.mem_filter.1 he
    have hnd : ((enemyPass f g.player.box3
        (bulletPass f g.blocks g.magazine.items g.enemies).enemies g.player).processed.map
          Enemy.ref).Nodup := by
      rw [enemyPass_processed_ref, bulletPass_enemy_refs]
      exact hne
    have := List.inj_on_of_nodup_map hnd hep he0 heq
    rw [this] at hehp
    simp [hhp] at hehp

end ThirdGame

namespace FirstGame

open Three

theorem Conveyor.createOrRemove_cases (c : Conveyor) (f : Frame) :
    (∃ z : ℚ, (c.createOrRemove f).1.boxes = c.boxes ++ [Box.new c.created f.lane z] ∧
      (c.createOrRemove f).1.created = c.created + 1 ∧ (c.createOrRemove f).2 = []) ∨
    (∃ first rest, c.boxes = first :: rest ∧ (c.createOrRemove f).1.boxes = rest ∧
      (c.createOrRemove f).1.created = c.created ∧
      (c.createOrRemove f).2 =
        [Effect.geometryDispose first.ref, Effect.materialDispose first.ref]) ∨
    ((c.createOrRemove f).1.boxes = c.boxes ∧ (c.createOrRemove f).1.created = c.created ∧
      (c.createOrRemove f).2 = []) := by
  unfold Conveyor.createOrRemove
  split
  · left
    exact ⟨_, rfl, rfl, rfl⟩
  · cases hb : c.boxes with
    | nil => right; right; exact ⟨hb.symm ▸ rfl, rfl, rfl⟩
    | cons first rest =>
      simp only
      split
      · right; left
        refine ⟨first, rest, rfl, ?_, ?_, ?_⟩ <;> simp [Conveyor._remove, hb]
      · right; right
        exact ⟨hb, rfl, rfl⟩

theorem Conveyor.update_refs (c : Conveyor) (f : Frame) (score : Nat) :
    (c.update f score).conveyor.boxes.map Box.ref = (c.createOrRemove f).1.boxes.map Box.ref ∧
      (c.update f score).conveyor.created = (c.createOrRemove f).1.created ∧
      (c.update f score).visits =
        (c.createOrRemove f).1.boxes.map (fun box => Visit.update .box box.ref) ∧
      (c.update f score).effects = (c.createOrRemove f).2 := by
  refine ⟨?_, ?_, rfl, rfl⟩
  · rw [Conveyor.update_boxes, List.map_map]
    rfl
  · simp only [Conveyor.update, Conveyor.ramp_boxes]

theorem checkCollision_visits (pb : Box3) (boxes : List Box) :
    ∀ v ∈ (checkCollision boxes pb).2, ∃ b ∈ boxes, v = Visit.collision .box b.ref := by
  induction boxes with
  | nil => intro v hv; simp [checkCollision] at hv
  | cons b rest ih =>
    intro v hv
    unfold checkCollision at hv
    split at hv
    · simp only [List.mem_singleton] at hv
      exact ⟨b, List.mem_cons_self b rest, hv⟩
    · rcases List.mem_cons.1 hv with h | h
      · exact ⟨b, List.mem_cons_self b rest, h⟩
      · obtain ⟨b', hb', hv'⟩ := ih v h
        exact ⟨b', List.mem_cons_of_mem b hb', hv'⟩

theorem GameManager.animate_parts (g : GameManager) (f : Frame) :
    (g._animate f).game.conveyor.boxes.map Box.ref =
      (g.conveyor.createOrRemove f).1.boxes.map Box.ref ∧
    (g._animate f).game.conveyor.created = (g.conveyor.createOrRemove f).1.created ∧
    (∀ v ∈ (g._animate f).visits,
      ∃ r ∈ (g.conveyor.createOrRemove f).1.boxes.map Box.ref,
        v = Visit.update .box r ∨ v = Visit.collision .box r) ∧
    (∀ r, Effect.geometryDispose r ∈ (g._animate f).effects →
      Effect.geometryDispose r ∈ (g.conveyor.createOrRemove f).2) := by
  have hu := g.conveyor.update_refs f g.score.getScore
  have hs := Scene.update_fields (g.conveyor.update f g.score.getScore).conveyor
  have ha := g.animate_fields f
  have hboxes : (g._animate f).game.conveyor.boxes.map Box.ref =
      (g.conveyor.createOrRemove f).1.boxes.map Box.ref := by
    rw [ha.2, hs.2.2.1, hu.1]
  have hsu : ∀ r, Effect.geometryDispose r ∉
      (Scene.update (g.conveyor.update f g.score.getScore).conveyor).2 := by
    intro r
    unfold Scene.update
    split
    · split <;> simp
    · simp
  refine ⟨hboxes, by rw [ha.2, hs.2.2.2, hu.2.1], ?_, ?_⟩
  · intro v hv
    have hv' : v ∈ (g.conveyor.update f g.score.getScore).visits ∨
        v ∈ (checkCollision (g._animate f).game.conveyor.boxes
          (g._animate f).game.player.box3).2 := by
      unfold GameManager._animate at hv ⊢
      simp only at hv ⊢
      split at hv
      · rename_i hc
        simp only [hc, if_true, GameManager.stopGame]
        exact List.mem_append.1 hv
      · rename_i hc
        simp only [hc]
        exact List.mem_append.1 hv
    rcases hv' with h | h
    · rw [hu.2.2.1] at h
      obtain ⟨b, hb, rfl⟩ := List.mem_map.1 h
      exact ⟨b.ref, List.mem_map_of_mem _ hb, Or.inl rfl⟩
    · obtain ⟨b, hb, rfl⟩ := checkCollision_visits _ _ v h
      refine ⟨b.ref, ?_, Or.inr rfl⟩
      rw [← hboxes]
      exact List.mem_map_of_mem _ hb
  · intro r hr
    rw [← hu.2.2.2]
    unfold GameManager._animate at hr
    simp only at hr
    split at hr
    · simp only [List.mem_append, List.mem_singleton] at hr
      rcases hr with (h | h) | h
      · exact h
      · exact absurd h (hsu r)
      · cases h
    · simp only [List.mem_append, List.mem_cons, List.mem_singleton] at hr
      rcases hr with (h | h) | h
      · exact h
      · exact absurd h (hsu r)
      · rcases h with h | h | h
        · cases h
        · cases h
        · simp at h

end FirstGame

namespace FirstGame

open Three

theorem Conveyor.createOrRemove_wellFormed (c : Conveyor) (f : Frame) (hwf : c.WellFormed) :
    (∀ b ∈ (c.createOrRemove f).1.boxes, b.ref < (c.createOrRemove f).1.created) ∧
      ((c.createOrRemove f).1.boxes.map Box.ref).Nodup := by
  obtain ⟨hlt, hnd⟩ := hwf
  rcases c.createOrRemove_cases f with ⟨z, hb, hc, _⟩ | ⟨first, rest, hfr, hb, hc, _⟩ | ⟨hb, hc, _⟩
  · rw [hb, hc]
    refine ⟨fun b hb' => ?_, ?_⟩
    · rcases List.mem_append.1 hb' with h | h
      · exact Nat.lt_succ_of_lt (hlt b h)
      · simp only [List.mem_singleton] at h
        rw [h]
        exact Nat.lt_succ_self _
    · rw [List.map_append, List.nodup_append]
      refine ⟨hnd, by simp, ?_⟩
      intro r hr1 hr2
      simp only [List.map_cons, List.map_nil, List.mem_singleton, Box.new] at hr2
      obtain ⟨b, hb', rfl⟩ := List.mem_map.1 hr1
      have := hlt b hb'
      omega
  · rw [hb, hc]
    rw [hfr] at hlt hnd
    refine ⟨fun b hb' => hlt b (List.mem_cons_of_mem first hb'), ?_⟩
    rw [List.map_cons] at hnd
    exact (List.nodup_cons.1 hnd).2
  · rw [hb, hc]
    exact ⟨hlt, hnd⟩

theorem GameManager.tick_wellFormed (g : GameManager) (f : Frame)
    (hwf : g.conveyor.WellFormed) : (g._animate f).game.conveyor.WellFormed := by
  obtain ⟨hrefs, hcreated, _, _⟩ := g.animate_parts f
  obtain ⟨hlt, hnd⟩ := g.conveyor.createOrRemove_wellFormed f hwf
  refine ⟨fun b hb => ?_, ?_⟩
  · have hm : b.ref ∈ (g._animate f).game.conveyor.boxes.map Box.ref :=
      List.mem_map_of_mem _ hb
    rw [hrefs] at hm
    obtain ⟨b0, hb0, hb0r⟩ := List.mem_map.1 hm
    rw [hcreated, ← hb0r]
    exact hlt b0 hb0
  · rw [hrefs]
    exact hnd

theorem GameManager.Reachable.wellFormed (g : GameManager) (hg : g.Reachable) :
    g.conveyor.WellFormed := by
  induction hg with
  | start => exact ⟨fun b hb => by simp [GameManager.new, Conveyor.new] at hb,
      by simp [GameManager.new, Conveyor.new]⟩
  | keys g d a _ ih => exact ih
  | tick g f _ _ ih => exact g.tick_wellFormed f ih

theorem GameManager.animate_gone (g : GameManager) (f : Frame) (r : Nat)
    (hlt : r < g.conveyor.created) (hgone : ∀ b ∈ g.conveyor.boxes, b.ref ≠ r) :
    (∀ v ∈ (g._animate f).visits, v.isOn .box r = false) ∧
    r < (g._animate f).game.conveyor.created ∧
    ∀ b ∈ (g._animate f).game.conveyor.boxes, b.ref ≠ r := by
  obtain ⟨hrefs, hcreated, hvisits, _⟩ := g.animate_parts f
  have hstep : r < (g.conveyor.createOrRemove f).1.created ∧
      ∀ x ∈ (g.conveyor.createOrRemove f).1.boxes.map Box.ref, x ≠ r := by
    rcases g.conveyor.createOrRemove_cases f with
      ⟨z, hb, hc, _⟩ | ⟨first, rest, hfr, hb, hc, _⟩ | ⟨hb, hc, _⟩
    · rw [hb, hc]
      refine ⟨Nat.lt_succ_of_lt hlt, fun x hx => ?_⟩
      simp only [List.map_append, List.map_cons, List.map_nil, List.mem_append,
        List.mem_singleton, Box.new] at hx
      rcases hx with hx | hx
      · obtain ⟨b, hb', rfl⟩ := List.mem_map.1 hx
        exact hgone b hb'
      · omega
    · rw [hb, hc]
      refine ⟨hlt, fun x hx => ?_⟩
      obtain ⟨b, hb', rfl⟩ := List.mem_map.1 hx
      exact hgone b (by rw [hfr]; exact List.mem_cons_of_mem first hb')
    · rw [hb, hc]
      refine ⟨hlt, fun x hx => ?_⟩
      obtain ⟨b, hb', rfl⟩ := List.mem_map.1 hx
      exact hgone b hb'
  refine ⟨fun v hv => ?_, by rw [hcreated]; exact hstep.1, fun b hb => ?_⟩
  · obtain ⟨x, hx, hv' | hv'⟩ := hvisits v hv
    · rw [hv']
      simp [Visit.isOn, hstep.2 x hx]
    · rw [hv']
      simp [Visit.isOn, hstep.2 x hx]
  · apply hstep.2
    rw [← hrefs]
    exact List.mem_map_of_mem _ hb

theorem GameManager.run_gone (fs : List Frame) (r : Nat) : ∀ g : GameManager,
    r < g.conveyor.created → (∀ b ∈ g.conveyor.boxes, b.ref ≠ r) →
    ∀ t ∈ g.run fs, ∀ v ∈ t.visits, v.isOn .box r = false := by
  induction fs with
  | nil => intro g _ _ t ht; simp [GameManager.run] at ht
  | cons f rest ih =>
    intro g hlt hgone t ht
    obtain ⟨hv, hlt', hgone'⟩ := g.animate_gone f r hlt hgone
    unfold GameManager.run at ht
    simp only at ht
    split at ht
    · rcases List.mem_cons.1 ht with rfl | ht
      · exact hv
      · exact ih _ hlt' hgone' t ht
    · simp only [List.mem_singleton] at ht
      rw [ht]
      exact hv

theorem GameManager.box_removed_then_gone (g : GameManager) (f : Frame)
    (hwf : g.conveyor.WellFormed) (r : Nat)
    (hr : Effect.geometryDispose r ∈ (g._animate f).effects) :
    r < (g._animate f).game.conveyor.created ∧
      ∀ b ∈ (g._animate f).game.conveyor.boxes, b.ref ≠ r := by
  obtain ⟨hrefs, hcreated, _, heff⟩ := g.animate_parts f
  obtain ⟨hlt, hnd⟩ := hwf
  have hr' := heff r hr
  rcases g.conveyor.createOrRemove_cases f with
    ⟨z, _, _, he⟩ | ⟨first, rest, hfr, hb, hc, he⟩ | ⟨_, _, he⟩
  · rw [he] at hr'
    simp at hr'
  · rw [he] at hr'
    simp only [List.mem_cons, Effect.geometryDispose.injEq, List.mem_singleton,
      List.not_mem_nil, or_false] at hr'
    have hrf : r = first.ref := by
      rcases hr' with h | h
      · exact h
      · cases h
    rw [hfr, List.map_cons] at hnd
    refine ⟨?_, fun b hb' heq => ?_⟩
    · rw [hcreated, hc, hrf]
      exact hlt first (by rw [hfr]; exact List.mem_cons_self first rest)
    · have hm : b.ref ∈ (g._animate f).game.conveyor.boxes.map Box.ref :=
        List.mem_map_of_mem _ hb'
      rw [hrefs, hb, heq, hrf] at hm
      exact (List.nodup_cons.1 hnd).1 hm
  · rw [he] at hr'
    simp at hr'

end FirstGame

namespace SecondGame

open Three

theorem diamondPass_visits (pb : Box3) (ds : List Diamond) : ∀ count : Int,
    ∀ d ∈ ds, Visit.update .diamond d.ref ∈ (diamondPass pb ds count).visits ∧
      Visit.collision .diamond d.ref ∈ (diamondPass pb ds count).visits := by
  induction ds with
  | nil => intro count d hd; simp at hd
  | cons d0 rest ih =>
    intro count d hd
    unfold diamondPass
    simp only
    split
    · rcases List.mem_cons.1 hd with rfl | h
      · simp
      · have := ih (count - 1) d h
        simp [this.1, this.2]
    · rcases List.mem_cons.1 hd with rfl | h
      · simp
      · have := ih count d h
        simp [this.1, this.2]

theorem Game.animate_scheduled_visits (g : Game) (f : Frame)
    (hs : (g._animate f).outcome = .scheduled) :
    ∀ v ∈ (diamondPass f.playerBox g.diamonds g.count).visits, v ∈ (g._animate f).visits := by
  unfold Game._animate at hs ⊢
  simp only [Player.update] at hs ⊢
  by_cases h0 : g.count = 0
  · rw [if_pos h0] at hs
    cases hs
  · rw [if_neg h0] at hs ⊢
    split at hs
    · cases hs
    · rename_i hhit
      rw [if_neg hhit]
      intro v hv
      exact List.mem_append_right _ hv

theorem Game.animate_scheduled_effects (g : Game) (f : Frame)
    (hs : (g._animate f).outcome = .scheduled) :
    (g._animate f).effects =
      (diamondPass f.playerBox g.diamonds g.count).effects ++
        [Effect.render, Effect.requestAnimationFrame] := by
  unfold Game._animate at hs ⊢
  simp only [Player.update] at hs ⊢
  by_cases h0 : g.count = 0
  · rw [if_pos h0] at hs
    cases hs
  · rw [if_neg h0] at hs ⊢
    split at hs
    · cases hs
    · rename_i hhit
      rw [if_neg hhit]

theorem diamondPass_effects (pb : Box3) (ds : List Diamond) : ∀ count : Int,
    ∀ e ∈ (diamondPass pb ds count).effects,
      ∃ d ∈ ds, d.box3.intersectsBox pb = true ∧ e ∈ (Scene.remove d).2 := by
  induction ds with
  | nil => intro count e he; simp [diamondPass] at he
  | cons d0 rest ih =>
    intro count e he
    unfold diamondPass at he
    simp only [Diamond.update, Diamond.checkCollision] at he
    by_cases h : d0.box3.intersectsBox pb = true
    · simp only [h, if_true, List.mem_append] at he
      rcases he with he | he
      · exact ⟨d0, List.mem_cons_self d0 rest, h, he⟩
      · obtain ⟨d, hd, hi, hm⟩ := ih (count - 1) e he
        exact ⟨d, List.mem_cons_of_mem d0 hd, hi, hm⟩
    · simp only [h, if_false, Bool.false_eq_true] at he
      obtain ⟨d, hd, hi, hm⟩ := ih count e he
      exact ⟨d, List.mem_cons_of_mem d0 hd, hi, hm⟩

theorem diamondPass_untouched (pb : Box3) (d : Diamond) (count : Int)
    (h : d.box3.intersectsBox pb = false) :
    diamondPass pb [d] count =
      { diamonds := [d], count := count, effects := [],
        visits := [Visit.update .diamond d.ref, Visit.collision .diamond d.ref] } := by
  simp [diamondPass, Diamond.update, Diamond.checkCollision, h]

theorem Scene.remove_ref (d d' : Diamond) (e : Effect) (h : e ∈ (Scene.remove d).2)
    (h' : e ∈ (Scene.remove d').2) : d.ref = d'.ref := by
  simp only [Scene.remove, List.mem_cons, List.mem_singleton, List.not_mem_nil, or_false] at h h'
  rcases h with rfl | rfl | rfl | rfl <;> simpa using h'

theorem Game.animate_removed_untouched (g : Game) (f : Frame) (hpb : f.playerBox.IsVolume)
    (hs : (g._animate f).outcome = .scheduled) (hnd : (g.diamonds.map Diamond.ref).Nodup)
    (d : Diamond) (hd : d ∈ g.diamonds) (hempty : d.box3 = Box3.new) :
    ∀ e ∈ (Scene.remove d).2, e ∉ (g._animate f).effects := by
  intro e he hmem
  rw [g.animate_scheduled_effects f hs, List.mem_append] at hmem
  rcases hmem with hmem | hmem
  · obtain ⟨d', hd', hi, hm⟩ := diamondPass_effects f.playerBox g.diamonds g.count e hmem
    have href := Scene.remove_ref d d' e he hm
    have heq : d = d' := List.inj_on_of_nodup_map hnd hd hd' href
    rw [← heq, hempty, (Box3.new_intersectsBox f.playerBox hpb).1] at hi
    exact Bool.false_ne_true hi
  · simp only [Scene.remove, List.mem_cons, List.mem_singleton, List.not_mem_nil, or_false] at he hmem
    rcases hmem with rfl | rfl <;> simp at he

end SecondGame

namespace FifthGame

open Three

theorem Chicken.frame_wellFormed (c : Chicken) (pb : Box3) (hpb : pb.IsVolume)
    (hwf : c.WellFormed) :
    ∃ c1 effects, c.frame pb = some (c1, effects) ∧ c1.WellFormed ∧
      (c.chicken = none → c1 = c ∧ effects = []) := by
  cases hc : c.chicken with
  | none =>
    have hbox := hwf hc
    have hu : c.update = c := by
      simp [Chicken.update, Chicken._calculateBox3, hc]
    refine ⟨c, [], ?_, hwf, fun _ => ⟨rfl, rfl⟩⟩
    simp [Chicken.frame, hu, Chicken.collision, hbox, (Box3.new_intersectsBox pb hpb).1]
  | some obj =>
    have huc := c.update_chicken
    unfold Chicken.frame Chicken.collision
    by_cases hi : c.update.box3.intersectsBox pb = true
    · rw [if_pos hi]
      simp only
      by_cases hd : c.update.delay + 1 > 10
      · rw [if_pos hd, huc.1, hc]
        exact ⟨_, _, rfl, fun _ => rfl, fun h => by cases h⟩
      · rw [if_neg hd]
        refine ⟨_, _, rfl, fun h => ?_, fun h => by cases h⟩
        have : c.update.chicken = none := h
        rw [huc.1, hc] at this
        cases this
    · rw [if_neg hi]
      refine ⟨_, _, rfl, fun h => ?_, fun h => by cases h⟩
      rw [huc.1, hc] at h
      cases h

theorem chickenPass_spec (pb : Box3) (hpb : pb.IsVolume) (cs : List Chicken) :
    ∀ i : Nat, (∀ c ∈ cs, c.WellFormed) →
      ∃ p, chickenPass pb cs i = some p ∧ p.chickens.length = cs.length ∧
        (∀ c ∈ p.chickens, c.WellFormed) ∧
        (∀ j, j < cs.length → Visit.update .chicken (i + j) ∈ p.visits ∧
          Visit.collision .chicken (i + j) ∈ p.visits) ∧
        (∀ j c, cs.get? j = some c → c.chicken = none → p.chickens.get? j = some c) := by
  induction cs with
  | nil =>
    intro i _
    exact ⟨_, rfl, rfl, fun c hc => by simp at hc, fun j hj => by simp at hj,
      fun j c hj => by simp at hj⟩
  | cons c0 rest ih =>
    intro i hwf
    obtain ⟨c1, eff, hframe, hwf1, hsame⟩ :=
      c0.frame_wellFormed pb hpb (hwf c0 (List.mem_cons_self c0 rest))
    obtain ⟨p, hp, hlen, hpwf, hvis, hstay⟩ :=
      ih (i + 1) (fun c hc => hwf c (List.mem_cons_of_mem c0 hc))
    let q : ChickenPass :=
      { chickens := c1 :: p.chickens
        effects := eff ++ p.effects
        visits := Visit.update .chicken i :: Visit.collision .chicken i :: p.visits }
    refine ⟨q, by simp only [chickenPass, hframe, hp, q], by simp [hlen, q], ?_, ?_, ?_⟩
    · intro c hc
      rcases List.mem_cons.1 hc with rfl | h
      · exact hwf1
      · exact hpwf c h
    · intro j hj
      cases j with
      | zero => simp [q]
      | succ k =>
        have := hvis k (by simpa using hj)
        have e : i + (k + 1) = i + 1 + k := by omega
        rw [e]
        simp [this.1, this.2, q]
    · intro j c hj hnone
      cases j with
      | zero =>
        simp only [List.get?_cons_zero, Option.some.injEq] at hj ⊢
        subst hj
        exact (hsame hnone).1
      | succ k =>
        simp only [List.get?_cons_succ] at hj ⊢
        exact hstay k c hj hnone

end FifthGame

namespace ThirdGame

open Three

theorem Game.animate_wellFormed (g : Game) (f : Frame) (hwf : g.WellFormed) :
    (g._animate f).1.WellFormed := by
  obtain ⟨hlt, hnb, hne⟩ := hwf
  have hproc := bulletPass_processed_ref f g.blocks g.magazine.items g.enemies
  have hkept := bulletPass_kept f g.blocks g.magazine.items g.enemies
  have hkr := bulletPass_kept_ref f g.blocks g.magazine.items g.enemies
  have heb := bulletPass_enemy_refs f g.blocks g.magazine.items g.enemies
  have hep := enemyPass_processed_ref f g.player.box3
    (bulletPass f g.blocks g.magazine.items g.enemies).enemies g.player
  have hek := enemyPass_kept f g.player.box3
    (bulletPass f g.blocks g.magazine.items g.enemies).enemies g.player
  have hold : ∀ x ∈ g.magazine.items.map Bullet.ref, x < g.created := by
    intro x hx
    obtain ⟨b, hb, rfl⟩ := List.mem_map.1 hx
    exact hlt b hb
  have hkeptnd : ((bulletPass f g.blocks g.magazine.items g.enemies).kept.map
      Bullet.ref).Nodup := by
    rw [hkept]
    refine List.Nodup.sublist ((List.filter_sublist _).map Bullet.ref) ?_
    rw [hproc]
    exact hnb
  have hekeptnd : ((enemyPass f g.player.box3
      (bulletPass f g.blocks g.magazine.items g.enemies).enemies g.player).kept.map
        Enemy.ref).Nodup := by
    rw [hek]
    refine List.Nodup.sublist ((List.filter_sublist _).map Enemy.ref) ?_
    rw [hep, heb]
    exact hne
  unfold Game._animate
  simp only
  by_cases h0 : g.enemies.length = 0
  · rw [if_pos h0]
    exact ⟨fun b hb => Nat.lt_succ_of_lt (hlt b hb), hnb, hne⟩
  · rw [if_neg h0]
    split
    · refine ⟨fun b hb => ?_, ?_, ?_⟩
      · exact Nat.lt_succ_of_lt (hold _ (by rw [← hproc]; exact List.mem_map_of_mem _ hb))
      · show ((bulletPass f g.blocks g.magazine.items g.enemies).processed.map Bullet.ref).Nodup
        rw [hproc]
        exact hnb
      · show ((enemyPass f g.player.box3
          (bulletPass f g.blocks g.magazine.items g.enemies).enemies g.player).processed.map
            Enemy.ref).Nodup
        rw [hep, heb]
        exact hne
    · simp only [Player.update, Magazine.setMagazine]
      split
      · refine ⟨fun b hb => ?_, ?_, hekeptnd⟩
        · simp only [Magazine.store, List.mem_append, List.mem_singleton] at hb
          rcases hb with hb | hb
          · have := hold _ (hkr b hb)
            show b.ref < g.created + 1 + 1
            omega
          · rw [hb]
            show g.created + 1 < g.created + 1 + 1
            omega
        · simp only [Magazine.store, List.map_append, List.map_cons, List.map_nil]
          rw [List.nodup_append]
          refine ⟨hkeptnd, by simp, ?_⟩
          intro x hx1 hx2
          simp only [List.mem_singleton, Bullet.new] at hx2
          obtain ⟨b, hb, rfl⟩ := List.mem_map.1 hx1
          have := hold _ (hkr b hb)
          omega
      · refine ⟨fun b hb => ?_, hkeptnd, hekeptnd⟩
        have := hold _ (hkr b hb)
        show b.ref < g.created + 1
        omega

end ThirdGame

namespace FifthGame

open Three

theorem tenthFrameChicken_frame :
    tenthFrameChicken.frame samplePlayerBox =
      some ({ chicken := none, box3 := Box3.new, delay := 11 },
        [Effect.makeEmpty 7, Effect.geometryDispose 8, Effect.materialDispose 8,
         Effect.sceneRemove 7]) := by
  have h := tenthFrameChicken.frame_removal
    { sampleModel with position := { x := 40, y := 1 / 2, z := 20 } } samplePlayerBox rfl
    (by decide)
    (by
      simp [tenthFrameChicken, Chicken.new, Chicken.update, Chicken._calculateBox3,
        samplePlayerBox, Player._calculateBox3, Box3.setFromCenterAndSize, Box3.intersectsBox,
        Vector3.add, Number.lt, sampleModel]
      norm_num)
  rw [h]
  rfl

/-- C12, as stated, fails for a chicken: the tick that removes the first chicken (its
eleventh frame of contact) leaves it in the array with `_chicken` set to `null`, and
the next tick calls its `update` and its `collision` again. -/
theorem removed_entity_counterexample :
    ∃ p1 p2, chickenPass samplePlayerBox [tenthFrameChicken] 0 = some p1 ∧
      Effect.sceneRemove 7 ∈ p1.effects ∧
      p1.chickens = [{ chicken := none, box3 := Box3.new, delay := 11 }] ∧
      chickenPass samplePlayerBox p1.chickens 0 = some p2 ∧
      p2.visits = [Visit.update .chicken 0, Visit.collision .chicken 0] := by
  refine ⟨{ chickens := [{ chicken := none, box3 := Box3.new, delay := 11 }]
            effects := [Effect.makeEmpty 7, Effect.geometryDispose 8, Effect.materialDispose 8,
              Effect.sceneRemove 7]
            visits := [Visit.update .chicken 0, Visit.collision .chicken 0] },
    { chickens := [{ chicken := none, box3 := Box3.new, delay := 11 }]
      effects := []
      visits := [Visit.update .chicken 0, Visit.collision .chicken 0] }, ?_, ?_, rfl, ?_, rfl⟩
  · simp [chickenPass, tenthFrameChicken_frame]
  · simp
  · have hpb : samplePlayerBox.IsVolume := Or.inl ⟨_, _, _, _, _, _, rfl⟩
    have hf : ({ chicken := none, box3 := Box3.new, delay := 11 } : Chicken).frame
        samplePlayerBox = some ({ chicken := none, box3 := Box3.new, delay := 11 }, []) := by
      simp [Chicken.frame, Chicken.update, Chicken._calculateBox3, Chicken.collision,
        (Box3.new_intersectsBox samplePlayerBox hpb).1]
    simp [chickenPass, hf]

end FifthGame

open Three

/-- C12, amended. In the first and in the third game a removed entity is dropped from
its list: once a tick of the first game has removed a conveyor box, or a tick of the
third game that schedules the next one has removed a bullet or an enemy, no later tick
calls the update or the collision check of that entity. In the second and in the fifth
game a removed diamond or chicken stays in its list: a later tick that reaches the
diamond loop, and every later tick of the fifth game, still calls its update and its
collision check; the check finds the emptied volume, gives no hit, makes no library
call and leaves the entity as it is: the step of the loop on a removed diamond and the
frame of a removed chicken have an empty trace, and with diamonds of distinct meshes no
call of the tick is one of the calls that remove that diamond. -/
theorem removed_entity_visits :
    (∀ (g : FirstGame.GameManager) (f : FirstGame.Frame) (r : Nat), g.Reachable →
      Effect.geometryDispose r ∈ (g._animate f).effects →
      ∀ fs, ∀ t ∈ (g._animate f).game.run fs, ∀ v ∈ t.visits, v.isOn .box r = false) ∧
    (∀ (g : ThirdGame.Game) (f : ThirdGame.Frame), g.WellFormed →
      Effect.requestAnimationFrame ∈ (g._animate f).2 →
      (g._animate f).1.WellFormed ∧
      (∀ r ∈ g.removedBullets f, ∀ fs, ∀ vs ∈ (g._animate f).1.runVisits fs,
        ∀ v ∈ vs, v.isOn .bullet r = false) ∧
      (∀ r ∈ g.removedEnemies f, ∀ fs, ∀ vs ∈ (g._animate f).1.runVisits fs,
        ∀ v ∈ vs, v.isOn .enemy r = false)) ∧
    (∀ (g : SecondGame.Game) (f : SecondGame.Frame), f.playerBox.IsVolume →
      (g._animate f).outcome = .scheduled →
      ∀ d ∈ g.diamonds, d.box3 = Box3.new →
        Visit.update .diamond d.ref ∈ (g._animate f).visits ∧
        Visit.collision .diamond d.ref ∈ (g._animate f).visits ∧
        d.checkCollision f.playerBox = false ∧
        d ∈ (g._animate f).game.diamonds ∧
        (∀ count : Int, SecondGame.diamondPass f.playerBox [d] count =
          { diamonds := [d], count := count, effects := [],
            visits := [Visit.update .diamond d.ref, Visit.collision .diamond d.ref] }) ∧
        ((g.diamonds.map SecondGame.Diamond.ref).Nodup →
          ∀ e ∈ (SecondGame.Scene.remove d).2, e ∉ (g._animate f).effects)) ∧
    (∀ (cs : List FifthGame.Chicken) (playerBox : Box3), playerBox.IsVolume →
      (∀ c ∈ cs, c.WellFormed) →
      ∃ p, FifthGame.chickenPass playerBox cs 0 = some p ∧
        (∀ c ∈ p.chickens, c.WellFormed) ∧
        ∀ j c, cs.get? j = some c → c.chicken = none →
          Visit.update .chicken j ∈ p.visits ∧ Visit.collision .chicken j ∈ p.visits ∧
          p.chickens.get? j = some c ∧ c.frame playerBox = some (c, [])) := by
  refine ⟨?_, ?_, ?_, ?_⟩
  · intro g f r hg hr fs
    obtain ⟨hlt, hgone⟩ := g.box_removed_then_gone f (FirstGame.GameManager.Reachable.wellFormed g hg) r hr
    exact FirstGame.GameManager.run_gone fs r _ hlt hgone
  · intro g f hwf hcont
    obtain ⟨hb, he⟩ := g.removed_then_gone f hwf hcont
    refine ⟨g.animate_wellFormed f hwf, fun r hr fs => ?_, fun r hr fs => ?_⟩
    · exact ThirdGame.Game.runVisits_bullet_gone fs r _ (hb r hr).1 (hb r hr).2
    · exact ThirdGame.Game.runVisits_enemy_gone fs r _ (he r hr)
  · intro g f hpb hs d hd hempty
    have hv := SecondGame.diamondPass_visits f.playerBox g.diamonds g.count d hd
    have hin := g.animate_scheduled_visits f hs
    have hno : d.box3.intersectsBox f.playerBox = false := by
      rw [hempty]
      exact (Box3.new_intersectsBox f.playerBox hpb).1
    refine ⟨hin _ hv.1, hin _ hv.2, by simp [SecondGame.Diamond.checkCollision, hno], ?_,
      fun count => SecondGame.diamondPass_untouched f.playerBox d count hno,
      fun hnd => g.animate_removed_untouched f hpb hs hnd d hd hempty⟩
    rcases g.animate_cases f with ⟨ho, _⟩ | ⟨ho, _⟩ | ⟨_, _, hds, _⟩
    · rw [ho] at hs
      cases hs
    · rw [ho] at hs
      cases hs
    · rw [hds, (SecondGame.diamondPass_spec f.playerBox hpb g.diamonds g.count).1]
      refine List.mem_map.2 ⟨d, hd, ?_⟩
      simp [hno]
  · intro cs pb hpb hwf
    obtain ⟨p, hp, hlen, hpwf, hvis, hstay⟩ := FifthGame.chickenPass_spec pb hpb cs 0 hwf
    refine ⟨p, hp, hpwf, fun j c hj hnone => ?_⟩
    have hjlt : j < cs.length := by
      rcases Nat.lt_or_ge j cs.length with h | h
      · exact h
      · rw [List.get?_eq_none.2 h] at hj
        cases hj
    have := hvis j hjlt
    rw [Nat.zero_add] at this
    have hc : c ∈ cs := List.get?_mem hj
    obtain ⟨c1, eff, hframe, _, hsame⟩ := c.frame_wellFormed pb hpb (hwf c hc)
    obtain ⟨h1, h2⟩ := hsame hnone
    rw [h1, h2] at hframe
    exact ⟨this.1, this.2, hstay j c hj hnone, hframe⟩

theorem removed_entity_visits_witness :
    (Effect.geometryDispose 0 ∈
        ((FirstGame.GameManager.advance FirstGame.GameManager.new
          (List.replicate 10 FirstGame.slowFrame)).1._animate FirstGame.slowFrame).effects ∧
      ∀ t ∈ ((FirstGame.GameManager.advance FirstGame.GameManager.new
          (List.replicate 10 FirstGame.slowFrame)).1._animate FirstGame.slowFrame).game.run
            [FirstGame.slowFrame, FirstGame.slowFrame],
        ∀ v ∈ t.visits, v.isOn .box 0 = false) ∧
    (∀ vs ∈ ((ThirdGame.sampleGame false)._animate ThirdGame.sampleFrame).1.runVisits
        [ThirdGame.sampleFrame, ThirdGame.sampleFrame],
      ∀ v ∈ vs, v.isOn .bullet 11 = false) ∧
    (Visit.update .diamond 0 ∈ (SecondGame.collectedGame._animate SecondGame.touchFrame).visits ∧
      Visit.collision .diamond 0 ∈
        (SecondGame.collectedGame._animate SecondGame.touchFrame).visits ∧
      ∀ e ∈ [Effect.makeEmpty 0, Effect.geometryDispose 0, Effect.materialDispose 0,
          Effect.sceneRemove 0],
        e ∉ (SecondGame.collectedGame._animate SecondGame.touchFrame).effects) ∧
    ∃ p, FifthGame.chickenPass FifthGame.samplePlayerBox
        [{ chicken := none, box3 := Box3.new, delay := 11 }] 0 = some p ∧
      Visit.update .chicken 0 ∈ p.visits ∧ Visit.collision .chicken 0 ∈ p.visits ∧
      p.chickens.get? 0 = some { chicken := none, box3 := Box3.new, delay := 11 } ∧
      ({ chicken := none, box3 := Box3.new, delay := 11 } : FifthGame.Chicken).frame
        FifthGame.samplePlayerBox = some ({ chicken := none, box3 := Box3.new, delay := 11 }, []) := by
  refine ⟨⟨by decide!, ?_⟩, ?_, ?_, ?_⟩
  · exact removed_entity_visits.1 _ FirstGame.slowFrame 0
      (FirstGame.GameManager.Reachable.advance _ _ FirstGame.GameManager.Reachable.start
        (by decide!)) (by decide!) [FirstGame.slowFrame, FirstGame.slowFrame]
  · exact (removed_entity_visits.2.1 (ThirdGame.sampleGame false) ThirdGame.sampleFrame
      ⟨by decide, by decide, by decide⟩ (by decide)).2.1 11 (by decide)
      [ThirdGame.sampleFrame, ThirdGame.sampleFrame]
  · have h := removed_entity_visits.2.2.1 SecondGame.collectedGame SecondGame.touchFrame
      (Or.inl ⟨_, _, _, _, _, _, rfl⟩) (by decide!) { ref := 0, box3 := Box3.new } (by decide!) rfl
    exact ⟨h.1, h.2.1, h.2.2.2.2.2 (by decide!)⟩
  · obtain ⟨p, hp, _, h⟩ := removed_entity_visits.2.2.2
      [{ chicken := none, box3 := Box3.new, delay := 11 }] FifthGame.samplePlayerBox
      (Or.inl ⟨_, _, _, _, _, _, rfl⟩) (by
        intro c hc
        simp only [List.mem_singleton] at hc
        subst hc
        intro _
        rfl)
    exact ⟨p, hp, h 0 _ rfl rfl⟩

/-! ## Properties of the player's moves and of the backward probe -/

namespace FifthGame

open Three

theorem Player.transform_eq (q : Player) (input : Input) (dt : ℚ) :
    q._transform input dt =
      (if input.forward = true ∧ q.fBump = false then [Motion.translateZ (10 * dt)] else []) ++
      (if input.backward = true ∧ q.bBump = false then [Motion.translateZ (-5 * dt)] else []) ++
      (if input.right = true then
        [Motion.rotateY (-75 * dt), Motion.applyAxisAngle .forward (-75 * dt),
         Motion.applyAxisAngle .backward (-75 * dt)] else []) ++
      (if input.left = true then
        [Motion.rotateY (75 * dt), Motion.applyAxisAngle .forward (75 * dt),
         Motion.applyAxisAngle .backward (75 * dt)] else []) := by
  obtain ⟨fBump, bBump⟩ := q
  obtain ⟨forward, backward, right, left⟩ := input
  cases forward <;> cases backward <;> cases right <;> cases left <;>
    cases fBump <;> cases bBump <;> simp [Player._transform]

/-- C21. In the frame after a frame whose `collision` call left the flags, with the
keys `input` held, `_transform` makes exactly these calls in this order: the forward
move `translateZ(10 * dt)` when forward is held and the forward flag is false, the
backward move `translateZ(-5 * dt)` when backward is held and the backward flag is
false, the three turning calls to the right when right is held and the three turning
calls to the left when left is held, whatever the flags. With only a blocked direction
held it makes no call at all, and with turning keys held besides a blocked direction no
call that changes the position. -/
theorem movement_gating (p : Player) (input0 input : Input) (dt0 dt : ℚ)
    (fCollide bCollide : List Intersection) :
    (((p.frame input0 dt0 fCollide bCollide).1.frame input dt [] []).2 =
      (if input.forward = true ∧ (p.collision fCollide bCollide).fBump = false then
        [Motion.translateZ (10 * dt)] else []) ++
      (if input.backward = true ∧ (p.collision fCollide bCollide).bBump = false then
        [Motion.translateZ (-5 * dt)] else []) ++
      (if input.right = true then
        [Motion.rotateY (-75 * dt), Motion.applyAxisAngle .forward (-75 * dt),
         Motion.applyAxisAngle .backward (-75 * dt)] else []) ++
      (if input.left = true then
        [Motion.rotateY (75 * dt), Motion.applyAxisAngle .forward (75 * dt),
         Motion.applyAxisAngle .backward (75 * dt)] else [])) ∧
    (∀ q : Player, q.fBump = true →
      q._transform { forward := true, backward := false, right := false, left := false } dt
        = []) ∧
    (∀ q : Player, q.bBump = true →
      q._transform { forward := false, backward := true, right := false, left := false } dt
        = []) ∧
    (∀ (q : Player) (right left : Bool), q.fBump = true →
      ∀ m ∈ q._transform { forward := true, backward := false, right := right, left := left } dt,
        m.moves = false) ∧
    (∀ (q : Player) (right left : Bool), q.bBump = true →
      ∀ m ∈ q._transform { forward := false, backward := true, right := right, left := left } dt,
        m.moves = false) := by
  refine ⟨?_, ?_, ?_, ?_, ?_⟩
  · exact Player.transform_eq _ _ _
  · intro q hq
    simp [Player._transform, hq]
  · intro q hq
    simp [Player._transform, hq]
  · intro q right left hq m hm
    cases right <;> cases left <;> simp [Player._transform, hq] at hm <;>
      (try rcases hm with rfl | rfl | rfl | rfl | rfl | rfl) <;>
      rfl
  · intro q right left hq m hm
    cases right <;> cases left <;> simp [Player._transform, hq] at hm <;>
      (try rcases hm with rfl | rfl | rfl | rfl | rfl | rfl) <;>
      rfl

theorem movement_gating_witness :
    ({ fBump := true, bBump := false } : Player)._transform
      { forward := true, backward := false, right := false, left := false } (1 / 60) = [] :=
  (movement_gating { fBump := false, bBump := false }
    { forward := false, backward := false, right := false, left := false }
    { forward := false, backward := false, right := false, left := false } (1 / 60) (1 / 60)
    [] []).2.1 { fBump := true, bBump := false } rfl

theorem Player.bLoop_eq (hits : List Intersection) : ∀ flag : Bool,
    Player.bLoop flag hits = (!hits.isEmpty || flag) := by
  induction hits with
  | nil => intro flag; simp [Player.bLoop]
  | cons h rest ih =>
    intro flag
    unfold Player.bLoop
    rw [ih]
    simp

/-- C22, as stated, fails: a backward hit at distance 9/5, beyond the threshold 3/2 and
within the reach 2 of the ray, leaves a set backward flag set. -/
theorem backward_probe_counterexample :
    (∀ b ∈ [({ distance := 9 / 5 } : Intersection)], ¬ b.distance < 3 / 2) ∧
    (({ fBump := false, bBump := true } : Player).collision [] [{ distance := 9 / 5 }]).bBump
      = true := by
  constructor
  · intro b hb
    simp at hb
    subst hb
    norm_num
  · simp [Player.collision, Player.bLoop]

/-- C22, amended. After `collision` the backward flag is set when some backward hit
lies at a distance below 3/2, and it is cleared when the backward probe reports no hit
at all. -/
theorem backward_probe (p : Player) (fCollide bCollide : List Intersection) :
    ((∃ b ∈ bCollide, b.distance < 3 / 2) → (p.collision fCollide bCollide).bBump = true) ∧
    (bCollide = [] → (p.collision fCollide bCollide).bBump = false) := by
  simp only [Player.collision, Player.bLoop_eq]
  refine ⟨fun h => ?_, fun h => ?_⟩
  · obtain ⟨b, hb, _⟩ := h
    cases bCollide with
    | nil => simp at hb
    | cons h rest => simp
  · subst h
    cases hp : p.bBump <;> simp [hp]

theorem backward_probe_witness :
    (({ fBump := false, bBump := false } : Player).collision [] [{ distance := 1 }]).bBump
      = true :=
  (backward_probe { fBump := false, bBump := false } [] [{ distance := 1 }]).1
    ⟨{ distance := 1 }, by simp, by norm_num⟩

end FifthGame

/-! ## Properties of the chicken's contact counter -/

namespace FifthGame

open Three

theorem Chicken.frame_apart (c : Chicken) (box : Box3)
    (hbox : c.update.box3.intersectsBox box = false) :
    c.frame box = some (c.update, []) := by
  unfold Chicken.frame Chicken.collision
  rw [hbox]
  rfl

theorem Chicken.contacts_cons (c : Chicken) (box : Box3) (rest : List Box3) :
    c.contacts (box :: rest) =
      (if c.update.box3.intersectsBox box then 1 else 0) + c.contacts rest := by
  unfold Chicken.contacts
  rw [List.filter_cons]
  split
  · rw [List.length_cons]
    omega
  · omega

theorem Chicken.contacts_congr (c c' : Chicken) (h : c'.update.box3 = c.update.box3)
    (boxes : List Box3) : c'.contacts boxes = c.contacts boxes := by
  unfold Chicken.contacts
  rw [h]

theorem Chicken.update_update (c : Chicken) (obj : Object3D) (h : c.chicken = some obj) :
    c.update.chicken = some obj ∧ c.update.update.box3 = c.update.box3 :=
  ⟨by rw [c.update_chicken.1, h],
    Chicken.update_box3 c c.update obj h (by rw [c.update_chicken.1, h])⟩

theorem Chicken.frames_counting (boxes : List Box3) : ∀ (c : Chicken) (obj : Object3D),
    c.chicken = some obj → c.delay + c.contacts boxes ≤ 10 →
    ∃ c', c.frames boxes = some (c', List.replicate boxes.length []) ∧
      c'.chicken = some obj ∧ c'.delay = c.delay + c.contacts boxes := by
  induction boxes with
  | nil =>
    intro c obj hobj _
    exact ⟨c, rfl, hobj, by simp [Chicken.contacts]⟩
  | cons box rest ih =>
    intro c obj hobj hdelay
    rw [Chicken.contacts_cons] at hdelay ⊢
    cases hbox : c.update.box3.intersectsBox box with
    | true =>
      simp only [hbox, if_true, Nat.cast_add, Nat.cast_one] at hdelay ⊢
      have hstep := c.frame_waiting box (by omega) hbox
      have hobj1 : ({ c.update with delay := c.delay + 1 } : Chicken).chicken = some obj := by
        show c.update.chicken = some obj
        rw [c.update_chicken.1, hobj]
      have hsame := Chicken.contacts_congr c { c.update with delay := c.delay + 1 }
        (Chicken.update_box3 c _ obj hobj hobj1) rest
      obtain ⟨c', hc', hch, hd⟩ := ih { c.update with delay := c.delay + 1 } obj hobj1
        (by rw [hsame]; show c.delay + 1 + (c.contacts rest : Int) ≤ 10; omega)
      refine ⟨c', ?_, hch, ?_⟩
      · simp only [Chicken.frames, hstep, hc', List.length_cons, List.replicate_succ]
      · rw [hd, hsame]
        show c.delay + 1 + (c.contacts rest : Int) = c.delay + (1 + (c.contacts rest : Int))
        ring
    | false =>
      simp only [hbox, Bool.false_eq_true, if_false, Nat.cast_add, Nat.cast_zero,
        zero_add] at hdelay ⊢
      have hstep := c.frame_apart box hbox
      obtain ⟨hobj1, hbox1⟩ := c.update_update obj hobj
      have hsame := Chicken.contacts_congr c c.update hbox1 rest
      obtain ⟨c', hc', hch, hd⟩ := ih c.update obj hobj1
        (by rw [hsame, c.update_chicken.2]; exact hdelay)
      refine ⟨c', ?_, hch, ?_⟩
      · simp only [Chicken.frames, hstep, hc', List.length_cons, List.replicate_succ]
      · rw [hd, hsame, c.update_chicken.2]

theorem Chicken.frames_eleventh (c : Chicken) (obj : Object3D) (earlier : List Box3)
    (box : Box3) (hobj : c.chicken = some obj) (hcount : c.delay + c.contacts earlier = 10)
    (hbox : c.update.box3.intersectsBox box = true) :
    ∃ c', c.frames (earlier ++ [box]) =
        some (c', List.replicate earlier.length [] ++
          [[Effect.makeEmpty obj.ref] ++ Chicken.disposeNodes obj.nodes ++
            [Effect.sceneRemove obj.ref]]) ∧
      c'.chicken = none ∧ c'.box3 = Box3.new := by
  obtain ⟨c1, hc1, hch1, hd1⟩ := Chicken.frames_counting earlier c obj hobj (le_of_eq hcount)
  have hbox1 : c1.update.box3.intersectsBox box = true := by
    rw [Chicken.update_box3 c c1 obj hobj hch1]
    exact hbox
  have hrem := c1.frame_removal obj box hch1 (by rw [hd1, hcount]; norm_num) hbox1
  refine ⟨{ c1.update with delay := c1.delay + 1, box3 := Box3.new, chicken := none },
    ?_, rfl, rfl⟩
  refine Chicken.frames_append _ _ c1 _ _ _ _ hc1 ?_
  simp only [Chicken.frames, hrem]

theorem sampleContact :
    (Chicken.new sampleModel 40 20).update.box3.intersectsBox samplePlayerBox = true ∧
    (Chicken.new sampleModel 40 20).update.box3.intersectsBox (cube 0 1) = false := by
  constructor
  · simp [Chicken.new, Chicken.update, Chicken._calculateBox3, samplePlayerBox,
      Player._calculateBox3, Box3.setFromCenterAndSize, Box3.intersectsBox, Vector3.add,
      Number.lt, sampleModel]
    norm_num
  · simp [Chicken.new, Chicken.update, Chicken._calculateBox3, cube,
      Box3.setFromCenterAndSize, Box3.intersectsBox, Vector3.add,
      Number.lt, sampleModel]
    norm_num

theorem sampleContact_count :
    (Chicken.new sampleModel 40 20).contacts (List.replicate 10 samplePlayerBox ++ [cube 0 1])
      = 10 := by
  unfold Chicken.contacts
  rw [List.filter_append, List.filter_replicate, sampleContact.1]
  simp [sampleContact.2]

/-- C23, as stated, fails: the first chicken is removed in the twelfth frame of
`interruptedContact`, although in the frame directly before it the player's volume did
not overlap the chicken's. -/
theorem chicken_contact_counterexample :
    (Chicken.new sampleModel 40 20).update.box3.intersectsBox (cube 0 1) = false ∧
    interruptedContact.get? 10 = some (cube 0 1) ∧
    ∃ c, (Chicken.new sampleModel 40 20).frames interruptedContact =
        some (c, List.replicate 11 [] ++
          [[Effect.makeEmpty sampleModel.ref] ++ Chicken.disposeNodes sampleModel.nodes ++
            [Effect.sceneRemove sampleModel.ref]]) ∧
      c.chicken = none := by
  refine ⟨sampleContact.2, rfl, ?_⟩
  obtain ⟨c, hc, hch, _⟩ := Chicken.frames_eleventh (Chicken.new sampleModel 40 20) _
    (List.replicate 10 samplePlayerBox ++ [cube 0 1]) samplePlayerBox rfl
    (by rw [sampleContact_count]; rfl) sampleContact.1
  exact ⟨c, hc, hch⟩

/-- C23, amended. The debounce counts the frames of contact since the chicken was
created, consecutive or not. As long as the chicken's volume has overlapped the
player's in at most 10 of the frames so far, no frame has made a call, the chicken is
kept and the counter equals the number of overlapping frames; frames without overlap
leave the counter as it is. The frame of the eleventh overlap removes the chicken: it
empties the volume, disposes the meshes and detaches the chicken from the scene. -/
theorem chicken_contact_count (obj : Object3D) (posX posZ : ℚ) (boxes : List Box3) (box : Box3) :
    ((Chicken.new obj posX posZ).contacts boxes ≤ 10 →
      ∃ c, (Chicken.new obj posX posZ).frames boxes = some (c, List.replicate boxes.length []) ∧
        c.chicken = some { obj with position := { x := posX, y := 1 / 2, z := posZ } } ∧
        c.delay = (Chicken.new obj posX posZ).contacts boxes) ∧
    ((Chicken.new obj posX posZ).contacts boxes = 10 →
      (Chicken.new obj posX posZ).update.box3.intersectsBox box = true →
      ∃ c, (Chicken.new obj posX posZ).frames (boxes ++ [box]) =
          some (c, List.replicate boxes.length [] ++
            [[Effect.makeEmpty obj.ref] ++ Chicken.disposeNodes obj.nodes ++
              [Effect.sceneRemove obj.ref]]) ∧
        c.chicken = none ∧ c.box3 = Box3.new) := by
  have hnew : (Chicken.new obj posX posZ).chicken =
      some { obj with position := { x := posX, y := 1 / 2, z := posZ } } := rfl
  have hzero : (Chicken.new obj posX posZ).delay = 0 := rfl
  constructor
  · intro hle
    obtain ⟨c, hc, hch, hd⟩ := Chicken.frames_counting boxes _ _ hnew
      (by rw [hzero]; omega)
    exact ⟨c, hc, hch, by rw [hd, hzero]; simp⟩
  · intro hcount hbox
    exact Chicken.frames_eleventh _
      { obj with position := { x := posX, y := 1 / 2, z := posZ } } boxes box hnew
      (by rw [hzero, hcount]; rfl) hbox

theorem chicken_contact_count_witness :
    ∃ c, (Chicken.new sampleModel 40 20).frames
        ((List.replicate 10 samplePlayerBox ++ [cube 0 1]) ++ [samplePlayerBox]) =
          some (c, List.replicate (List.replicate 10 samplePlayerBox ++ [cube 0 1]).length [] ++
            [[Effect.makeEmpty sampleModel.ref] ++ Chicken.disposeNodes sampleModel.nodes ++
              [Effect.sceneRemove sampleModel.ref]]) ∧
        c.chicken = none ∧ c.box3 = Box3.new :=
  (chicken_contact_count sampleModel 40 20 (List.replicate 10 samplePlayerBox ++ [cube 0 1])
    samplePlayerBox).2 sampleContact_count sampleContact.1

end FifthGame

/-! ## Properties of the enemy loop -/

namespace ThirdGame

open Three

theorem enemyPass_kept_map (f : Frame) (pb : Box3) (es : List Enemy) :
    ∀ p : Player, (enemyPass f pb es p).kept =
      (es.map (fun e => e.update (f.enemyBox e.ref))).filter (fun e => decide (0 ≤ e.hp)) := by
  induction es with
  | nil => intro p; rfl
  | cons e rest ih =>
    intro p
    unfold enemyPass
    simp only
    split
    · rename_i h
      simp only [Enemy.getHP, Enemy.update] at h
      have h' : ¬ (0 ≤ e.hp) := by omega
      simp [ih, Enemy.update, h']
    · rename_i h
      simp only [Enemy.getHP, Enemy.update] at h
      have h' : 0 ≤ e.hp := by omega
      simp [ih, Enemy.update, h']

theorem Enemy.decreaseHP_iterate (k : Nat) : ∀ e : Enemy,
    (Enemy.decreaseHP^[k] e).hp = e.hp - k ∧ (Enemy.decreaseHP^[k] e).ref = e.ref := by
  induction k with
  | zero => intro e; simp
  | succ n ih =>
    intro e
    rw [Function.iterate_succ_apply, (ih e.decreaseHP).1, (ih e.decreaseHP).2]
    simp only [Enemy.decreaseHP, Nat.cast_add, Nat.cast_one]
    exact ⟨by ring, trivial⟩

/-- C24. In a tick that continues, the enemy array the tick leaves holds, in their
order, the enemies that the bullet loop leaves, each with its volume recomputed, whose
health is not below zero: an enemy of the bullet loop is kept exactly when its health
is at least zero. So an enemy with the health 9 of its creation that has since lost `k`
health points to bullet hits is kept when `k` is at most 9 and dropped when `k` is 10
or more. -/
theorem enemy_removal_threshold (g : Game) (f : Frame)
    (hcont : Effect.requestAnimationFrame ∈ (g._animate f).2) :
    (g._animate f).1.enemies =
      ((bulletPass f g.blocks g.magazine.items g.enemies).enemies.map
        (fun e => e.update (f.enemyBox e.ref))).filter (fun e => decide (0 ≤ e.hp)) ∧
    (∀ e ∈ (bulletPass f g.blocks g.magazine.items g.enemies).enemies,
      (e.update (f.enemyBox e.ref) ∈ (g._animate f).1.enemies ↔ ¬ e.getHP < 0)) ∧
    (∀ (k : Nat) (e0 : Enemy), e0.hp = (Enemy.new e0.ref).hp →
      Enemy.decreaseHP^[k] e0 ∈ (bulletPass f g.blocks g.magazine.items g.enemies).enemies →
      ((Enemy.decreaseHP^[k] e0).update (f.enemyBox e0.ref) ∈ (g._animate f).1.enemies ↔
        k ≤ 9)) := by
  have hkept := (g.animate_continuing f hcont).2
  rw [enemyPass_kept_map] at hkept
  have hmem : ∀ e ∈ (bulletPass f g.blocks g.magazine.items g.enemies).enemies,
      (e.update (f.enemyBox e.ref) ∈ (g._animate f).1.enemies ↔ ¬ e.getHP < 0) := by
    intro e he
    rw [hkept, List.mem_filter]
    constructor
    · intro h
      have h2 := h.2
      simp only [Enemy.update, decide_eq_true_eq] at h2
      simp only [Enemy.getHP]
      omega
    · intro h
      refine ⟨List.mem_map.2 ⟨e, he, rfl⟩, ?_⟩
      simp only [Enemy.getHP] at h
      simp only [Enemy.update, decide_eq_true_eq]
      omega
  refine ⟨hkept, hmem, ?_⟩
  intro k e0 h0 he
  have hit := Enemy.decreaseHP_iterate k e0
  have h := hmem _ he
  rw [hit.2] at h
  rw [h]
  simp only [Enemy.getHP, hit.1, h0, Enemy.new]
  omega

theorem enemy_removal_threshold_witness :
    (woundedGame._animate sampleFrame).1.enemies.map Enemy.ref = [2] ∧
    (((Enemy.decreaseHP^[10] { ref := 1, box3 := cube 20 21, hp := 9 }).update
        (sampleFrame.enemyBox 1) ∈ (woundedGame._animate sampleFrame).1.enemies) ↔ 10 ≤ 9) :=
  ⟨by decide,
    (enemy_removal_threshold woundedGame sampleFrame (by decide)).2.2 10
      { ref := 1, box3 := cube 20 21, hp := 9 } rfl (by decide)⟩

end ThirdGame

/-! ## Properties of the score -/

namespace FirstGame

open Three

/-- C25, as stated, fails: two calls with 3/5 each; the second call resets the
accumulator from 3/5 to 0. -/
theorem score_accumulator_counterexample :
    (0 : ℚ) ≤ 3 / 5 ∧
    ((Score.new.updateScore (3 / 5)).updateScore (3 / 5)).cumulative <
      (Score.new.updateScore (3 / 5)).cumulative := by
  constructor
  · norm_num
  · simp [Score.updateScore, Score.new]
    norm_num

/-- C25, amended. A call of `updateScore` with a frame time that is not negative never
lowers the score. When it leaves the score as it is, the accumulator has grown by the
frame time and so has not decreased; when it raises the score, by one, the accumulator
plus the frame time was above 1 and the accumulator is reset to 0. -/
theorem score_counters (s : Score) (dt : ℚ) (hdt : 0 ≤ dt) :
    s.score ≤ (s.updateScore dt).score ∧
    ((s.updateScore dt).score = s.score →
      (s.updateScore dt).cumulative = s.cumulative + dt ∧
        s.cumulative ≤ (s.updateScore dt).cumulative) ∧
    ((s.updateScore dt).score ≠ s.score →
      (s.updateScore dt).score = s.score + 1 ∧ 1 < s.cumulative + dt ∧
        (s.updateScore dt).cumulative = 0) := by
  unfold Score.updateScore
  simp only
  split
  · rename_i h
    refine ⟨Nat.le_succ _, fun h1 => ?_, fun _ => ⟨rfl, h, rfl⟩⟩
    simp at h1
  · refine ⟨le_refl _, fun _ => ⟨rfl, ?_⟩, fun h1 => absurd rfl h1⟩
    show s.cumulative ≤ s.cumulative + dt
    linarith

theorem score_counters_witness :
    (0 : ℚ) ≤ 3 / 5 ∧ (Score.new.updateScore (3 / 5)).score = Score.new.score ∧
      (Score.new.updateScore (3 / 5)).cumulative = Score.new.cumulative + 3 / 5 ∧
      Score.new.cumulative ≤ (Score.new.updateScore (3 / 5)).cumulative :=
  have hkeep : (Score.new.updateScore (3 / 5)).score = Score.new.score := by
    simp only [Score.updateScore, Score.new]
    norm_num
  ⟨by norm_num, hkeep, (score_counters Score.new (3 / 5) (by norm_num)).2.1 hkeep⟩

end FirstGame

/-! ## Properties of the monster's patrol -/

namespace SecondGame

open Three

theorem getAxis_setAxis (v : Vector3 ℚ) (axis : Axis) (value : ℚ) :
    getAxis (setAxis v axis value) axis = value := by
  cases axis <;> rfl

theorem Monster.update_along (m : Monster) (dt : ℚ) (volume : Box3) :
    (m.update dt volume).minPos = m.minPos ∧ (m.update dt volume).maxPos = m.maxPos ∧
    (m.update dt volume).along =
      Binary64.nearest (m.along + Binary64.nearest (m.speed * dt)) ∧
    (m.update dt volume).speed =
      (if Binary64.nearest (m.along + Binary64.nearest (m.speed * dt)) < m.minPos ∨
          Binary64.nearest (m.along + Binary64.nearest (m.speed * dt)) > m.maxPos
       then -m.speed else m.speed) := by
  unfold Monster.update Monster.along
  simp only [getAxis_setAxis]
  split <;> simp [getAxis_setAxis]

theorem Monster.update_exact (m : Monster) (dt : ℚ) (k : ℕ) (a b p d : ℤ)
    (hdt : 0 < dt) (hrange : 3 * dt ≤ m.maxPos - m.minPos)
    (hgrid : m.Unrounded dt k a b p d) (h : m.Patrolling dt) :
    Binary64.nearest (m.along + Binary64.nearest (m.speed * dt)) = m.along + m.speed * dt ∧
      ∃ p' : ℤ, m.along + m.speed * dt = (p' : ℚ) / 2 ^ k := by
  obtain ⟨hk, hmin, hmax, hpos, hd, hlo, hhi⟩ := hgrid
  have hpow : (0 : ℚ) < 2 ^ k := by positivity
  have hdpos : 0 < d := by
    rw [hd] at hdt
    have := (div_pos_iff_of_pos_right hpow).1 hdt
    exact_mod_cast this
  have hab : 3 * d ≤ b - a := by
    rw [hd, hmax, hmin, ← sub_div, ← mul_div_assoc, div_le_div_iff_of_pos_right hpow] at hrange
    exact_mod_cast hrange
  have hspeed : m.speed = 3 ∨ m.speed = -3 := by
    rcases h with ⟨_, _, h3⟩ | ⟨_, _, h3⟩ | ⟨_, _, h3⟩
    · exact h3
    · exact Or.inr h3
    · exact Or.inl h3
  -- the step is a double
  have hstep : Binary64.nearest (m.speed * dt) = m.speed * dt := by
    rcases hspeed with hs | hs
    · have e : m.speed * dt = ((3 * d : ℤ) : ℚ) / 2 ^ k := by
        rw [hs, hd]
        push_cast
        ring
      rw [e]
      exact Binary64.nearest_eq_self _ k hk (by rw [abs_lt]; constructor <;> omega)
    · have e : m.speed * dt = ((-3 * d : ℤ) : ℚ) / 2 ^ k := by
        rw [hs, hd]
        push_cast
        ring
      rw [e]
      exact Binary64.nearest_eq_self _ k hk (by rw [abs_lt]; constructor <;> omega)
  -- the sum lies between `minPos - 3 * dt` and `maxPos + 3 * dt`
  have hsum : m.minPos - 3 * dt ≤ m.along + m.speed * dt ∧
      m.along + m.speed * dt ≤ m.maxPos + 3 * dt := by
    rcases h with ⟨h1, h2, h3 | h3⟩ | ⟨h1, h2, h3⟩ | ⟨h1, h2, h3⟩ <;> rw [h3] <;>
      constructor <;> linarith
  -- and it is a multiple of `2 ^ -k`
  obtain ⟨n, hn⟩ : ∃ n : ℤ, m.along + m.speed * dt = (n : ℚ) / 2 ^ k := by
    rcases hspeed with hs | hs
    · exact ⟨p + 3 * d, by rw [hs, hpos, hd]; push_cast; ring⟩
    · exact ⟨p - 3 * d, by rw [hs, hpos, hd]; push_cast; ring⟩
  have hnlo : a - 3 * d ≤ n := by
    have := hsum.1
    rw [hn, hmin, hd, ← mul_div_assoc, ← sub_div, div_le_div_iff_of_pos_right hpow] at this
    exact_mod_cast this
  have hnhi : n ≤ b + 3 * d := by
    have := hsum.2
    rw [hn, hmax, hd, ← mul_div_assoc, ← add_div, div_le_div_iff_of_pos_right hpow] at this
    exact_mod_cast this
  refine ⟨?_, n, hn⟩
  rw [hstep, hn]
  exact Binary64.nearest_eq_self n k hk (by rw [abs_lt]; constructor <;> omega)

theorem Monster.update_patrolling (m : Monster) (dt : ℚ) (volume : Box3) (k : ℕ)
    (a b p d : ℤ) (hdt : 0 < dt) (hrange : 3 * dt ≤ m.maxPos - m.minPos)
    (hgrid : m.Unrounded dt k a b p d) (h : m.Patrolling dt) :
    (m.update dt volume).Patrolling dt ∧ ∃ p' : ℤ, (m.update dt volume).Unrounded dt k a b p' d := by
  obtain ⟨hmin, hmax, halong, hspeed⟩ := m.update_along dt volume
  obtain ⟨hexact, p', hp'⟩ := m.update_exact dt k a b p d hdt hrange hgrid h
  rw [hexact] at halong hspeed
  constructor
  · unfold Monster.Patrolling at h ⊢
    rw [hmin, hmax, halong, hspeed]
    rcases h with ⟨h1, h2, h3 | h3⟩ | ⟨h1, h2, h3⟩ | ⟨h1, h2, h3⟩
    · rw [h3]
      by_cases hout : m.along + 3 * dt < m.minPos ∨ m.along + 3 * dt > m.maxPos
      · rw [if_pos hout]
        rcases hout with hout | hout
        · linarith
        · right; left
          refine ⟨hout, by linarith, rfl⟩
      · rw [if_neg hout]
        left
        simp only [not_or, not_lt, gt_iff_lt] at hout
        exact ⟨hout.1, hout.2, Or.inl rfl⟩
    · rw [h3]
      by_cases hout : m.along + -3 * dt < m.minPos ∨ m.along + -3 * dt > m.maxPos
      · rw [if_pos hout]
        rcases hout with hout | hout
        · right; right
          refine ⟨hout, by linarith, by norm_num⟩
        · linarith
      · rw [if_neg hout]
        left
        simp only [not_or, not_lt, gt_iff_lt] at hout
        exact ⟨hout.1, hout.2, Or.inr rfl⟩
    · rw [h3]
      have hin : ¬ (m.along + -3 * dt < m.minPos ∨ m.along + -3 * dt > m.maxPos) := by
        simp only [not_or, not_lt, gt_iff_lt]
        constructor <;> linarith
      rw [if_neg hin]
      left
      exact ⟨by linarith, by linarith, Or.inr rfl⟩
    · rw [h3]
      have hin : ¬ (m.along + 3 * dt < m.minPos ∨ m.along + 3 * dt > m.maxPos) := by
        simp only [not_or, not_lt, gt_iff_lt]
        constructor <;> linarith
      rw [if_neg hin]
      left
      exact ⟨by linarith, by linarith, Or.inl rfl⟩
  · obtain ⟨hk, hmin', hmax', _, hd, hlo, hhi⟩ := hgrid
    exact ⟨p', hk, hmin.trans hmin', hmax.trans hmax', halong.trans hp', hd, hlo, hhi⟩

theorem Monster.updates_patrolling (dt : ℚ) (hdt : 0 < dt) (k : ℕ) (a b d : ℤ)
    (volumes : List Box3) :
    ∀ (m : Monster) (p : ℤ), 3 * dt ≤ m.maxPos - m.minPos → m.Unrounded dt k a b p d →
      m.Patrolling dt →
      (m.updates dt volumes).Patrolling dt ∧ (m.updates dt volumes).minPos = m.minPos ∧
        (m.updates dt volumes).maxPos = m.maxPos ∧
        ∃ p' : ℤ, (m.updates dt volumes).Unrounded dt k a b p' d := by
  induction volumes with
  | nil => intro m p _ hgrid h; exact ⟨h, rfl, rfl, p, hgrid⟩
  | cons volume rest ih =>
    intro m p hrange hgrid h
    obtain ⟨hmin, hmax, _, _⟩ := m.update_along dt volume
    obtain ⟨hpat, p1, hgrid1⟩ := m.update_patrolling dt volume k a b p d hdt hrange hgrid h
    obtain ⟨h1, h2, h3, h4⟩ := ih (m.update dt volume) p1 (by rw [hmin, hmax]; exact hrange)
      hgrid1 hpat
    exact ⟨h1, h2.trans hmin, h3.trans hmax, h4⟩

theorem edgeMonster_cycle :
    (edgeMonster.update edgeTime (cube 0 1)).along = 564005484583977 / 2 ^ 46 ∧
    ((edgeMonster.update edgeTime (cube 0 1)).update edgeTime (cube 0 1)).along =
      5 + 1 / 2 ^ 50 ∧
    (((edgeMonster.update edgeTime (cube 0 1)).update edgeTime (cube 0 1)).update edgeTime
      (cube 0 1)) = edgeMonster.update edgeTime (cube 0 1) := by
  decide!

theorem edgeMonster_outside (n : Nat) :
    (Monster.updates (edgeMonster.update edgeTime (cube 0 1)) edgeTime
        (List.replicate n (cube 0 1)) = edgeMonster.update edgeTime (cube 0 1) ∨
      Monster.updates (edgeMonster.update edgeTime (cube 0 1)) edgeTime
        (List.replicate n (cube 0 1)) =
          (edgeMonster.update edgeTime (cube 0 1)).update edgeTime (cube 0 1)) ∧
    (Monster.updates ((edgeMonster.update edgeTime (cube 0 1)).update edgeTime (cube 0 1))
        edgeTime (List.replicate n (cube 0 1)) = edgeMonster.update edgeTime (cube 0 1) ∨
      Monster.updates ((edgeMonster.update edgeTime (cube 0 1)).update edgeTime (cube 0 1))
        edgeTime (List.replicate n (cube 0 1)) =
          (edgeMonster.update edgeTime (cube 0 1)).update edgeTime (cube 0 1)) := by
  induction n with
  | zero => exact ⟨Or.inl rfl, Or.inr rfl⟩
  | succ n ih =>
    simp only [List.replicate_succ, Monster.updates]
    rw [edgeMonster_cycle.2.2]
    exact ⟨ih.2, ih.1⟩

/-- C27, as stated, fails on the doubles the code computes with. The monster that
patrols between -5 and 5 starts at 5 with speed 3 and is updated with the frame time
1.005, which is positive and has `3 * dt` below the width 10. The first update puts it
at 8.015, outside the bounds; the next update puts it at `5 + 2 ^ -50`, still above
`maxPos`; and after every later update it is above `maxPos` as well. -/
theorem monster_patrol_counterexample :
    (0 < edgeTime ∧ 3 * edgeTime ≤ edgeMonster.maxPos - edgeMonster.minPos ∧
      edgeMonster.speed = 3 ∧ edgeMonster.minPos ≤ edgeMonster.along ∧
      edgeMonster.along ≤ edgeMonster.maxPos ∧ Binary64.nearest edgeTime = edgeTime) ∧
    (edgeMonster.updates edgeTime [cube 0 1]).along = 564005484583977 / 2 ^ 46 ∧
    edgeMonster.maxPos < (edgeMonster.updates edgeTime [cube 0 1]).along ∧
    (edgeMonster.updates edgeTime [cube 0 1, cube 0 1]).along = 5 + 1 / 2 ^ 50 ∧
    edgeMonster.maxPos < (edgeMonster.updates edgeTime [cube 0 1, cube 0 1]).along ∧
    ∀ n : Nat, edgeMonster.maxPos <
      (edgeMonster.updates edgeTime (List.replicate (n + 1) (cube 0 1))).along := by
  refine ⟨by decide!, edgeMonster_cycle.1, ?_, edgeMonster_cycle.2.1, ?_, ?_⟩
  · show edgeMonster.maxPos < (edgeMonster.update edgeTime (cube 0 1)).along
    rw [edgeMonster_cycle.1]
    norm_num [edgeMonster, Monster.new]
  · show edgeMonster.maxPos <
      ((edgeMonster.update edgeTime (cube 0 1)).update edgeTime (cube 0 1)).along
    rw [edgeMonster_cycle.2.1]
    norm_num [edgeMonster, Monster.new]
  · intro n
    show edgeMonster.maxPos < (Monster.updates (edgeMonster.update edgeTime (cube 0 1))
      edgeTime (List.replicate n (cube 0 1))).along
    rcases (edgeMonster_outside n).1 with h | h <;> rw [h]
    · rw [edgeMonster_cycle.1]
      norm_num [edgeMonster, Monster.new]
    · rw [edgeMonster_cycle.2.1]
      norm_num [edgeMonster, Monster.new]

/-- C27, amended. A monster starts within its bounds with speed 3 or -3 and is updated
any number of times with the same frame time `dt`, which is positive and with `3 * dt`
at most the width of the bounds. When `minPos`, `maxPos`, the starting position and
`dt` are multiples of `2 ^ -k`, with `k` at most 1074, and `minPos - 3 * dt` and
`maxPos + 3 * dt` have fewer than 54 binary digits as such multiples, no product and no
sum of the updates is rounded, and then after every update the position along the axis
lies between `minPos - 3 * dt` and `maxPos + 3 * dt`, the speed is 3 or -3, and when the
position is outside the bounds the next update brings it back within them. -/
theorem monster_patrol_bound (m : Monster) (dt : ℚ) (volumes : List Box3) (k : ℕ)
    (a b p d : ℤ) (hgrid : m.Unrounded dt k a b p d)
    (hdt : 0 < dt) (hrange : 3 * dt ≤ m.maxPos - m.minPos)
    (hspeed : m.speed = 3 ∨ m.speed = -3)
    (hstart : m.minPos ≤ m.along ∧ m.along ≤ m.maxPos) :
    m.minPos - 3 * dt ≤ (m.updates dt volumes).along ∧
    (m.updates dt volumes).along ≤ m.maxPos + 3 * dt ∧
    ((m.updates dt volumes).speed = 3 ∨ (m.updates dt volumes).speed = -3) ∧
    (¬ (m.minPos ≤ (m.updates dt volumes).along ∧ (m.updates dt volumes).along ≤ m.maxPos) →
      ∀ volume : Box3, m.minPos ≤ ((m.updates dt volumes).update dt volume).along ∧
        ((m.updates dt volumes).update dt volume).along ≤ m.maxPos) := by
  obtain ⟨hp, hmin, hmax, p', hgrid'⟩ := Monster.updates_patrolling dt hdt k a b d volumes m p
    hrange hgrid (Or.inl ⟨hstart.1, hstart.2, hspeed⟩)
  have hrange' : 3 * dt ≤ (m.updates dt volumes).maxPos - (m.updates dt volumes).minPos := by
    rw [hmin, hmax]
    exact hrange
  have hexact := ((m.updates dt volumes).update_exact dt k a b p' d hdt hrange' hgrid' hp).1
  unfold Monster.Patrolling at hp
  rw [hmin, hmax] at hp
  refine ⟨?_, ?_, ?_, ?_⟩
  · rcases hp with ⟨h1, h2, h3⟩ | ⟨h1, h2, h3⟩ | ⟨h1, h2, h3⟩ <;> linarith
  · rcases hp with ⟨h1, h2, h3⟩ | ⟨h1, h2, h3⟩ | ⟨h1, h2, h3⟩ <;> linarith
  · rcases hp with ⟨h1, h2, h3⟩ | ⟨h1, h2, h3⟩ | ⟨h1, h2, h3⟩
    · exact h3
    · exact Or.inr h3
    · exact Or.inl h3
  · intro hout volume
    have halong := ((m.updates dt volumes).update_along dt volume).2.2.1
    rw [halong, hexact]
    rcases hp with ⟨h1, h2, h3⟩ | ⟨h1, h2, h3⟩ | ⟨h1, h2, h3⟩
    · exact absurd ⟨h1, h2⟩ hout
    · rw [h3]
      constructor <;> linarith
    · rw [h3]
      constructor <;> linarith

theorem monster_patrol_bound_witness :
    (-10 : ℚ) - 3 * (1 / 2) ≤
        ((Monster.new 15 12 (-1) .z (-10) 0).updates (1 / 2) [cube 0 1, cube 0 1]).along ∧
      ((Monster.new 15 12 (-1) .z (-10) 0).updates (1 / 2) [cube 0 1, cube 0 1]).along ≤
        0 + 3 * (1 / 2) :=
  ⟨(monster_patrol_bound (Monster.new 15 12 (-1) .z (-10) 0) (1 / 2) [cube 0 1, cube 0 1]
      1 (-20) 0 (-2) 1
      (by norm_num [Monster.Unrounded, Monster.new, Monster.along, getAxis])
      (by norm_num) (by norm_num [Monster.new]) (Or.inl rfl)
      (by norm_num [Monster.new, Monster.along, getAxis])).1,
    (monster_patrol_bound (Monster.new 15 12 (-1) .z (-10) 0) (1 / 2) [cube 0 1, cube 0 1]
      1 (-20) 0 (-2) 1
      (by norm_num [Monster.Unrounded, Monster.new, Monster.along, getAxis])
      (by norm_num) (by norm_num [Monster.new]) (Or.inl rfl)
      (by norm_num [Monster.new, Monster.along, getAxis])).2.1⟩

end SecondGame

/-! ## Properties of the spacing of the conveyor -/

namespace FirstGame

open Three

theorem Conveyor.createOrRemove?_eq (c : Conveyor) (f : Frame) :
    c.createOrRemove? f = some (c.createOrRemove f) := by
  unfold Conveyor.createOrRemove? Conveyor.createOrRemove
  split
  · rfl
  · rename_i h
    cases hb : c.boxes with
    | nil => rw [hb] at h; simp [Conveyor.maxBox] at h
    | cons first rest =>
      simp only [List.getElem?_cons_zero]
      split <;> rfl

theorem chain_index {α : Type} (R : α → α → Prop) (l : List α) (h : List.Chain' R l) :
    ∀ (i : Nat) (a b : α), l[i]? = some a → l[i + 1]? = some b → R a b := by
  induction l with
  | nil => intro i a b ha; simp at ha
  | cons x rest ih =>
    intro i a b ha hb
    cases i with
    | zero =>
      simp only [List.getElem?_cons_zero, Option.some.injEq] at ha
      subst ha
      cases rest with
      | nil => simp at hb
      | cons y r =>
        simp only [zero_add, List.getElem?_cons_succ, List.getElem?_cons_zero,
          Option.some.injEq] at hb
        subst hb
        exact (List.chain'_cons.1 h).1
    | succ j =>
      simp only [List.getElem?_cons_succ] at ha hb
      exact ih h.tail j a b ha hb

theorem spaced_index (l : List Box)
    (h : ∀ (i : Nat) (a b : Box), l[i]? = some a → l[i + 1]? = some b →
      b.position.z = a.position.z - 20) (first : Box) (h0 : l[0]? = some first) :
    ∀ (i : Nat) (b : Box), l[i]? = some b → b.position.z = first.position.z - 20 * i := by
  intro i
  induction i with
  | zero =>
    intro b hb
    rw [h0] at hb
    simp only [Option.some.injEq] at hb
    subst hb
    simp
  | succ j ih =>
    intro b hb
    have hj : j < l.length := by
      have := (List.getElem?_eq_some_iff.1 hb).1
      omega
    have ha : l[j]? = some l[j] := List.getElem?_eq_getElem hj
    rw [h j _ b ha hb, ih _ ha]
    push_cast
    ring

theorem Conveyor.createOrRemove_spaced (c : Conveyor) (f : Frame) (h : c.Spaced) :
    (c.createOrRemove f).1.Spaced := by
  obtain ⟨hgap, hlen, hchain⟩ := h
  unfold Conveyor.createOrRemove
  split
  · rename_i hlt
    refine ⟨hgap, ?_, ?_⟩
    · simp only [Conveyor._create, List.length_append, List.length_singleton]
      unfold Conveyor.maxBox at hlt ⊢
      omega
    · simp only [Conveyor._create]
      rw [List.chain'_append]
      refine ⟨hchain, List.chain'_singleton _, ?_⟩
      intro x hx y hy
      simp only [List.head?_cons, Option.mem_def, Option.some.injEq] at hy
      rw [Option.mem_def] at hx
      subst hy
      simp only [Box.new, hx, hgap]
      ring
  · cases hb : c.boxes with
    | nil =>
      rw [hb] at hlen hchain
      exact ⟨hgap, by simp [hb], by simp [hb]⟩
    | cons first rest =>
      simp only
      split
      · simp only [Conveyor._remove, hb]
        rw [hb] at hlen hchain
        refine ⟨hgap, ?_, hchain.tail⟩
        simp only [List.length_cons] at hlen
        show rest.length ≤ Conveyor.maxBox
        omega
      · exact ⟨hgap, hlen, hchain⟩

theorem Conveyor.update_spaced (c : Conveyor) (f : Frame) (score : Nat) (h : c.Spaced) :
    (c.update f score).conveyor.Spaced := by
  obtain ⟨hgap, hlen, hchain⟩ := c.createOrRemove_spaced f h
  have hboxes := c.update_boxes f score
  refine ⟨?_, ?_, ?_⟩
  · simp only [Conveyor.update, Conveyor.ramp]
    split <;> exact hgap
  · rw [hboxes, List.length_map]
    exact hlen
  · rw [hboxes, List.chain'_map]
    refine hchain.imp ?_
    intro a b hab
    simp only [Box.setPosition, hab]
    ring

theorem Scene.update_keeps_spaced (c : Conveyor) (h : c.Spaced) : (Scene.update c).1.Spaced := by
  unfold Scene.update
  split
  · split <;> exact h
  · exact h

theorem GameManager.Reachable.spaced (g : GameManager) (hg : g.Reachable) :
    g.conveyor.Spaced := by
  induction hg with
  | start => exact ⟨rfl, by simp [GameManager.new, Conveyor.new], by
      simp [GameManager.new, Conveyor.new]⟩
  | keys g d a _ ih => exact ih
  | tick g f _ _ ih =>
    rw [(g.animate_fields f).2]
    exact Scene.update_keeps_spaced _ (g.conveyor.update_spaced f _ ih)

/-- C26. In every state a session of the first game reaches, a call of
`Conveyor.update`, with any frame time, finds a first box when it reads
`this._boxes[0]`, and it leaves at most 10 boxes, each of them exactly 20 behind the box
before it in the array: the box at index `i` lies `20 * i` behind the first box, so no
box has a greater z than the first box, the one compared with 30. -/
theorem conveyor_spacing (g : GameManager) (hg : g.Reachable) (f : Frame) (score : Nat) :
    g.conveyor.createOrRemove? f = some (g.conveyor.createOrRemove f) ∧
    (g.conveyor.update f score).conveyor.boxes.length ≤ 10 ∧
    (∀ (i : Nat) (a b : Box), (g.conveyor.update f score).conveyor.boxes[i]? = some a →
      (g.conveyor.update f score).conveyor.boxes[i + 1]? = some b →
      b.position.z = a.position.z - 20) ∧
    (∀ (i : Nat) (first b : Box), (g.conveyor.update f score).conveyor.boxes[0]? = some first →
      (g.conveyor.update f score).conveyor.boxes[i]? = some b →
      b.position.z = first.position.z - 20 * i) ∧
    (∀ first b : Box, (g.conveyor.update f score).conveyor.boxes[0]? = some first →
      b ∈ (g.conveyor.update f score).conveyor.boxes → b.position.z ≤ first.position.z) := by
  obtain ⟨_, hlen, hchain⟩ := g.conveyor.update_spaced f score hg.spaced
  have hadj := chain_index _ _ hchain
  refine ⟨g.conveyor.createOrRemove?_eq f, hlen, hadj, ?_, ?_⟩
  · intro i first b h0 hb
    exact spaced_index _ hadj first h0 i b hb
  · intro first b h0 hb
    obtain ⟨i, hi⟩ := List.getElem?_of_mem hb
    rw [spaced_index _ hadj first h0 i b hi]
    have : (0 : ℚ) ≤ 20 * (i : ℚ) := by positivity
    linarith

theorem conveyor_spacing_witness :
    (GameManager.advance GameManager.new (List.replicate 10 slowFrame)).1.conveyor.boxes.length
      = 10 ∧
    (GameManager.advance GameManager.new
        (List.replicate 10 slowFrame)).1.conveyor.createOrRemove? slowFrame =
      some ((GameManager.advance GameManager.new
        (List.replicate 10 slowFrame)).1.conveyor.createOrRemove slowFrame) ∧
    (((GameManager.advance GameManager.new (List.replicate 10 slowFrame)).1.conveyor.update
      slowFrame 10).conveyor.boxes.map (fun b => b.position.z)) =
        [590, 570, 550, 530, 510, 490, 470, 450, 430] ∧
    ∀ (i : Nat) (a b : Box),
      ((GameManager.advance GameManager.new (List.replicate 10 slowFrame)).1.conveyor.update
        slowFrame 10).conveyor.boxes[i]? = some a →
      ((GameManager.advance GameManager.new (List.replicate 10 slowFrame)).1.conveyor.update
        slowFrame 10).conveyor.boxes[i + 1]? = some b →
      b.position.z = a.position.z - 20 :=
  ⟨by decide!,
    (conveyor_spacing (GameManager.advance GameManager.new (List.replicate 10 slowFrame)).1
      (GameManager.Reachable.advance _ _ GameManager.Reachable.start (by decide!))
      slowFrame 10).1,
    by decide!,
    (conveyor_spacing (GameManager.advance GameManager.new (List.replicate 10 slowFrame)).1
      (GameManager.Reachable.advance _ _ GameManager.Reachable.start (by decide!))
      slowFrame 10).2.2.1⟩

end FirstGame
